import Mathlib

/-!
# earring: the recursive-descent parser of `parser/parser.go`

A shallow embedding of the parser and of its tick arithmetic, and the
properties of the specification proved or refuted on it.

* The token source (`lexer.Scanner`) is a list of tokens; once the list is
  used up the scanner answers `EOF` for ever.
* The single-slot pushback buffer of `Parser` is explicit state.
* Go's `(value, error)` results are the type `Res`: `ok` for `err == nil`,
  `err` for `err != nil`, `panic` for a run-time panic (integer division by
  zero, nil dereference) and `timeout` when the fuel of a loop runs out.
  A function that writes through its `*types.Bar` argument returns the bar
  next to its result.
* Every `for` loop of the parser is a function by recursion on fuel;
  `scanIgnoreWhitespace` carries its own bound, which is proved sufficient.
* Machine integers are naturals, reduced modulo `2 ^ w` where the source
  computes in `uintw`.
* `float64` values are non-negative fractions `num / den`. The only
  floating-point product of the parser, `float64(ticksPerSubdivision) * delta`,
  is taken exactly in `playableTick`. `parseOn` passes the fractional part of
  a `float32` value (`strconv.ParseFloat(lit, 32)`), which has at most 24
  significant bits, and the factor is below `2 ^ 10`: that product is exact in
  `float64` (`mulFloat64_exact`). `playableTickFloat64` is the same arithmetic
  with the product rounded to `float64`, for any delta; the two agree on the
  deltas a `float32` holds and can differ by one elsewhere.
* `fmt.Errorf` messages are kept as structured values holding the literal and
  the expected category.
* The packages `lexer`, `types` and `midi` and the libraries `go-harmony` and
  `strconv` are not part of the shown source: token kinds and the score data
  model follow the specification, resolvers, instrument table and
  `ParseFloat` are parameters (`Env`), `ParseUint` is written out.
-/

namespace Earring

/-! ## Tokens (package `lexer`) -/

/-- Modelled from the spec: the token kinds of package `lexer` (whose source is
not shown), as listed in §6 of the specification and as named in `parser.go`.
`ILLEGAL` stands for the zero value of `lexer.Token`, held by a fresh
pushback buffer. -/
inductive Tok where
  | ILLEGAL | EOF | WHITESPACE | COMMENT
  | IDENTIFIER | STRING | NUMBER | FLOAT
  | SEMICOLON | BRACKET_OPEN | BRACKET_CLOSE
  | PROJECT | TRACK | BAR | BPM | TIME | ON | BEAT | PLAY
  | WHOLE | HALF | QUARTER | TH | ND
  | NOTE | CHORD | CYMBAL | SNARE | OPEN_HI_HAT | VELOCITY
  | COPYRIGHT | TEXT | INSTRUMENT
  deriving DecidableEq, Repr

/-- A scanned token: its kind and its literal. -/
structure Token where
  tok : Tok
  lit : String
  deriving DecidableEq, Repr

/-- Modelled from the spec: `lexer.Scanner.Scan` on a token source that yields
its tokens and then end-of-input for ever. -/
def Scan : List Token → Token × List Token
  | [] => (⟨Tok.EOF, ""⟩, [])
  | t :: ts => (t, ts)

/-! ## The parser state -/

/-- The `Parser` struct: the scanner `s` and the pushback buffer `buf`. -/
structure Parser where
  s : List Token
  bufTok : Tok
  bufLit : String
  bufN : Nat
  deriving DecidableEq, Repr

/-- `NewParser`: a parser over a token source, with a zero-valued buffer. -/
def NewParser (r : List Token) : Parser :=
  { s := r, bufTok := Tok.ILLEGAL, bufLit := "", bufN := 0 }

/-- `scan`: the buffered token if one was unscanned, else the next token of
the scanner, which is saved to the buffer. -/
def Parser.scan (p : Parser) : Token × Parser :=
  if p.bufN ≠ 0 then
    (⟨p.bufTok, p.bufLit⟩, { p with bufN := 0 })
  else
    let r := Scan p.s
    (r.1, { p with s := r.2, bufTok := r.1.tok, bufLit := r.1.lit })

/-- `unscan`: push the previously read token back onto the buffer. -/
def Parser.unscan (p : Parser) : Parser := { p with bufN := 1 }

/-- The loop of `scanIgnoreWhitespace`, bounded by `k` iterations. -/
def scanIgnoreWhitespaceLoop : Nat → Parser → Token × Parser
  | 0, p => p.scan
  | k + 1, p =>
    let r := p.scan
    if r.1.tok = Tok.WHITESPACE ∨ r.1.tok = Tok.COMMENT then
      scanIgnoreWhitespaceLoop k r.2
    else r

/-- `scanIgnoreWhitespace`: scan the next token that is neither whitespace nor
a comment. Every iteration but the first consumes a token of the scanner and
the exhausted scanner answers `EOF`, so `len(s) + 1` iterations are enough
(see `scanIgnoreWhitespace_not_ws`). -/
def Parser.scanIgnoreWhitespace (p : Parser) : Token × Parser :=
  scanIgnoreWhitespaceLoop (p.s.length + 1) p

/-! ## Numbers (package `strconv`) -/

/-- The value of a string of decimal digits, most significant first. -/
def digitsValue (cs : List Char) : Nat :=
  cs.foldl (fun n c => 10 * n + (c.toNat - 48)) 0

/-- `strconv.ParseUint(s, 10, bitSize)`: a non-empty string of ASCII digits
whose value fits in `bitSize` bits; anything else is an error. -/
def parseUint (s : String) (bitSize : Nat) : Option Nat :=
  if s.data = [] then none
  else if s.data.all (fun c => decide (48 ≤ c.toNat ∧ c.toNat ≤ 57)) then
    if digitsValue s.data < 2 ^ bitSize then some (digitsValue s.data) else none
  else none

/-- A non-negative `float64`, as the fraction `num / den`. -/
structure GoFloat where
  num : Nat
  den : Nat
  deriving DecidableEq, Repr

/-- `math.Modf`: the integer part and the fractional part. -/
def Modf (f : GoFloat) : Nat × GoFloat :=
  (f.num / f.den, ⟨f.num % f.den, f.den⟩)

/-! ## The score data model (package `types`) -/

/-- Modelled from the spec: `types.Signature`, beats per bar and subdivision
unit, both `uint8`. -/
structure Signature where
  beats : Nat
  duration : Nat
  deriving DecidableEq, Repr

/-- Modelled from the spec: `types.NewSignature(beats, duration uint8)`. -/
def NewSignature (beats duration : Nat) : Signature :=
  { beats := beats % 2 ^ 8, duration := duration % 2 ^ 8 }

/-- Modelled from the spec: the two variants of `types.Playable`, a `Note`
holding one resolved note (of `notes.Note`, here `N`) or a `Chord` holding one
resolved chord (of `chords.Chord`, here `C`). -/
inductive Sound (N C : Type) where
  | note (n : N)
  | chord (c : C)
  deriving DecidableEq, Repr

/-- Modelled from the spec: `types.Playable`, a `Note` or a `Chord` with its
absolute tick (`uint32`), duration code (`uint16`) and velocity (`uint8`). -/
structure Playable (N C : Type) where
  sound : Sound N C
  tick : Nat
  duration : Nat
  velocity : Nat
  deriving DecidableEq, Repr

/-- Modelled from the spec: the setter `SetDuration` of `types.Playable`. -/
def Playable.SetDuration {N C : Type} (x : Playable N C) (d : Nat) : Playable N C :=
  { x with duration := d }

/-- Modelled from the spec: the setter `SetTick` of `types.Playable`. -/
def Playable.SetTick {N C : Type} (x : Playable N C) (t : Nat) : Playable N C :=
  { x with tick := t }

/-- Modelled from the spec: the setter `SetVelocity` of `types.Playable`. -/
def Playable.SetVelocity {N C : Type} (x : Playable N C) (v : Nat) : Playable N C :=
  { x with velocity := v }

/-- Modelled from the spec: `types.Bar`, with its offset (`uint32`), bpm,
signature (a pointer, nil until set), playables and texts. A playable entry
may be the nil interface value, hence `Option`. -/
structure Bar (N C : Type) where
  offset : Nat
  bpm : Option GoFloat
  signature : Option Signature
  playables : List (Option (Playable N C))
  texts : List String
  deriving DecidableEq, Repr

/-- Modelled from the spec: `types.NewBar(offset uint32)`, an empty bar at
that offset. -/
def NewBar (N C : Type) (offset : Nat) : Bar N C :=
  { offset := offset, bpm := none, signature := none, playables := [], texts := [] }

/-- Modelled from the spec: `types.Bar.AddPlayable`, which appends to the bar's
ordered list of playables. -/
def Bar.AddPlayable {N C : Type} (b : Bar N C) (x : Option (Playable N C)) : Bar N C :=
  { b with playables := b.playables ++ [x] }

/-- Modelled from the spec: `types.Bar.AddText`, which appends to the bar's
ordered list of texts. -/
def Bar.AddText {N C : Type} (b : Bar N C) (t : String) : Bar N C :=
  { b with texts := b.texts ++ [t] }

/-- Modelled from the spec: `types.Track`, with its name, bpm, signature,
instrument, bars, copyrights and texts. -/
structure Track (N C : Type) where
  name : String
  bpm : Option GoFloat
  signature : Option Signature
  instrument : Option String
  bars : List (Bar N C)
  copyrights : List String
  texts : List String
  deriving DecidableEq, Repr

/-- Modelled from the spec: `types.NewTrack()`, an empty track. -/
def NewTrack (N C : Type) : Track N C :=
  { name := "", bpm := none, signature := none, instrument := none,
    bars := [], copyrights := [], texts := [] }

/-- Modelled from the spec: `types.Track.AddBar`, which appends to the track's
ordered list of bars. -/
def Track.AddBar {N C : Type} (t : Track N C) (b : Bar N C) : Track N C :=
  { t with bars := t.bars ++ [b] }

/-- Modelled from the spec: `types.Project`, with bpm and signature unset
until a statement sets them. -/
structure Project (N C : Type) where
  name : String
  bpm : Option GoFloat
  signature : Option Signature
  tracks : List (Track N C)
  copyrights : List String
  texts : List String
  deriving DecidableEq, Repr

/-- Modelled from the spec: `types.NewProject()`, an empty project with bpm and
signature unset. -/
def NewProject (N C : Type) : Project N C :=
  { name := "", bpm := none, signature := none, tracks := [], copyrights := [], texts := [] }

/-- Modelled from the spec: `types.Project.AddTrack`, which appends to the
project's ordered list of tracks. -/
def Project.AddTrack {N C : Type} (pr : Project N C) (t : Track N C) : Project N C :=
  { pr with tracks := pr.tracks ++ [t] }

/-! ## External collaborators -/

/-- The functions the parser calls outside this repository's shown source:
the note and chord resolvers of `go-harmony`, the instrument table
`midi.InstrumentToPC`, `strconv.ParseFloat` (by literal and bit size), and the
velocity a fresh note or chord starts with. `none` is a returned error. -/
structure Env (N C : Type) where
  notesParse : String → Option N
  chordsParse : String → Option C
  instrumentToPC : String → Option Nat
  parseFloat : String → Nat → Option GoFloat
  defaultVelocity : Nat

/-- Modelled from the spec: `types.NewNote`, an ordinary note playable. -/
def NewNote {N C : Type} (env : Env N C) (n : N) : Playable N C :=
  { sound := Sound.note n, tick := 0, duration := 0, velocity := env.defaultVelocity }

/-- Modelled from the spec: `types.NewChord`, a chord playable. -/
def NewChord {N C : Type} (env : Env N C) (c : C) : Playable N C :=
  { sound := Sound.chord c, tick := 0, duration := 0, velocity := env.defaultVelocity }

/-! ## Results -/

/-- The errors the parser returns. `unexpected lit cat` is
`fmt.Errorf("found %q, expected <cat>", lit)`. -/
inductive ParseError where
  | unexpected (lit : String) (expected : String)
  | noSuchBeat (n : Nat)
  | noSuchBeatFloat (f : GoFloat)
  | unknownInstrument (lit : String)
  | strconv (lit : String)
  | resolver (lit : String)
  deriving DecidableEq, Repr

/-- The result of a parse function: a value and the parser state after it, a
returned error, a run-time panic, or exhausted fuel. -/
inductive Res (α : Type) where
  | ok (a : α) (p : Parser)
  | err (e : ParseError)
  | panic
  | timeout
  deriving DecidableEq, Repr

/-- Sequencing: `v, err := f(); if err != nil { return ..., err }; g(v)`. -/
def Res.bind {α β : Type} (r : Res α) (f : α → Parser → Res β) : Res β :=
  match r with
  | Res.ok a p => f a p
  | Res.err e => Res.err e
  | Res.panic => Res.panic
  | Res.timeout => Res.timeout

/-- What `Parse` hands back: Go's pair `(*types.Project, error)`, each of which
may be nil, or no return at all. -/
inductive Outcome (α : Type) where
  | returned (value : Option α) (error : Option ParseError)
  | panic
  | timeout
  deriving DecidableEq, Repr

/-! ## Statement parsers -/

/-- The function `parseBpm`. The literal is read from the buffer. -/
def parseBpm {N C : Type} (env : Env N C) (p : Parser) : Res GoFloat :=
  let r1 := p.scanIgnoreWhitespace
  if r1.1.tok ≠ Tok.NUMBER ∧ r1.1.tok ≠ Tok.FLOAT then
    Res.err (ParseError.unexpected r1.1.lit "number")
  else
    match env.parseFloat r1.2.bufLit 64 with
    | none => Res.err (ParseError.strconv r1.2.bufLit)
    | some beats =>
      let r2 := r1.2.scanIgnoreWhitespace
      if r2.1.tok ≠ Tok.SEMICOLON then
        Res.err (ParseError.unexpected r2.1.lit ";")
      else Res.ok beats r2.2

/-- The function `parseTimeSignature`. Both literals are read from the buffer. -/
def parseTimeSignature (p : Parser) : Res Signature :=
  let r1 := p.scanIgnoreWhitespace
  if r1.1.tok ≠ Tok.NUMBER then
    Res.err (ParseError.unexpected r1.1.lit "number")
  else
    match parseUint r1.2.bufLit 8 with
    | none => Res.err (ParseError.strconv r1.2.bufLit)
    | some beats =>
      let r2 := r1.2.scanIgnoreWhitespace
      if r2.1.tok ≠ Tok.NUMBER then
        Res.err (ParseError.unexpected r2.1.lit "number")
      else
        match parseUint r2.2.bufLit 8 with
        | none => Res.err (ParseError.strconv r2.2.bufLit)
        | some duration =>
          let r3 := r2.2.scanIgnoreWhitespace
          if r3.1.tok ≠ Tok.SEMICOLON then
            Res.err (ParseError.unexpected r3.1.lit ";")
          else Res.ok (NewSignature beats duration) r3.2

/-- The function `parseChord`. -/
def parseChord {N C : Type} (env : Env N C) (p : Parser) : Res (Playable N C) :=
  let r := p.scanIgnoreWhitespace
  if r.1.tok ≠ Tok.IDENTIFIER then
    Res.err (ParseError.unexpected r.1.lit "chord name")
  else
    match env.chordsParse r.1.lit with
    | none => Res.err (ParseError.resolver r.1.lit)
    | some chord => Res.ok (NewChord env chord) r.2

/-- The function `parseNote`. -/
def parseNote {N C : Type} (env : Env N C) (p : Parser) : Res (Playable N C) :=
  let r := p.scanIgnoreWhitespace
  if r.1.tok ≠ Tok.IDENTIFIER then
    Res.err (ParseError.unexpected r.1.lit "note name")
  else
    match env.notesParse r.1.lit with
    | none => Res.err (ParseError.resolver r.1.lit)
    | some note => Res.ok (NewNote env note) r.2

/-- The function `parseCopyright`. The missing-`;` error reports the literal
of the first token. -/
def parseCopyright (p : Parser) : Res String :=
  let r1 := p.scanIgnoreWhitespace
  if r1.1.tok ≠ Tok.IDENTIFIER ∧ r1.1.tok ≠ Tok.STRING then
    Res.err (ParseError.unexpected r1.1.lit "string")
  else
    let r2 := r1.2.scanIgnoreWhitespace
    if r2.1.tok ≠ Tok.SEMICOLON then
      Res.err (ParseError.unexpected r1.1.lit ";")
    else Res.ok r1.1.lit r2.2

/-- The function `parseText`. -/
def parseText (p : Parser) : Res String :=
  let r1 := p.scanIgnoreWhitespace
  if r1.1.tok ≠ Tok.IDENTIFIER ∧ r1.1.tok ≠ Tok.STRING then
    Res.err (ParseError.unexpected r1.1.lit "string")
  else
    let r2 := r1.2.scanIgnoreWhitespace
    if r2.1.tok ≠ Tok.SEMICOLON then
      Res.err (ParseError.unexpected r1.1.lit ";")
    else Res.ok r1.1.lit r2.2

/-- The function `parseInstrument`: the name is looked up in the instrument
table once the `;` is read. -/
def parseInstrument {N C : Type} (env : Env N C) (p : Parser) : Res String :=
  let r1 := p.scanIgnoreWhitespace
  if r1.1.tok ≠ Tok.IDENTIFIER ∧ r1.1.tok ≠ Tok.STRING then
    Res.err (ParseError.unexpected r1.1.lit "string")
  else
    let r2 := r1.2.scanIgnoreWhitespace
    if r2.1.tok ≠ Tok.SEMICOLON then
      Res.err (ParseError.unexpected r1.1.lit ";")
    else
      match env.instrumentToPC r1.1.lit with
      | none => Res.err (ParseError.unknownInstrument r1.1.lit)
      | some _ => Res.ok r1.1.lit r2.2

/-! ## Events -/

/-- The tick arithmetic of `parsePlayable`, in `uint32`; `beat - 1` is computed
in `uint8` first. `none` is a panic: a nil signature, or the division
`ticksPerBeat / GetDuration()` by zero. The product
`float64(ticksPerSubdivision) * delta` is taken exactly: it is the `float64`
product whenever that needs no rounding, which is so for every delta a
`float32` holds, the deltas `parseOn` passes (`playableTickFloat64_eq`). For
another `float64` delta the rounded product can reach the next integer; the
arithmetic with the rounding is `playableTickFloat64`. -/
def playableTick {N C : Type} (bar : Bar N C) (beat : Nat) (delta : GoFloat) : Option Nat :=
  match bar.signature with
  | none => none
  | some sig =>
    let ticksPerBeat := 960
    let ticksPerBar := (sig.beats * ticksPerBeat) % 2 ^ 32
    if sig.duration = 0 then none
    else
      let ticksPerSubdivision := ticksPerBeat / sig.duration
      let deltaTicks : GoFloat := ⟨ticksPerSubdivision * delta.num, delta.den⟩
      some (((bar.offset * ticksPerBar) % 2 ^ 32
        + (((beat + 255) % 2 ^ 8) * ticksPerBeat) % 2 ^ 32
        + (deltaTicks.num / deltaTicks.den) % 2 ^ 32) % 2 ^ 32)

/-- The inner loop of `parsePlayable`: read up to the `;`, which is pushed
back; `VELOCITY n` sets the velocity, any other token is skipped. -/
def parseVelocityLoop {N C : Type} : Nat → Playable N C → Parser → Res (Playable N C)
  | 0, _, _ => Res.timeout
  | fuel + 1, playable, p =>
    let r := p.scanIgnoreWhitespace
    if r.1.tok = Tok.SEMICOLON then Res.ok playable r.2.unscan
    else if r.1.tok = Tok.VELOCITY then
      let r2 := r.2.scanIgnoreWhitespace
      if r2.1.tok ≠ Tok.NUMBER then
        Res.err (ParseError.unexpected r2.1.lit "NUMBER")
      else
        match parseUint r2.1.lit 8 with
        | none => Res.err (ParseError.strconv r2.1.lit)
        | some tmp => parseVelocityLoop fuel (playable.SetVelocity (tmp % 2 ^ 8)) r2.2
    else parseVelocityLoop fuel playable r.2

/-- The outer loop of `parsePlayable`; `playable` is the local variable, nil
until an event is read. -/
def parsePlayableLoop {N C : Type} (env : Env N C) (bar : Bar N C) (duration beat : Nat)
    (delta : GoFloat) : Nat → Option (Playable N C) → Parser → Res (Option (Playable N C))
  | 0, _, _ => Res.timeout
  | fuel + 1, playable, p =>
    let r := p.scanIgnoreWhitespace
    if r.1.tok = Tok.SEMICOLON then Res.ok playable r.2
    else
      let rest : Playable N C → Parser → Res (Option (Playable N C)) := fun x p1 =>
        match playableTick bar beat delta with
        | none => Res.panic
        | some tick =>
          (parseVelocityLoop fuel (x.SetTick tick) p1).bind fun x2 p2 =>
            parsePlayableLoop env bar duration beat delta fuel (some x2) p2
      match r.1.tok with
      | Tok.CHORD =>
        (parseChord env r.2).bind fun chord p1 => rest (chord.SetDuration duration) p1
      | Tok.NOTE =>
        (parseNote env r.2).bind fun note p1 => rest (note.SetDuration duration) p1
      | Tok.CYMBAL =>
        match env.notesParse "D#4" with
        | none => Res.panic
        | some n => rest ((NewNote env n).SetDuration duration) r.2
      | Tok.SNARE =>
        match env.notesParse "D3" with
        | none => Res.panic
        | some n => rest ((NewNote env n).SetDuration duration) r.2
      | Tok.OPEN_HI_HAT =>
        match env.notesParse "A#3" with
        | none => Res.panic
        | some n => rest ((NewNote env n).SetDuration duration) r.2
      | _ => Res.err (ParseError.unexpected r.1.lit ";")

/-- The function `parsePlayable`. -/
def parsePlayable {N C : Type} (fuel : Nat) (env : Env N C) (bar : Bar N C)
    (duration beat : Nat) (delta : GoFloat) (p : Parser) : Res (Option (Playable N C)) :=
  parsePlayableLoop env bar duration beat delta fuel none p

/-- The tail of each branch of `parsePlay`:
`if err != nil { return err }; bar.AddPlayable(playable)`. The first
component is the bar the caller's pointer refers to afterwards. -/
def addParsed {N C : Type} (bar : Bar N C) (r : Res (Option (Playable N C))) :
    Bar N C × Res Unit :=
  match r with
  | Res.ok playable p => (bar.AddPlayable playable, Res.ok () p)
  | Res.err e => (bar, Res.err e)
  | Res.panic => (bar, Res.panic)
  | Res.timeout => (bar, Res.timeout)

/-- The ordinal-suffix check of `parsePlay`: the next token has to be `want`. -/
def expectSuffix (want : Tok) (p : Parser) : Res Unit :=
  let r := p.scanIgnoreWhitespace
  if r.1.tok ≠ want then Res.err (ParseError.unexpected r.1.lit "note name")
  else Res.ok () r.2

/-- The function `parsePlay`. -/
def parsePlay {N C : Type} (fuel : Nat) (env : Env N C) (bar : Bar N C) (beat : Nat)
    (delta : GoFloat) (p : Parser) : Bar N C × Res Unit :=
  let r := p.scanIgnoreWhitespace
  match r.1.tok with
  | Tok.WHOLE => addParsed bar (parsePlayable fuel env bar 1 beat delta r.2)
  | Tok.HALF => addParsed bar (parsePlayable fuel env bar 2 beat delta r.2)
  | Tok.QUARTER => addParsed bar (parsePlayable fuel env bar 4 beat delta r.2)
  | Tok.NUMBER =>
    match parseUint r.1.lit 16 with
    | none => (bar, Res.err (ParseError.strconv r.1.lit))
    | some value =>
      let suffix : Res Unit :=
        if value = 8 then expectSuffix Tok.TH r.2
        else if value = 16 then expectSuffix Tok.TH r.2
        else if value = 32 then expectSuffix Tok.ND r.2
        else if value = 64 then expectSuffix Tok.TH r.2
        else if value = 128 then expectSuffix Tok.TH r.2
        else if value = 256 then expectSuffix Tok.TH r.2
        else Res.err (ParseError.unexpected r.1.lit "value")
      match suffix with
      | Res.ok _ p1 => addParsed bar (parsePlayable fuel env bar (value % 2 ^ 16) beat delta p1)
      | Res.err e => (bar, Res.err e)
      | Res.panic => (bar, Res.panic)
      | Res.timeout => (bar, Res.timeout)
  | _ => (bar, Res.err (ParseError.unexpected r.1.lit "TIME, BEAT or \x7d"))

/-- The function `parseOn`. `tmp == 0 || tmp > GetBeats()` reads the signature
only when `tmp` is not zero. Conversions of the integer part of a float to
`uint64` and `uint8` are reductions modulo `2 ^ 64` and `2 ^ 8`. -/
def parseOn {N C : Type} (fuel : Nat) (env : Env N C) (bar : Bar N C) (p : Parser) :
    Bar N C × Res Unit :=
  let r1 := p.scanIgnoreWhitespace
  if r1.1.tok ≠ Tok.BEAT then
    (bar, Res.err (ParseError.unexpected r1.1.lit "beat"))
  else
    let r2 := r1.2.scanIgnoreWhitespace
    let rest : Nat → GoFloat → Bar N C × Res Unit := fun beat delta =>
      let r3 := r2.2.scanIgnoreWhitespace
      if r3.1.tok ≠ Tok.PLAY then
        (bar, Res.err (ParseError.unexpected r3.1.lit "PLAY"))
      else parsePlay fuel env bar beat delta r3.2
    if r2.1.tok ≠ Tok.NUMBER ∧ r2.1.tok ≠ Tok.FLOAT then
      (bar, Res.err (ParseError.unexpected r2.1.lit "NUMBER"))
    else if r2.1.tok = Tok.NUMBER then
      match parseUint r2.1.lit 8 with
      | none => (bar, Res.err (ParseError.strconv r2.1.lit))
      | some tmp =>
        if tmp = 0 then (bar, Res.err (ParseError.noSuchBeat tmp))
        else
          match bar.signature with
          | none => (bar, Res.panic)
          | some sig =>
            if tmp > sig.beats then (bar, Res.err (ParseError.noSuchBeat tmp))
            else rest (tmp % 2 ^ 8) ⟨0, 1⟩
    else
      match env.parseFloat r2.1.lit 32 with
      | none => (bar, Res.err (ParseError.strconv r2.1.lit))
      | some tmp =>
        let integer := (Modf tmp).1
        let fraction := (Modf tmp).2
        if integer % 2 ^ 64 = 0 then (bar, Res.err (ParseError.noSuchBeatFloat tmp))
        else
          match bar.signature with
          | none => (bar, Res.panic)
          | some sig =>
            if integer % 2 ^ 64 > sig.beats then
              (bar, Res.err (ParseError.noSuchBeatFloat tmp))
            else rest (integer % 2 ^ 8) fraction

/-! ## Blocks -/

/-- The statement loop of `parseBar`. -/
def parseBarLoop {N C : Type} (env : Env N C) : Nat → Bar N C → Parser → Res (Bar N C)
  | 0, _, _ => Res.timeout
  | fuel + 1, bar, p =>
    let r := p.scanIgnoreWhitespace
    if r.1.tok = Tok.BRACKET_CLOSE then Res.ok bar r.2
    else
      match r.1.tok with
      | Tok.BPM => (parseBpm env r.2).bind fun _ p1 => parseBarLoop env fuel bar p1
      | Tok.TIME => (parseTimeSignature r.2).bind fun _ p1 => parseBarLoop env fuel bar p1
      | Tok.TEXT => (parseText r.2).bind fun text p1 => parseBarLoop env fuel (bar.AddText text) p1
      | Tok.ON =>
        match parseOn fuel env bar r.2 with
        | (bar1, Res.ok _ p1) => parseBarLoop env fuel bar1 p1
        | (_, Res.err e) => Res.err e
        | (_, Res.panic) => Res.panic
        | (_, Res.timeout) => Res.timeout
      | _ => Res.err (ParseError.unexpected r.1.lit "TIME, BEAT or \x7d")

/-- The function `parseBar`: the new bar takes the count of the track's bars as
offset (`uint32`) and the track's bpm and signature. -/
def parseBar {N C : Type} (fuel : Nat) (env : Env N C) (track : Track N C) (p : Parser) :
    Res (Bar N C) :=
  let bar : Bar N C :=
    { NewBar N C (track.bars.length % 2 ^ 32) with bpm := track.bpm, signature := track.signature }
  let r := p.scanIgnoreWhitespace
  if r.1.tok ≠ Tok.BRACKET_OPEN then
    Res.err (ParseError.unexpected r.1.lit "\x7b")
  else parseBarLoop env fuel bar r.2

/-- The statement loop of `parseTrack`. -/
def parseTrackLoop {N C : Type} (env : Env N C) : Nat → Track N C → Parser → Res (Track N C)
  | 0, _, _ => Res.timeout
  | fuel + 1, track, p =>
    let r := p.scanIgnoreWhitespace
    if r.1.tok = Tok.BRACKET_CLOSE then Res.ok track r.2
    else
      match r.1.tok with
      | Tok.BPM => (parseBpm env r.2).bind fun _ p1 => parseTrackLoop env fuel track p1
      | Tok.TIME => (parseTimeSignature r.2).bind fun _ p1 => parseTrackLoop env fuel track p1
      | Tok.BAR =>
        (parseBar fuel env track r.2).bind fun bar p1 => parseTrackLoop env fuel (track.AddBar bar) p1
      | Tok.COPYRIGHT =>
        (parseCopyright r.2).bind fun text p1 =>
          parseTrackLoop env fuel { track with copyrights := track.copyrights ++ [text] } p1
      | Tok.INSTRUMENT =>
        (parseInstrument env r.2).bind fun text p1 =>
          parseTrackLoop env fuel { track with instrument := some text } p1
      | Tok.TEXT =>
        (parseText r.2).bind fun text p1 =>
          parseTrackLoop env fuel { track with texts := track.texts ++ [text] } p1
      | _ => Res.err (ParseError.unexpected r.1.lit "BAR or \x7d")

/-- The function `parseTrack`: the new track takes the project's bpm and
signature as they are now. -/
def parseTrack {N C : Type} (fuel : Nat) (env : Env N C) (project : Project N C)
    (p : Parser) : Res (Track N C) :=
  let track : Track N C :=
    { NewTrack N C with bpm := project.bpm, signature := project.signature }
  let r1 := p.scanIgnoreWhitespace
  if r1.1.tok ≠ Tok.IDENTIFIER ∧ r1.1.tok ≠ Tok.STRING then
    Res.err (ParseError.unexpected r1.1.lit "track name")
  else
    let r2 := r1.2.scanIgnoreWhitespace
    if r2.1.tok ≠ Tok.BRACKET_OPEN then
      Res.err (ParseError.unexpected r2.1.lit "\x7b")
    else parseTrackLoop env fuel { track with name := r1.1.lit } r2.2

/-- The statement loop of `parseProject`; it ends by reading the `}`. -/
def parseProjectLoop {N C : Type} (env : Env N C) :
    Nat → Project N C → Parser → Res (Project N C)
  | 0, _, _ => Res.timeout
  | fuel + 1, project, p =>
    let r := p.scanIgnoreWhitespace
    if r.1.tok = Tok.BRACKET_CLOSE then Res.ok project r.2
    else
      match r.1.tok with
      | Tok.BPM =>
        (parseBpm env r.2).bind fun bpm p1 =>
          parseProjectLoop env fuel { project with bpm := some bpm } p1
      | Tok.TIME =>
        (parseTimeSignature r.2).bind fun timeSignature p1 =>
          parseProjectLoop env fuel { project with signature := some timeSignature } p1
      | Tok.TRACK =>
        (parseTrack fuel env project r.2).bind fun track p1 =>
          parseProjectLoop env fuel (project.AddTrack track) p1
      | Tok.COPYRIGHT =>
        (parseCopyright r.2).bind fun text p1 =>
          parseProjectLoop env fuel { project with copyrights := project.copyrights ++ [text] } p1
      | Tok.TEXT =>
        (parseText r.2).bind fun text p1 =>
          parseProjectLoop env fuel { project with texts := project.texts ++ [text] } p1
      | _ => Res.err (ParseError.unexpected r.1.lit "TRACK or \x7d")

/-- The function `parseProject`, with the pair each `return` hands back. -/
def parseProject {N C : Type} (fuel : Nat) (env : Env N C) (p : Parser) :
    Outcome (Project N C) :=
  let project := NewProject N C
  let r1 := p.scanIgnoreWhitespace
  if r1.1.tok ≠ Tok.PROJECT then
    Outcome.returned none (some (ParseError.unexpected r1.1.lit "PROJECT"))
  else
    let r2 := r1.2.scanIgnoreWhitespace
    if r2.1.tok ≠ Tok.IDENTIFIER ∧ r2.1.tok ≠ Tok.STRING then
      Outcome.returned none (some (ParseError.unexpected r2.1.lit "project name"))
    else
      let r3 := r2.2.scanIgnoreWhitespace
      if r3.1.tok ≠ Tok.BRACKET_OPEN then
        Outcome.returned none (some (ParseError.unexpected r3.1.lit "\x7b"))
      else
        match parseProjectLoop env fuel { project with name := r2.1.lit } r3.2 with
        | Res.err e => Outcome.returned none (some e)
        | Res.panic => Outcome.panic
        | Res.timeout => Outcome.timeout
        | Res.ok project1 p1 =>
          let r4 := p1.scanIgnoreWhitespace
          if r4.1.tok ≠ Tok.EOF then
            Outcome.returned none (some (ParseError.unexpected r4.1.lit "EOF"))
          else Outcome.returned (some project1) none

/-- The method `Parse`. -/
def Parse {N C : Type} (fuel : Nat) (env : Env N C) (p : Parser) : Outcome (Project N C) :=
  parseProject fuel env p

/-! ## A concrete environment and concrete inputs -/

/-- A resolver that knows every name: a note is its name, a chord the list
holding its name; the instrument table knows `piano`; `ParseFloat` knows the
literals used below. -/
def demoEnv : Env String (List String) :=
  { notesParse := fun s => some s
    chordsParse := fun s => some [s]
    instrumentToPC := fun s => if s = "piano" then some 0 else none
    parseFloat := fun s _ =>
      if s = "120" then some ⟨120, 1⟩
      else if s = "3.5" then some ⟨7, 2⟩
      else none
    defaultVelocity := 64 }

/-- A token of kind `k` with literal `l`. -/
def tk (k : Tok) (l : String) : Token := ⟨k, l⟩

/-- A bar of a 4/4 track at offset 0. -/
def bar44 : Bar String (List String) :=
  { NewBar String (List String) 0 with signature := some (NewSignature 4 4) }

/-- A bar late in a track of 255 beats per bar: offset 17545. -/
def barLate : Bar String (List String) :=
  { NewBar String (List String) 17545 with signature := some (NewSignature 255 4) }

/-- The event `NOTE A4 ;`. -/
def noteStmt : List Token :=
  [tk Tok.NOTE "note", tk Tok.IDENTIFIER "A4", tk Tok.SEMICOLON ";"]

/-- A bar of a track with 255 beats per bar, at offset 0. -/
def bar255 : Bar String (List String) :=
  { NewBar String (List String) 0 with signature := some (NewSignature 255 4) }

/-- The tokens of `BEAT 256 PLAY QUARTER NOTE A4 ;`, as they follow `ON`. -/
def beat256Stmt : List Token :=
  [tk Tok.BEAT "beat", tk Tok.NUMBER "256", tk Tok.PLAY "play", tk Tok.QUARTER "quarter",
   tk Tok.NOTE "note", tk Tok.IDENTIFIER "A4", tk Tok.SEMICOLON ";"]

/-- The tokens of `BEAT 5 PLAY QUARTER NOTE A4 ;`, as they follow `ON`. -/
def beat5Stmt : List Token :=
  [tk Tok.BEAT "beat", tk Tok.NUMBER "5", tk Tok.PLAY "play", tk Tok.QUARTER "quarter",
   tk Tok.NOTE "note", tk Tok.IDENTIFIER "A4", tk Tok.SEMICOLON ";"]

/-- The integer a literal of decimal digits denotes, whatever its length. -/
def integerValue (lit : String) : Option Nat :=
  if lit.data = [] then none
  else if lit.data.all (fun c => decide (48 ≤ c.toNat ∧ c.toNat ≤ 57)) then
    some (digitsValue lit.data)
  else none

/-- The duration specification as the specification words it: the keywords
WHOLE, HALF, QUARTER give the codes 1, 2, 4; an integer 8, 16, 64, 128 or 256
followed by TH, and 32 followed by ND, give that integer; nothing else is a
duration. The result is the code and whether the suffix token belongs to
the specification. -/
def durationSpec (first next : Token) : Option (Nat × Bool) :=
  match first.tok with
  | Tok.WHOLE => some (1, false)
  | Tok.HALF => some (2, false)
  | Tok.QUARTER => some (4, false)
  | Tok.NUMBER =>
    match integerValue first.lit with
    | none => none
    | some v =>
      if (v = 8 ∨ v = 16 ∨ v = 64 ∨ v = 128 ∨ v = 256) ∧ next.tok = Tok.TH then some (v, true)
      else if v = 32 ∧ next.tok = Tok.ND then some (v, true)
      else none
  | _ => none

/-- The tokens of `32 ND NOTE A4 ;`, as they follow `PLAY`. -/
def play32ndStmt : List Token :=
  [tk Tok.NUMBER "32", tk Tok.ND "nd", tk Tok.NOTE "note", tk Tok.IDENTIFIER "A4",
   tk Tok.SEMICOLON ";"]

/-- The tokens of `32 TH NOTE A4 ;`, as they follow `PLAY`. -/
def play32thStmt : List Token :=
  [tk Tok.NUMBER "32", tk Tok.TH "th", tk Tok.NOTE "note", tk Tok.IDENTIFIER "A4",
   tk Tok.SEMICOLON ";"]

/-- A pitch event of the grammar, with the literals of its tokens: a chord, a
note, or one of the percussion keywords. -/
inductive Event where
  | chord (kw name : String)
  | note (kw name : String)
  | cymbal (kw : String)
  | snare (kw : String)
  | openHiHat (kw : String)
  deriving DecidableEq, Repr

/-- The tokens an event is written with. -/
def Event.tokens : Event → List Token
  | Event.chord kw name => [⟨Tok.CHORD, kw⟩, ⟨Tok.IDENTIFIER, name⟩]
  | Event.note kw name => [⟨Tok.NOTE, kw⟩, ⟨Tok.IDENTIFIER, name⟩]
  | Event.cymbal kw => [⟨Tok.CYMBAL, kw⟩]
  | Event.snare kw => [⟨Tok.SNARE, kw⟩]
  | Event.openHiHat kw => [⟨Tok.OPEN_HI_HAT, kw⟩]

/-- What an event sounds, when the resolver knows its name. -/
def Event.sound {N C : Type} (env : Env N C) : Event → Option (Sound N C)
  | Event.chord _ name => (env.chordsParse name).map Sound.chord
  | Event.note _ name => (env.notesParse name).map Sound.note
  | Event.cymbal _ => (env.notesParse "D#4").map Sound.note
  | Event.snare _ => (env.notesParse "D3").map Sound.note
  | Event.openHiHat _ => (env.notesParse "A#3").map Sound.note

/-- The tokens of `BEAT 1 PLAY QUARTER NOTE A4 NOTE C4 ;`, as they follow `ON`. -/
def twoNotesStmt : List Token :=
  [tk Tok.BEAT "beat", tk Tok.NUMBER "1", tk Tok.PLAY "play", tk Tok.QUARTER "quarter",
   tk Tok.NOTE "note", tk Tok.IDENTIFIER "A4", tk Tok.NOTE "note", tk Tok.IDENTIFIER "C4",
   tk Tok.SEMICOLON ";"]

/-- The tokens of `QUARTER NOTE A4 NOTE C4 ;`, as they follow `PLAY`. -/
def playTwoNotesStmt : List Token :=
  [tk Tok.QUARTER "quarter",
   tk Tok.NOTE "note", tk Tok.IDENTIFIER "A4", tk Tok.NOTE "note", tk Tok.IDENTIFIER "C4",
   tk Tok.SEMICOLON ";"]

/-- A syntactically well-formed BPM statement, after its keyword: a number
that `ParseFloat` accepts, then `;`. -/
def wellFormedBpm {N C : Type} (env : Env N C) (p : Parser) : Prop :=
  (p.scanIgnoreWhitespace.1.tok = Tok.NUMBER ∨ p.scanIgnoreWhitespace.1.tok = Tok.FLOAT) ∧
  (env.parseFloat p.scanIgnoreWhitespace.1.lit 64).isSome = true ∧
  p.scanIgnoreWhitespace.2.scanIgnoreWhitespace.1.tok = Tok.SEMICOLON

/-- A syntactically well-formed TIME statement, after its keyword: two
integers that fit `uint8`, then `;`. -/
def wellFormedTime (p : Parser) : Prop :=
  p.scanIgnoreWhitespace.1.tok = Tok.NUMBER ∧
  (parseUint p.scanIgnoreWhitespace.1.lit 8).isSome = true ∧
  p.scanIgnoreWhitespace.2.scanIgnoreWhitespace.1.tok = Tok.NUMBER ∧
  (parseUint p.scanIgnoreWhitespace.2.scanIgnoreWhitespace.1.lit 8).isSome = true ∧
  p.scanIgnoreWhitespace.2.scanIgnoreWhitespace.2.scanIgnoreWhitespace.1.tok = Tok.SEMICOLON

/-- The parser state after the number and the `;` of a BPM statement. -/
def afterBpm (p : Parser) : Parser :=
  p.scanIgnoreWhitespace.2.scanIgnoreWhitespace.2

/-- The parser state after the two numbers and the `;` of a TIME statement. -/
def afterTime (p : Parser) : Parser :=
  p.scanIgnoreWhitespace.2.scanIgnoreWhitespace.2.scanIgnoreWhitespace.2

/-- The tokens of `BPM 120 ;`. -/
def bpmStmt : List Token :=
  [tk Tok.BPM "bpm", tk Tok.NUMBER "120", tk Tok.SEMICOLON ";"]

/-- A project in 4/4 with no bpm set. -/
def project44 : Project String (List String) :=
  { NewProject String (List String) with signature := some (NewSignature 4 4) }

/-- The tokens of
`"lead" { BPM 120; TIME 3 8; BAR { TIME 6 8; BPM 120; ON BEAT 1 PLAY QUARTER NOTE A4; } }`,
as they follow `TRACK`. -/
def trackWithOverrides : List Token :=
  [tk Tok.STRING "lead", tk Tok.BRACKET_OPEN "\x7b",
   tk Tok.BPM "bpm", tk Tok.NUMBER "120", tk Tok.SEMICOLON ";",
   tk Tok.TIME "time", tk Tok.NUMBER "3", tk Tok.NUMBER "8", tk Tok.SEMICOLON ";",
   tk Tok.BAR "bar", tk Tok.BRACKET_OPEN "\x7b",
   tk Tok.TIME "time", tk Tok.NUMBER "6", tk Tok.NUMBER "8", tk Tok.SEMICOLON ";",
   tk Tok.BPM "bpm", tk Tok.NUMBER "120", tk Tok.SEMICOLON ";",
   tk Tok.ON "on", tk Tok.BEAT "beat", tk Tok.NUMBER "1", tk Tok.PLAY "play",
   tk Tok.QUARTER "quarter", tk Tok.NOTE "note", tk Tok.IDENTIFIER "A4", tk Tok.SEMICOLON ";",
   tk Tok.BRACKET_CLOSE "\x7d", tk Tok.BRACKET_CLOSE "\x7d"]

/-- The track `trackWithOverrides` parses to, in `project44`. -/
def trackLead : Track String (List String) :=
  { name := "lead", bpm := none, signature := some ⟨4, 4⟩, instrument := none,
    bars := [{ offset := 0, bpm := none, signature := some ⟨4, 4⟩,
               playables := [some ⟨Sound.note "A4", 0, 4, 64⟩], texts := [] }],
    copyrights := [], texts := [] }

/-- The tokens of
`PROJECT "demo" { TIME 4 4; TRACK "lead" { BAR { ON BEAT 1 PLAY QUARTER NOTE A4`,
where the input ends: the `;` of the on-statement is missing. -/
def unterminatedOn : List Token :=
  [tk Tok.PROJECT "project", tk Tok.STRING "demo", tk Tok.BRACKET_OPEN "\x7b",
   tk Tok.TIME "time", tk Tok.NUMBER "4", tk Tok.NUMBER "4", tk Tok.SEMICOLON ";",
   tk Tok.TRACK "track", tk Tok.STRING "lead", tk Tok.BRACKET_OPEN "\x7b",
   tk Tok.BAR "bar", tk Tok.BRACKET_OPEN "\x7b",
   tk Tok.ON "on", tk Tok.BEAT "beat", tk Tok.NUMBER "1", tk Tok.PLAY "play",
   tk Tok.QUARTER "quarter", tk Tok.NOTE "note", tk Tok.IDENTIFIER "A4"]

/-- The header `PROJECT name {` of a project: the name and the parser state
after the `{`, when the three tokens are there. -/
def projectHeader (p : Parser) : Option (String × Parser) :=
  if p.scanIgnoreWhitespace.1.tok = Tok.PROJECT ∧
      (p.scanIgnoreWhitespace.2.scanIgnoreWhitespace.1.tok = Tok.IDENTIFIER ∨
        p.scanIgnoreWhitespace.2.scanIgnoreWhitespace.1.tok = Tok.STRING) ∧
      p.scanIgnoreWhitespace.2.scanIgnoreWhitespace.2.scanIgnoreWhitespace.1.tok
        = Tok.BRACKET_OPEN then
    some (p.scanIgnoreWhitespace.2.scanIgnoreWhitespace.1.lit,
      p.scanIgnoreWhitespace.2.scanIgnoreWhitespace.2.scanIgnoreWhitespace.2)
  else none

/-- The tokens of `PROJECT "demo" { }`. -/
def emptyProject : List Token :=
  [tk Tok.PROJECT "project", tk Tok.STRING "demo", tk Tok.BRACKET_OPEN "\x7b",
   tk Tok.BRACKET_CLOSE "\x7d"]

/-- The tokens of `PROJECT "demo" { } TRACK`: a token follows the closing brace. -/
def trailingTrack : List Token :=
  [tk Tok.PROJECT "project", tk Tok.STRING "demo", tk Tok.BRACKET_OPEN "\x7b",
   tk Tok.BRACKET_CLOSE "\x7d", tk Tok.TRACK "track"]

/-- The tokens of `INSTRUMENT "not-a-real-instrument" ;`. -/
def unknownInstrumentStmt : List Token :=
  [tk Tok.INSTRUMENT "instrument", tk Tok.STRING "not-a-real-instrument", tk Tok.SEMICOLON ";"]

/-- The tokens of `INSTRUMENT piano ; }`. -/
def pianoStmt : List Token :=
  [tk Tok.INSTRUMENT "instrument", tk Tok.IDENTIFIER "piano", tk Tok.SEMICOLON ";",
   tk Tok.BRACKET_CLOSE "\x7d"]

/-- The token stream
`PROJECT "demo" { BPM 120; TIME 4 4; TRACK "lead" { BAR { ON 1 PLAY QUARTER A4; } } }`
with `ON` followed by the number and `QUARTER` followed by the identifier. -/
def demoClaimed : List Token :=
  [tk Tok.PROJECT "project", tk Tok.STRING "demo", tk Tok.BRACKET_OPEN "\x7b",
   tk Tok.BPM "bpm", tk Tok.NUMBER "120", tk Tok.SEMICOLON ";",
   tk Tok.TIME "time", tk Tok.NUMBER "4", tk Tok.NUMBER "4", tk Tok.SEMICOLON ";",
   tk Tok.TRACK "track", tk Tok.STRING "lead", tk Tok.BRACKET_OPEN "\x7b",
   tk Tok.BAR "bar", tk Tok.BRACKET_OPEN "\x7b",
   tk Tok.ON "on", tk Tok.NUMBER "1", tk Tok.PLAY "play", tk Tok.QUARTER "quarter",
   tk Tok.IDENTIFIER "A4", tk Tok.SEMICOLON ";",
   tk Tok.BRACKET_CLOSE "\x7d", tk Tok.BRACKET_CLOSE "\x7d", tk Tok.BRACKET_CLOSE "\x7d"]

/-- The same stream in the grammar of the parser: `ON BEAT 1 PLAY QUARTER NOTE A4 ;`. -/
def demoTokens : List Token :=
  [tk Tok.PROJECT "project", tk Tok.STRING "demo", tk Tok.BRACKET_OPEN "\x7b",
   tk Tok.BPM "bpm", tk Tok.NUMBER "120", tk Tok.SEMICOLON ";",
   tk Tok.TIME "time", tk Tok.NUMBER "4", tk Tok.NUMBER "4", tk Tok.SEMICOLON ";",
   tk Tok.TRACK "track", tk Tok.STRING "lead", tk Tok.BRACKET_OPEN "\x7b",
   tk Tok.BAR "bar", tk Tok.BRACKET_OPEN "\x7b",
   tk Tok.ON "on", tk Tok.BEAT "beat", tk Tok.NUMBER "1", tk Tok.PLAY "play",
   tk Tok.QUARTER "quarter", tk Tok.NOTE "note", tk Tok.IDENTIFIER "A4", tk Tok.SEMICOLON ";",
   tk Tok.BRACKET_CLOSE "\x7d", tk Tok.BRACKET_CLOSE "\x7d", tk Tok.BRACKET_CLOSE "\x7d"]

/-- The project of the round-trip scenario, for a bpm value, a resolved pitch
and a default velocity. -/
def demoProject {N C : Type} (bpm : GoFloat) (a : N) (velocity : Nat) : Project N C :=
  { name := "demo", bpm := some bpm, signature := some ⟨4, 4⟩,
    tracks := [{ name := "lead", bpm := some bpm, signature := some ⟨4, 4⟩, instrument := none,
                 bars := [{ offset := 0, bpm := some bpm, signature := some ⟨4, 4⟩,
                            playables := [some ⟨Sound.note a, 0, 4, velocity⟩], texts := [] }],
                 copyrights := [], texts := [] }],
    copyrights := [], texts := [] }

/-- The tokens of `BEAT 3.5 PLAY 8 TH NOTE B4 VELOCITY 100 ;`, as they follow `ON`. -/
def on35Stmt : List Token :=
  [tk Tok.BEAT "beat", tk Tok.FLOAT "3.5", tk Tok.PLAY "play", tk Tok.NUMBER "8", tk Tok.TH "th",
   tk Tok.NOTE "note", tk Tok.IDENTIFIER "B4", tk Tok.VELOCITY "velocity", tk Tok.NUMBER "100",
   tk Tok.SEMICOLON ";"]

/-- The bar before `barLate`: offset 17544 in a track of 255 beats per bar. -/
def barBeforeLate : Bar String (List String) :=
  { NewBar String (List String) 17544 with signature := some (NewSignature 255 4) }

/-- The second bar of a 4/4 track: offset 1. -/
def bar44Second : Bar String (List String) :=
  { NewBar String (List String) 1 with signature := some (NewSignature 4 4) }

/-- The quotient `uint32(ticksPerBeat) / uint32(bar.GetSignature().GetDuration())`
of `parsePlayable`, for a unit that is not zero. -/
def ticksPerSubdivision (unit : Nat) : Nat := 960 / unit

/-- A bar of a track in 4/128, at offset 0. -/
def bar4over128 : Bar String (List String) :=
  { NewBar String (List String) 0 with signature := some (NewSignature 4 128) }

/-- The tokens of `4 128 ;`, as they follow `TIME`. -/
def time4over128 : List Token :=
  [tk Tok.NUMBER "4", tk Tok.NUMBER "128", tk Tok.SEMICOLON ";"]

/-- The tokens of `4 256 ;`, as they follow `TIME`. -/
def time4over256 : List Token :=
  [tk Tok.NUMBER "4", tk Tok.NUMBER "256", tk Tok.SEMICOLON ";"]

/-- The tokens of `PROJECT "demo" { COPYRIGHT "acme" }`: the `;` of the
copyright statement is missing. -/
def copyrightNoSemicolon : List Token :=
  [tk Tok.PROJECT "project", tk Tok.STRING "demo", tk Tok.BRACKET_OPEN "\x7b",
   tk Tok.COPYRIGHT "copyright", tk Tok.STRING "acme", tk Tok.BRACKET_CLOSE "\x7d"]

/-- The tokens of `"acme" }`, as they follow `COPYRIGHT`, `TEXT` or `INSTRUMENT`. -/
def nameNoSemicolon : List Token :=
  [tk Tok.STRING "acme", tk Tok.BRACKET_CLOSE "\x7d"]

/-- The tokens of `120 }`, as they follow `BPM`. -/
def bpmNoSemicolon : List Token :=
  [tk Tok.NUMBER "120", tk Tok.BRACKET_CLOSE "\x7d"]

/-- The tokens of
`PROJECT "demo" { TIME 4 0; TRACK "lead" { BAR { ON BEAT 1 PLAY QUARTER NOTE A4; } } }`:
a signature with unit 0. -/
def zeroUnit : List Token :=
  [tk Tok.PROJECT "project", tk Tok.STRING "demo", tk Tok.BRACKET_OPEN "\x7b",
   tk Tok.TIME "time", tk Tok.NUMBER "4", tk Tok.NUMBER "0", tk Tok.SEMICOLON ";",
   tk Tok.TRACK "track", tk Tok.STRING "lead", tk Tok.BRACKET_OPEN "\x7b",
   tk Tok.BAR "bar", tk Tok.BRACKET_OPEN "\x7b",
   tk Tok.ON "on", tk Tok.BEAT "beat", tk Tok.NUMBER "1", tk Tok.PLAY "play",
   tk Tok.QUARTER "quarter", tk Tok.NOTE "note", tk Tok.IDENTIFIER "A4", tk Tok.SEMICOLON ";",
   tk Tok.BRACKET_CLOSE "\x7d", tk Tok.BRACKET_CLOSE "\x7d", tk Tok.BRACKET_CLOSE "\x7d"]

/-- The tokens of `4 0 ;`, as they follow `TIME`. -/
def time4over0 : List Token :=
  [tk Tok.NUMBER "4", tk Tok.NUMBER "0", tk Tok.SEMICOLON ";"]

/-- The event `CYMBAL ;`. -/
def cymbalStmt : List Token :=
  [tk Tok.CYMBAL "cymbal", tk Tok.SEMICOLON ";"]

/-- A track named `a` created under 120 bpm with no signature set. -/
def trackA : Track String (List String) :=
  { NewTrack String (List String) with name := "a", bpm := some ⟨120, 1⟩ }

/-- A track named `b` created under 120 bpm in 3/4. -/
def trackB : Track String (List String) :=
  { NewTrack String (List String) with
    name := "b", bpm := some ⟨120, 1⟩, signature := some ⟨3, 4⟩ }

/-- The project `demo` at 120 bpm, once its track `a` is parsed. -/
def projectAfterA : Project String (List String) :=
  { NewProject String (List String) with name := "demo", bpm := some ⟨120, 1⟩, tracks := [trackA] }

/-- The tokens of `TIME 3 4 ; TRACK "b" { } }`: what follows the block of
track `a` in `PROJECT "demo" { BPM 120; TRACK "a" { } TIME 3 4; TRACK "b" { } }`. -/
def afterTrackA : List Token :=
  [tk Tok.TIME "time", tk Tok.NUMBER "3", tk Tok.NUMBER "4", tk Tok.SEMICOLON ";",
   tk Tok.TRACK "track", tk Tok.STRING "b", tk Tok.BRACKET_OPEN "\x7b",
   tk Tok.BRACKET_CLOSE "\x7d", tk Tok.BRACKET_CLOSE "\x7d"]

/-- The number of ON statements the statement loop of `parseBar` reads: the
recursion of `parseBarLoop`, counting the passes through its `ON` case. -/
def onStatementCount {N C : Type} (env : Env N C) : Nat → Bar N C → Parser → Nat
  | 0, _, _ => 0
  | fuel + 1, bar, p =>
    let r := p.scanIgnoreWhitespace
    if r.1.tok = Tok.BRACKET_CLOSE then 0
    else
      match r.1.tok with
      | Tok.BPM =>
        match parseBpm env r.2 with
        | Res.ok _ p1 => onStatementCount env fuel bar p1
        | _ => 0
      | Tok.TIME =>
        match parseTimeSignature r.2 with
        | Res.ok _ p1 => onStatementCount env fuel bar p1
        | _ => 0
      | Tok.TEXT =>
        match parseText r.2 with
        | Res.ok text p1 => onStatementCount env fuel (bar.AddText text) p1
        | _ => 0
      | Tok.ON =>
        match parseOn fuel env bar r.2 with
        | (bar1, Res.ok _ p1) => 1 + onStatementCount env fuel bar1 p1
        | _ => 1
      | _ => 0

/-- The tokens of the bar block
`ON BEAT 1 PLAY QUARTER ; TEXT "x" ; ON BEAT 2 PLAY QUARTER NOTE A4 ;
 ON BEAT 3 PLAY QUARTER NOTE A4 NOTE C4 VELOCITY 90 ; }`, as they follow `{`:
an on-statement with no event, one with one event, one with further tokens
after its event. -/
def threeOnStatements : List Token :=
  [tk Tok.ON "on", tk Tok.BEAT "beat", tk Tok.NUMBER "1", tk Tok.PLAY "play",
   tk Tok.QUARTER "quarter", tk Tok.SEMICOLON ";",
   tk Tok.TEXT "text", tk Tok.STRING "x", tk Tok.SEMICOLON ";",
   tk Tok.ON "on", tk Tok.BEAT "beat", tk Tok.NUMBER "2", tk Tok.PLAY "play",
   tk Tok.QUARTER "quarter", tk Tok.NOTE "note", tk Tok.IDENTIFIER "A4", tk Tok.SEMICOLON ";",
   tk Tok.ON "on", tk Tok.BEAT "beat", tk Tok.NUMBER "3", tk Tok.PLAY "play",
   tk Tok.QUARTER "quarter", tk Tok.NOTE "note", tk Tok.IDENTIFIER "A4",
   tk Tok.NOTE "note", tk Tok.IDENTIFIER "C4", tk Tok.VELOCITY "velocity", tk Tok.NUMBER "90",
   tk Tok.SEMICOLON ";",
   tk Tok.BRACKET_CLOSE "\x7d"]

/-- The bar `threeOnStatements` parses to, from `bar44`. -/
def barThreeOn : Bar String (List String) :=
  { bar44 with
    playables := [none, some ⟨Sound.note "A4", 960, 4, 64⟩, some ⟨Sound.note "A4", 1920, 4, 90⟩],
    texts := ["x"] }

/-- The offsets of a sequence of bars are their positions, as `uint32`. -/
def offsetsOk {N C : Type} (bars : List (Bar N C)) : Prop :=
  ∀ i b, bars[i]? = some b → b.offset = i % 2 ^ 32

/-- The tokens of `n` empty bars, `BAR { }` each. -/
def emptyBars : Nat → List Token
  | 0 => []
  | n + 1 =>
    tk Tok.BAR "bar" :: tk Tok.BRACKET_OPEN "\x7b" :: tk Tok.BRACKET_CLOSE "\x7d" :: emptyBars n

/-- The tokens of `PROJECT "demo" { TRACK "lead" { BAR { } ... BAR { } } }` with
`n` empty bars. -/
def manyBars (n : Nat) : List Token :=
  tk Tok.PROJECT "project" :: tk Tok.STRING "demo" :: tk Tok.BRACKET_OPEN "\x7b" ::
  tk Tok.TRACK "track" :: tk Tok.STRING "lead" :: tk Tok.BRACKET_OPEN "\x7b" ::
  (emptyBars n ++ [tk Tok.BRACKET_CLOSE "\x7d", tk Tok.BRACKET_CLOSE "\x7d"])

/-- A track after `parseBar` has added `n` empty bars to it. -/
def addEmptyBars {N C : Type} : Nat → Track N C → Track N C
  | 0, t => t
  | n + 1, t =>
    addEmptyBars n
      (t.AddBar { NewBar N C (t.bars.length % 2 ^ 32) with
                  bpm := t.bpm, signature := t.signature })

/-- The project `manyBars n` parses to. -/
def manyBarsProject (n : Nat) : Project String (List String) :=
  { NewProject String (List String) with
    name := "demo"
    tracks := [addEmptyBars n { NewTrack String (List String) with name := "lead" }] }

/-- The first token of a list that is neither whitespace nor a comment, and
the tokens after it; `EOF` when there is none. -/
def firstToken : List Token → Token × List Token
  | [] => (⟨Tok.EOF, ""⟩, [])
  | t :: ts =>
    if t.tok = Tok.WHITESPACE ∨ t.tok = Tok.COMMENT then firstToken ts else (t, ts)

/-- The three closing braces `} } }`. -/
def closingBraces : List Token :=
  [tk Tok.BRACKET_CLOSE "\x7d", tk Tok.BRACKET_CLOSE "\x7d", tk Tok.BRACKET_CLOSE "\x7d"]

/-- The token stream with all `WHITESPACE` and `COMMENT` tokens removed. -/
def stripBlanks (l : List Token) : List Token :=
  l.filter (fun t => !(decide (t.tok = Tok.WHITESPACE ∨ t.tok = Tok.COMMENT)))

/-- A parser state, with the whitespace and the comments removed from what the
scanner still holds. -/
def Parser.strip (p : Parser) : Parser := { p with s := stripBlanks p.s }

/-- A result, with the parser state stripped. -/
def Res.strip {α : Type} (r : Res α) : Res α :=
  match r with
  | Res.ok a p => Res.ok a p.strip
  | Res.err e => Res.err e
  | Res.panic => Res.panic
  | Res.timeout => Res.timeout

/-- The tokens of `PROJECT "demo" { BPM 120 ; }` with whitespace and comments
between them. -/
def spacedProject : List Token :=
  [tk Tok.COMMENT "# demo", tk Tok.WHITESPACE " ", tk Tok.PROJECT "project",
   tk Tok.WHITESPACE " ", tk Tok.STRING "demo", tk Tok.WHITESPACE " ",
   tk Tok.BRACKET_OPEN "\x7b", tk Tok.WHITESPACE " ", tk Tok.BPM "bpm", tk Tok.WHITESPACE " ",
   tk Tok.COMMENT "# tempo", tk Tok.NUMBER "120", tk Tok.WHITESPACE " ", tk Tok.SEMICOLON ";",
   tk Tok.WHITESPACE " ", tk Tok.BRACKET_CLOSE "\x7d", tk Tok.WHITESPACE " "]

/-- No `INSTRUMENT` keyword is left to read: none among the tokens of the
scanner, and none in the buffer. -/
def Parser.noInstrument (p : Parser) : Prop :=
  p.bufTok ≠ Tok.INSTRUMENT ∧ ∀ t ∈ p.s, t.tok ≠ Tok.INSTRUMENT

/-- The tokens of `INSTRUMENT piano ; TEXT "solo" ; BAR \x7b \x7d \x7d`. -/
def pianoThenBar : List Token :=
  [tk Tok.INSTRUMENT "instrument", tk Tok.IDENTIFIER "piano", tk Tok.SEMICOLON ";",
   tk Tok.TEXT "text", tk Tok.STRING "solo", tk Tok.SEMICOLON ";",
   tk Tok.BAR "bar", tk Tok.BRACKET_OPEN "\x7b", tk Tok.BRACKET_CLOSE "\x7d",
   tk Tok.BRACKET_CLOSE "\x7d"]

/-- Rounding of the fraction `n / d` to the nearest integer, a tie to the even
one. -/
def roundHalfEven (n d : Nat) : Nat :=
  if 2 * (n % d) < d then n / d
  else if d < 2 * (n % d) then n / d + 1
  else if (n / d) % 2 = 0 then n / d
  else n / d + 1

/-- The `float64` nearest to the fraction `n / d`, a tie to the even
significand, for a value below `2 ^ 53`: the value is rounded to an integer
after scaling by the first power of two `2 ^ k` that brings it to `2 ^ 52` or
more (a significand of 53 bits), or by `2 ^ 1074` when the value is smaller
than that reaches (a subnormal). `k` starts at 0 with `fuel = 1074`. -/
def roundFloat64Scaled : Nat → Nat → Nat → Nat → GoFloat
  | 0, k, n, d => ⟨roundHalfEven (n * 2 ^ k) d, 2 ^ k⟩
  | fuel + 1, k, n, d =>
    if 2 ^ 52 * d ≤ n * 2 ^ k then ⟨roundHalfEven (n * 2 ^ k) d, 2 ^ k⟩
    else roundFloat64Scaled fuel (k + 1) n d

/-- The product `float64(a) * delta` of `parsePlayable`, for an integer `a`
below `2 ^ 53` (which `float64(a)` holds exactly) and a `float64` delta: the
exact product, rounded to the nearest `float64`. -/
def mulFloat64 (a : Nat) (delta : GoFloat) : GoFloat :=
  roundFloat64Scaled 1074 0 (a * delta.num) delta.den

/-- The tick arithmetic of `parsePlayable` with `deltaTicks` rounded as the
`float64` multiplication rounds it; everything else is as in `playableTick`,
which takes the product exactly. -/
def playableTickFloat64 {N C : Type} (bar : Bar N C) (beat : Nat) (delta : GoFloat) :
    Option Nat :=
  match bar.signature with
  | none => none
  | some sig =>
    let ticksPerBeat := 960
    let ticksPerBar := (sig.beats * ticksPerBeat) % 2 ^ 32
    if sig.duration = 0 then none
    else
      let ticksPerSubdivision := ticksPerBeat / sig.duration
      let deltaTicks : GoFloat := mulFloat64 ticksPerSubdivision delta
      some (((bar.offset * ticksPerBar) % 2 ^ 32
        + (((beat + 255) % 2 ^ 8) * ticksPerBeat) % 2 ^ 32
        + (deltaTicks.num / deltaTicks.den) % 2 ^ 32) % 2 ^ 32)

/-- A delta that a `float32` holds: `m / 2 ^ k` with a significand `m` below
`2 ^ 24` and `k` at most 149. The fraction `math.Modf` returns for a value of
`strconv.ParseFloat(lit, 32)`, the delta `parseOn` passes, is of this form. -/
def float32Fraction (delta : GoFloat) : Prop :=
  0 < delta.den ∧ ∃ m k, m < 2 ^ 24 ∧ k ≤ 149 ∧ delta.num * 2 ^ k = m * delta.den

/-- The `float64` nearest to one third, `6004799503160661 / 2 ^ 54`: not a
fraction that a `float32` holds. -/
def nearestThird : GoFloat := ⟨6004799503160661, 2 ^ 54⟩

/-- A bar of a track in 4/8, at offset 0. -/
def bar48 : Bar String (List String) :=
  { NewBar String (List String) 0 with signature := some (NewSignature 4 8) }

/-- A value that a `float32` holds: `m / 2 ^ k` with `k` at most 149, or
`m * 2 ^ k`, with a significand `m` below `2 ^ 24`. The values of
`strconv.ParseFloat(lit, 32)` are of this form. -/
def float32Value (f : GoFloat) : Prop :=
  0 < f.den ∧
    ∃ m k, m < 2 ^ 24 ∧ ((k ≤ 149 ∧ f.num * 2 ^ k = m * f.den) ∨ f.num = m * 2 ^ k * f.den)

/-! ## The scanner and the pushback buffer -/

theorem scan_buf (p : Parser) :
    p.scan.2.bufN = 0 ∧ p.scan.2.bufTok = p.scan.1.tok ∧ p.scan.2.bufLit = p.scan.1.lit := by
  unfold Parser.scan
  by_cases h : p.bufN = 0 <;> simp [h]

theorem scanLoop_buf (k : Nat) (p : Parser) :
    (scanIgnoreWhitespaceLoop k p).2.bufN = 0 ∧
    (scanIgnoreWhitespaceLoop k p).2.bufTok = (scanIgnoreWhitespaceLoop k p).1.tok ∧
    (scanIgnoreWhitespaceLoop k p).2.bufLit = (scanIgnoreWhitespaceLoop k p).1.lit := by
  induction k generalizing p with
  | zero => exact scan_buf p
  | succ k ih =>
    unfold scanIgnoreWhitespaceLoop
    by_cases h : p.scan.1.tok = Tok.WHITESPACE ∨ p.scan.1.tok = Tok.COMMENT
    · simp only [h, if_true]; exact ih _
    · simp only [h, if_false]; exact scan_buf p

/-- After `scanIgnoreWhitespace` the buffer is not pending and holds the token
that was returned. -/
theorem scanIgnoreWhitespace_buf (p : Parser) :
    p.scanIgnoreWhitespace.2.bufN = 0 ∧
    p.scanIgnoreWhitespace.2.bufTok = p.scanIgnoreWhitespace.1.tok ∧
    p.scanIgnoreWhitespace.2.bufLit = p.scanIgnoreWhitespace.1.lit :=
  scanLoop_buf _ p

theorem scanLoop_not_ws (k : Nat) (p : Parser)
    (h : p.s.length + (if p.bufN ≠ 0 then 1 else 0) ≤ k) :
    (scanIgnoreWhitespaceLoop k p).1.tok ≠ Tok.WHITESPACE ∧
    (scanIgnoreWhitespaceLoop k p).1.tok ≠ Tok.COMMENT := by
  induction k generalizing p with
  | zero =>
    have hn : p.bufN = 0 := by
      by_contra hc
      simp [hc] at h
    have hs : p.s = [] := by
      simp [hn] at h
      exact h
    simp [scanIgnoreWhitespaceLoop, Parser.scan, hn, hs, Scan]
  | succ k ih =>
    unfold scanIgnoreWhitespaceLoop
    by_cases hw : p.scan.1.tok = Tok.WHITESPACE ∨ p.scan.1.tok = Tok.COMMENT
    · simp only [hw, if_true]
      apply ih
      have hb := (scan_buf p).1
      simp only [hb, ne_eq, not_true_eq_false, if_false, Nat.add_zero]
      by_cases hn : p.bufN = 0
      · cases hs : p.s with
        | nil =>
          simp [Parser.scan, hn, hs, Scan] at hw
        | cons t ts =>
          simp [hn, hs] at h
          simp [Parser.scan, hn, hs, Scan]
          exact h
      · simp [hn] at h
        simp [Parser.scan, hn]
        exact h
    · simp only [hw, if_false]
      exact not_or.mp hw

/-- The loop bound of `scanIgnoreWhitespace` is enough: the token it returns is
neither whitespace nor a comment. -/
theorem scanIgnoreWhitespace_not_ws (p : Parser) :
    p.scanIgnoreWhitespace.1.tok ≠ Tok.WHITESPACE ∧
    p.scanIgnoreWhitespace.1.tok ≠ Tok.COMMENT := by
  apply scanLoop_not_ws
  by_cases h : p.bufN = 0 <;> simp [h]

/-- Scanning a parser with nothing pending whose next token is neither
whitespace nor a comment returns that token. -/
theorem scanIgnoreWhitespace_cons (t : Token) (ts : List Token) (bt : Tok) (bl : String)
    (h1 : t.tok ≠ Tok.WHITESPACE) (h2 : t.tok ≠ Tok.COMMENT) :
    Parser.scanIgnoreWhitespace { s := t :: ts, bufTok := bt, bufLit := bl, bufN := 0 } =
      (t, { s := ts, bufTok := t.tok, bufLit := t.lit, bufN := 0 }) := by
  simp [Parser.scanIgnoreWhitespace, scanIgnoreWhitespaceLoop, Parser.scan, Scan, h1, h2]

/-- Scanning after `unscan` returns the buffered token again. -/
theorem scanIgnoreWhitespace_unscan (p : Parser)
    (h1 : p.bufTok ≠ Tok.WHITESPACE) (h2 : p.bufTok ≠ Tok.COMMENT) :
    p.unscan.scanIgnoreWhitespace = (⟨p.bufTok, p.bufLit⟩, { p with bufN := 0 }) := by
  simp [Parser.scanIgnoreWhitespace, Parser.unscan, scanIgnoreWhitespaceLoop, Parser.scan, h1, h2]

/-- The exhausted scanner answers `EOF` and stays exhausted. -/
theorem scanIgnoreWhitespace_nil (bt : Tok) (bl : String) :
    Parser.scanIgnoreWhitespace { s := [], bufTok := bt, bufLit := bl, bufN := 0 } =
      (⟨Tok.EOF, ""⟩, { s := [], bufTok := Tok.EOF, bufLit := "", bufN := 0 }) := by
  simp [Parser.scanIgnoreWhitespace, scanIgnoreWhitespaceLoop, Parser.scan, Scan]

/-! ## Events: what the loops of `parsePlayable` keep -/

/-- The velocity loop changes the velocity only, and it stops with the `;`
pushed back. -/
theorem parseVelocityLoop_frame {N C : Type} (fuel : Nat) (x x1 : Playable N C)
    (p p1 : Parser) (h : parseVelocityLoop fuel x p = Res.ok x1 p1) :
    x1.tick = x.tick ∧ x1.duration = x.duration ∧ x1.sound = x.sound ∧
    p1.bufN = 1 ∧ p1.bufTok = Tok.SEMICOLON := by
  induction fuel generalizing x p with
  | zero => simp [parseVelocityLoop] at h
  | succ n ih =>
    rw [parseVelocityLoop] at h
    simp only at h
    split_ifs at h with h1 h2 h3
    · simp only [Res.ok.injEq] at h
      obtain ⟨hx, hp⟩ := h
      subst hx hp
      have hb := scanIgnoreWhitespace_buf p
      simp [Parser.unscan, hb.2.1, h1]
    · cases hu : parseUint p.scanIgnoreWhitespace.2.scanIgnoreWhitespace.1.lit 8 with
      | none => simp [hu] at h
      | some v =>
        simp only [hu] at h
        have := ih _ _ h
        simpa [Playable.SetVelocity] using this
    · exact ih _ _ h

/-- Every playable the outer loop of `parsePlayable` returns carries the tick
of `playableTick`, provided the one it started with did. -/
theorem parsePlayableLoop_tick {N C : Type} (env : Env N C) (bar : Bar N C)
    (duration beat : Nat) (delta : GoFloat) (fuel : Nat) (x0 : Option (Playable N C))
    (p p1 : Parser) (x : Playable N C)
    (h0 : ∀ y, x0 = some y → playableTick bar beat delta = some y.tick ∧ y.duration = duration)
    (h : parsePlayableLoop env bar duration beat delta fuel x0 p = Res.ok (some x) p1) :
    playableTick bar beat delta = some x.tick ∧ x.duration = duration := by
  induction fuel generalizing x0 p with
  | zero => simp [parsePlayableLoop] at h
  | succ n ih =>
    rw [parsePlayableLoop] at h
    simp only at h
    split_ifs at h with h1
    · simp only [Res.ok.injEq] at h
      exact h0 x h.1
    · have key : ∀ (y : Playable N C) (q : Parser), y.duration = duration →
          (match playableTick bar beat delta with
            | none => Res.panic
            | some tick =>
              (parseVelocityLoop n (y.SetTick tick) q).bind fun x2 p2 =>
                parsePlayableLoop env bar duration beat delta n (some x2) p2) = Res.ok (some x) p1 →
          playableTick bar beat delta = some x.tick ∧ x.duration = duration := by
        intro y q hy hk
        cases ht : playableTick bar beat delta with
        | none => simp [ht] at hk
        | some tick =>
          simp only [ht] at hk
          cases hv : parseVelocityLoop n (y.SetTick tick) q with
          | ok x2 p2 =>
            simp only [hv, Res.bind] at hk
            have hf := parseVelocityLoop_frame _ _ _ _ _ hv
            have := ih (some x2) p2 (by
              intro z hz
              simp only [Option.some.injEq] at hz
              subst hz
              rw [ht, hf.1, hf.2.1]
              simp [Playable.SetTick, hy]) hk
            rw [ht] at this
            exact this
          | err e => simp [hv, Res.bind] at hk
          | panic => simp [hv, Res.bind] at hk
          | timeout => simp [hv, Res.bind] at hk
      split at h
      · cases hc : parseChord env p.scanIgnoreWhitespace.2 with
        | ok c q =>
          simp only [hc, Res.bind] at h
          exact key _ q (by simp [Playable.SetDuration]) h
        | err e => simp [hc, Res.bind] at h
        | panic => simp [hc, Res.bind] at h
        | timeout => simp [hc, Res.bind] at h
      · cases hc : parseNote env p.scanIgnoreWhitespace.2 with
        | ok c q =>
          simp only [hc, Res.bind] at h
          exact key _ q (by simp [Playable.SetDuration]) h
        | err e => simp [hc, Res.bind] at h
        | panic => simp [hc, Res.bind] at h
        | timeout => simp [hc, Res.bind] at h
      · cases hc : env.notesParse "D#4" with
        | none => simp [hc] at h
        | some n0 =>
          simp only [hc] at h
          exact key _ _ (by simp [Playable.SetDuration]) h
      · cases hc : env.notesParse "D3" with
        | none => simp [hc] at h
        | some n0 =>
          simp only [hc] at h
          exact key _ _ (by simp [Playable.SetDuration]) h
      · cases hc : env.notesParse "A#3" with
        | none => simp [hc] at h
        | some n0 =>
          simp only [hc] at h
          exact key _ _ (by simp [Playable.SetDuration]) h
      · simp at h

/-! ## The tick formula -/

/-- The truncation of `float64(a) * delta` is the quotient `a * num / den`. -/
theorem floor_deltaTicks (a n d : Nat) :
    ⌊((a : ℕ) : ℚ) * ((n : ℚ) / (d : ℚ))⌋₊ = a * n / d := by
  rw [← mul_div_assoc, ← Nat.cast_mul, Nat.floor_div_eq_div]

/-- The value `playableTick` computes, when it does not panic. -/
theorem playableTick_eq {N C : Type} (bar : Bar N C) (sig : Signature) (beat : Nat)
    (delta : GoFloat) (t : Nat) (hsig : bar.signature = some sig)
    (hbeat : 1 ≤ beat ∧ beat ≤ 255) (h : playableTick bar beat delta = some t) :
    sig.duration ≠ 0 ∧
    t = (bar.offset * (sig.beats * 960) + (beat - 1) * 960
          + (960 / sig.duration) * delta.num / delta.den) % 2 ^ 32 := by
  unfold playableTick at h
  simp only [hsig] at h
  split_ifs at h with hd
  refine ⟨hd, ?_⟩
  simp only [Option.some.injEq] at h
  have hb : (beat + 255) % 2 ^ 8 = beat - 1 := by omega
  have hm : (bar.offset * (sig.beats * 960 % 2 ^ 32)) % 2 ^ 32
      = (bar.offset * (sig.beats * 960)) % 2 ^ 32 := by
    rw [Nat.mul_mod, Nat.mod_mod, ← Nat.mul_mod]
  rw [← h, hb, hm]
  generalize bar.offset * (sig.beats * 960) = X
  generalize 960 / sig.duration * delta.num / delta.den = Y
  omega

/-! ## The product `float64(ticksPerSubdivision) * delta` -/

/-- A fraction that is an integer rounds to that integer. -/
theorem roundHalfEven_exact (m d : Nat) (hd : 0 < d) : roundHalfEven (m * d) d = m := by
  unfold roundHalfEven
  rw [Nat.mul_mod_left, Nat.mul_div_cancel _ hd]
  simp [hd]

/-- A fraction `M / 2 ^ k0` with `M` below `2 ^ 52` is a `float64`: rounding
leaves its value as it is. -/
theorem roundFloat64Scaled_exact (n d M k0 : Nat) (hd : 0 < d) (hM : M < 2 ^ 52)
    (hn : n * 2 ^ k0 = M * d) (fuel k : Nat) (hk : k0 ≤ k + fuel) :
    (roundFloat64Scaled fuel k n d).num * 2 ^ k0 = M * (roundFloat64Scaled fuel k n d).den ∧
    0 < (roundFloat64Scaled fuel k n d).den := by
  have hstop : ∀ k, k0 ≤ k →
      (roundHalfEven (n * 2 ^ k) d) * 2 ^ k0 = M * 2 ^ k ∧ 0 < 2 ^ k := by
    intro k hle
    obtain ⟨j, rfl⟩ := Nat.exists_eq_add_of_le hle
    have h1 : n * 2 ^ (k0 + j) = (M * 2 ^ j) * d := by
      rw [Nat.pow_add, ← Nat.mul_assoc, hn]
      ring
    rw [h1, roundHalfEven_exact _ _ hd]
    exact ⟨by rw [Nat.pow_add]; ring, Nat.two_pow_pos _⟩
  induction fuel generalizing k with
  | zero => exact hstop k (by simpa using hk)
  | succ f ih =>
    rw [roundFloat64Scaled]
    split_ifs with hc
    · apply hstop
      by_contra hlt
      have hlt : k < k0 := Nat.lt_of_not_le hlt
      obtain ⟨j, rfl⟩ := Nat.exists_eq_add_of_lt hlt
      have h2 : n * 2 ^ k * 2 ^ (j + 1) = M * d := by
        rw [← hn, Nat.add_assoc, Nat.pow_add]
        ring
      have h3 : 2 ^ 52 * d * 2 ^ (j + 1) ≤ M * d := by
        rw [← h2]
        exact Nat.mul_le_mul_right _ hc
      have h4 : 2 ^ 52 * d * 1 ≤ 2 ^ 52 * d * 2 ^ (j + 1) :=
        Nat.mul_le_mul_left _ (Nat.one_le_two_pow)
      have h5 : M * d < 2 ^ 52 * d := Nat.mul_lt_mul_of_pos_right hM hd
      omega
    · exact ih (k + 1) (by omega)

/-- Two fractions with the same value have the same integer part. -/
theorem div_eq_of_cross (a b n d M c : Nat) (hb : 0 < b) (hd : 0 < d) (hc : 0 < c)
    (h1 : a * c = M * b) (h2 : n * c = M * d) : a / b = n / d := by
  have e1 : a / b = M / c := by
    rw [← Nat.mul_div_mul_right a b hc, h1, Nat.mul_comm b c, Nat.mul_div_mul_right M c hb]
  have e2 : n / d = M / c := by
    rw [← Nat.mul_div_mul_right n d hc, h2, Nat.mul_comm d c, Nat.mul_div_mul_right M c hd]
  rw [e1, e2]

/-- For a delta that a `float32` holds and a factor of at most 960, the
`float64` product is the exact product: its integer part is the quotient
`a * num / den`. -/
theorem mulFloat64_exact (a : Nat) (delta : GoFloat) (ha : a ≤ 960)
    (hf : float32Fraction delta) :
    (mulFloat64 a delta).num / (mulFloat64 a delta).den = a * delta.num / delta.den := by
  obtain ⟨hd, m, k0, hm, hk0, he⟩ := hf
  have hM : a * m < 2 ^ 52 := by
    have : a * m ≤ 960 * 2 ^ 24 := Nat.mul_le_mul ha (Nat.le_of_lt hm)
    have h2 : 960 * 2 ^ 24 < 2 ^ 52 := by decide
    omega
  have hn : a * delta.num * 2 ^ k0 = a * m * delta.den := by
    rw [Nat.mul_assoc, he, Nat.mul_assoc]
  obtain ⟨h1, h2⟩ := roundFloat64Scaled_exact (a * delta.num) delta.den (a * m) k0 hd hM hn
    1074 0 (by omega)
  exact div_eq_of_cross _ _ _ _ (a * m) (2 ^ k0) h2 hd (Nat.two_pow_pos _) h1 hn

/-- For a delta that a `float32` holds, the tick with the rounded product is
the tick of `playableTick`. -/
theorem playableTickFloat64_eq {N C : Type} (bar : Bar N C) (beat : Nat) (delta : GoFloat)
    (hf : float32Fraction delta) :
    playableTickFloat64 bar beat delta = playableTick bar beat delta := by
  unfold playableTickFloat64 playableTick
  cases bar.signature with
  | none => rfl
  | some sig =>
    simp only
    split_ifs with hz
    · rfl
    · rw [mulFloat64_exact (960 / sig.duration) delta (Nat.div_le_self _ _) hf]

/-- At the `float64` nearest to one third, in a 4/4 bar at offset 0, the
rounded product is 80 and the exact one is below 80: the ticks differ. -/
theorem playableTickFloat64_nearestThird :
    playableTickFloat64 bar44 1 nearestThird = some 80 ∧
    playableTick bar44 1 nearestThird = some 79 := by
  constructor
  · decide
  · decide

/-- C1 (amended): for every event `parsePlayable` parses successfully in a bar
with offset `barIndex` and signature `(beatsPerBar, subdivisionUnit)`, given a
1-based beat and a fractional delta in `[0,1)` that a `float32` holds (the
delta `parseOn` passes), the tick stored on the playable is `barIndex *
(beatsPerBar * 960) + (beat - 1) * 960 + floor((960 / subdivisionUnit) *
delta)` reduced modulo `2 ^ 32` (the sum is computed in `uint32`, and `960 /
subdivisionUnit` is the integer quotient); it is that value itself whenever
the value is below `2 ^ 32`, and for an integer beat (delta = 0) it is
`barIndex * beatsPerBar * 960 + (beat - 1) * 960` modulo `2 ^ 32`. For such a
delta the `float64` product of the code is exact, so the tick is the one of
the rounded arithmetic `playableTickFloat64` as well. -/
theorem parsePlayable_tick_formula {N C : Type} (fuel : Nat) (env : Env N C) (bar : Bar N C)
    (sig : Signature) (duration beat : Nat) (delta : GoFloat) (p p1 : Parser)
    (x : Playable N C) (hsig : bar.signature = some sig)
    (hbeat : 1 ≤ beat ∧ beat ≤ 255) (hdelta : delta.num < delta.den)
    (hf32 : float32Fraction delta)
    (h : parsePlayable fuel env bar duration beat delta p = Res.ok (some x) p1) :
    playableTickFloat64 bar beat delta = some x.tick ∧
    x.tick = (bar.offset * (sig.beats * 960) + (beat - 1) * 960
        + ⌊((960 / sig.duration : ℕ) : ℚ) * ((delta.num : ℚ) / (delta.den : ℚ))⌋₊) % 2 ^ 32 ∧
    (bar.offset * (sig.beats * 960) + (beat - 1) * 960
        + ⌊((960 / sig.duration : ℕ) : ℚ) * ((delta.num : ℚ) / (delta.den : ℚ))⌋₊ < 2 ^ 32 →
      x.tick = bar.offset * (sig.beats * 960) + (beat - 1) * 960
        + ⌊((960 / sig.duration : ℕ) : ℚ) * ((delta.num : ℚ) / (delta.den : ℚ))⌋₊) ∧
    (delta.num = 0 →
      x.tick = (bar.offset * sig.beats * 960 + (beat - 1) * 960) % 2 ^ 32) := by
  have hden : 0 < delta.den := Nat.lt_of_le_of_lt (Nat.zero_le _) hdelta
  have ht := (parsePlayableLoop_tick env bar duration beat delta fuel none p p1 x
    (by intro y hy; cases hy) h).1
  have hv := (playableTick_eq bar sig beat delta x.tick hsig hbeat ht).2
  rw [floor_deltaTicks]
  refine ⟨?_, hv, ?_, ?_⟩
  · rw [playableTickFloat64_eq bar beat delta hf32]
    exact ht
  · intro hlt
    rw [hv, Nat.mod_eq_of_lt hlt]
  · intro h0
    rw [hv, h0, Nat.mul_zero, Nat.zero_div, Nat.add_zero, Nat.mul_assoc]

/-- Witness of C1: the note of `NOTE A4 ;` on beat 3 with delta 1/2 in a 4/4
bar at offset 0 gets tick 2040, with the rounded product as with the exact
one. -/
theorem parsePlayable_tick_formula_witness :
    playableTickFloat64 bar44 3 ⟨1, 2⟩ = some 2040 ∧
    (2040 : Nat) = (0 * (4 * 960) + (3 - 1) * 960
        + ⌊((960 / 4 : ℕ) : ℚ) * (((1 : ℕ) : ℚ) / ((2 : ℕ) : ℚ))⌋₊) % 2 ^ 32 :=
  ⟨(parsePlayable_tick_formula 3 demoEnv bar44 ⟨4, 4⟩ 8 3 ⟨1, 2⟩ (NewParser noteStmt)
      { s := [], bufTok := Tok.SEMICOLON, bufLit := ";", bufN := 0 }
      ⟨Sound.note "A4", 2040, 8, 64⟩ rfl (by decide) (by decide)
      ⟨by decide, 1, 1, by decide, by decide, by decide⟩ rfl).1,
   (parsePlayable_tick_formula 3 demoEnv bar44 ⟨4, 4⟩ 8 3 ⟨1, 2⟩ (NewParser noteStmt)
      { s := [], bufTok := Tok.SEMICOLON, bufLit := ";", bufN := 0 }
      ⟨Sound.note "A4", 2040, 8, 64⟩ rfl (by decide) (by decide)
      ⟨by decide, 1, 1, by decide, by decide, by decide⟩ rfl).2.1⟩

/-- C1 (counterexample): in a bar at offset 17545 with 255 beats per bar, the
note on beat 1 gets tick 48704, not `17545 * (255 * 960) + (1 - 1) * 960`:
the product wraps around in `uint32`. -/
theorem parsePlayable_tick_wraps :
    ∃ x p1, parsePlayable 3 demoEnv barLate 4 1 ⟨0, 1⟩ (NewParser noteStmt) = Res.ok (some x) p1 ∧
      x.tick = 48704 ∧
      x.tick ≠ 17545 * (255 * 960) + (1 - 1) * 960
        + ⌊((960 / 4 : ℕ) : ℚ) * (((0 : ℕ) : ℚ) / ((1 : ℕ) : ℚ))⌋₊ := by
  refine ⟨⟨Sound.note "A4", 48704, 4, 64⟩,
    { s := [], bufTok := Tok.SEMICOLON, bufLit := ";", bufN := 0 }, rfl, rfl, ?_⟩
  rw [floor_deltaTicks]
  decide

/-! ## Beats -/

/-- `ParseUint` accepts a literal exactly when its integer fits the bit size. -/
theorem parseUint_eq (lit : String) (bitSize : Nat) :
    parseUint lit bitSize =
      match integerValue lit with
      | none => none
      | some v => if v < 2 ^ bitSize then some v else none := by
  unfold parseUint integerValue
  by_cases h1 : lit.data = []
  · simp [h1]
  · by_cases h2 : lit.data.all (fun c => decide (48 ≤ c.toNat ∧ c.toNat ≤ 57)) = true
    · simp only [h1, h2, if_true, if_false]
    · simp only [h1, h2, if_false]
      simp

/-- C2 (amended): for every valid signature `(beatsPerBar, subdivisionUnit)` of
the enclosing bar, an on-statement whose beat value is 0 or `beatsPerBar + 1`
is rejected by `parseOn` and nothing is appended to the bar. The error is "no
such beat", except for an integer beat `beatsPerBar + 1 = 256` (a bar of 255
beats), which does not fit `uint8` and is rejected by `strconv.ParseUint` with
its own error. A fractional beat whose integer part is 0 or `beatsPerBar + 1`
is rejected with "no such beat" for every signature. -/
theorem parseOn_no_such_beat {N C : Type} (fuel : Nat) (env : Env N C) (bar : Bar N C)
    (sig : Signature) (p : Parser) (hsig : bar.signature = some sig)
    (hvalid : sig.beats ≤ 255)
    (h1 : p.scanIgnoreWhitespace.1.tok = Tok.BEAT) :
    (p.scanIgnoreWhitespace.2.scanIgnoreWhitespace.1.tok = Tok.NUMBER →
      ∀ v, integerValue p.scanIgnoreWhitespace.2.scanIgnoreWhitespace.1.lit = some v →
        (v = 0 ∨ v = sig.beats + 1) →
        parseOn fuel env bar p =
          (bar, Res.err (if v ≤ 255 then ParseError.noSuchBeat v
            else ParseError.strconv p.scanIgnoreWhitespace.2.scanIgnoreWhitespace.1.lit))) ∧
    (p.scanIgnoreWhitespace.2.scanIgnoreWhitespace.1.tok = Tok.FLOAT →
      ∀ f, env.parseFloat p.scanIgnoreWhitespace.2.scanIgnoreWhitespace.1.lit 32 = some f →
        (f.num / f.den = 0 ∨ f.num / f.den = sig.beats + 1) →
        parseOn fuel env bar p = (bar, Res.err (ParseError.noSuchBeatFloat f))) := by
  constructor
  · intro h2 v hv hcase
    unfold parseOn
    simp only [h1, h2, ne_eq, not_true_eq_false, if_false, false_and, if_true, parseUint_eq, hv]
    by_cases hle : v ≤ 255
    · have hlt : v < 2 ^ 8 := by omega
      simp only [hlt, hle, if_true, hsig]
      rcases hcase with h0 | hb
      · simp [h0]
      · have : v ≠ 0 := by omega
        have hgt : v > sig.beats := by omega
        simp [this, hgt]
    · have hlt : ¬ v < 2 ^ 8 := by omega
      simp only [hlt, hle, if_false]
  · intro h2 f hf hcase
    unfold parseOn
    simp only [h1, h2, ne_eq, not_true_eq_false, if_false, hf, Modf]
    rcases hcase with h0 | hb
    · simp [h0]
    · have hm : (f.num / f.den) % 2 ^ 64 = sig.beats + 1 := by omega
      have hne : ¬ (f.num / f.den) % 2 ^ 64 = 0 := by omega
      have hgt : (f.num / f.den) % 2 ^ 64 > sig.beats := by omega
      simp only [hne, if_false, hsig, hgt, if_true]
      simp

/-- Witness of C2: `ON BEAT 5 ...` in a 4/4 bar is "no such beat: 5". -/
theorem parseOn_no_such_beat_witness :
    parseOn 5 demoEnv bar44 (NewParser beat5Stmt) = (bar44, Res.err (ParseError.noSuchBeat 5)) :=
  (parseOn_no_such_beat 5 demoEnv bar44 ⟨4, 4⟩ (NewParser beat5Stmt) rfl (by decide) rfl).1
    rfl 5 rfl (Or.inr rfl)

/-- C2 (counterexample): in a bar of 255 beats the beat value 256 is rejected
with an error of `strconv.ParseUint`, not with "no such beat". -/
theorem parseOn_beat_256 :
    parseOn 5 demoEnv bar255 (NewParser beat256Stmt) = (bar255, Res.err (ParseError.strconv "256")) ∧
    ∀ n, (parseOn 5 demoEnv bar255 (NewParser beat256Stmt)).2 ≠ Res.err (ParseError.noSuchBeat n) := by
  refine ⟨rfl, ?_⟩
  intro n h
  have h2 : (parseOn 5 demoEnv bar255 (NewParser beat256Stmt)).2
      = Res.err (ParseError.strconv "256") := rfl
  rw [h2] at h
  cases h

/-! ## Durations -/

/-- An accepted duration specification: the events are parsed with its code,
after the suffix token if it has one. -/
theorem parsePlay_accept {N C : Type} (fuel : Nat) (env : Env N C) (bar : Bar N C)
    (beat : Nat) (delta : GoFloat) (p : Parser) (d : Nat) (sfx : Bool)
    (h : durationSpec p.scanIgnoreWhitespace.1 p.scanIgnoreWhitespace.2.scanIgnoreWhitespace.1
        = some (d, sfx)) :
    parsePlay fuel env bar beat delta p =
      addParsed bar (parsePlayable fuel env bar d beat delta
        (if sfx then p.scanIgnoreWhitespace.2.scanIgnoreWhitespace.2
         else p.scanIgnoreWhitespace.2)) := by
  unfold durationSpec at h
  unfold parsePlay
  cases ht : p.scanIgnoreWhitespace.1.tok <;> simp only [ht] at h ⊢ <;>
    try (simp only [Option.some.injEq, Prod.mk.injEq] at h; obtain ⟨rfl, rfl⟩ := h; simp)
  all_goals try (exact absurd h (by simp))
  rw [parseUint_eq]
  cases hv : integerValue p.scanIgnoreWhitespace.1.lit with
  | none => simp [hv] at h
  | some v =>
    simp only [hv] at h ⊢
    split_ifs at h with h1 h2
    · simp only [Option.some.injEq, Prod.mk.injEq] at h
      obtain ⟨rfl, rfl⟩ := h
      obtain ⟨hv8, hth⟩ := h1
      rcases hv8 with rfl | rfl | rfl | rfl | rfl <;> simp [expectSuffix, hth]
    · simp only [Option.some.injEq, Prod.mk.injEq] at h
      obtain ⟨rfl, rfl⟩ := h
      obtain ⟨rfl, hnd⟩ := h2
      simp [expectSuffix, hnd]

/-- Anything that is no duration specification is an error of `parsePlay`. -/
theorem parsePlay_reject {N C : Type} (fuel : Nat) (env : Env N C) (bar : Bar N C)
    (beat : Nat) (delta : GoFloat) (p : Parser)
    (h : durationSpec p.scanIgnoreWhitespace.1 p.scanIgnoreWhitespace.2.scanIgnoreWhitespace.1
        = none) :
    ∃ e, parsePlay fuel env bar beat delta p = (bar, Res.err e) := by
  unfold durationSpec at h
  unfold parsePlay
  cases ht : p.scanIgnoreWhitespace.1.tok <;> simp only [ht] at h ⊢ <;>
    try (exact ⟨_, rfl⟩)
  all_goals try (exact absurd h (by simp))
  rw [parseUint_eq]
  cases hv : integerValue p.scanIgnoreWhitespace.1.lit with
  | none => exact ⟨_, rfl⟩
  | some v =>
    simp only [hv] at h ⊢
    split_ifs at h with h1 h2
    by_cases hlt : v < 2 ^ 16
    · simp only [hlt, if_true]
      by_cases c8 : v = 8
      · subst c8
        have : ¬ p.scanIgnoreWhitespace.2.scanIgnoreWhitespace.1.tok = Tok.TH := by
          intro hc; exact h1 ⟨by simp, hc⟩
        simp [expectSuffix, this]
      by_cases c16 : v = 16
      · subst c16
        have : ¬ p.scanIgnoreWhitespace.2.scanIgnoreWhitespace.1.tok = Tok.TH := by
          intro hc; exact h1 ⟨by simp, hc⟩
        simp [expectSuffix, this]
      by_cases c32 : v = 32
      · subst c32
        have : ¬ p.scanIgnoreWhitespace.2.scanIgnoreWhitespace.1.tok = Tok.ND := by
          intro hc; exact h2 ⟨rfl, hc⟩
        simp [expectSuffix, this]
      by_cases c64 : v = 64
      · subst c64
        have : ¬ p.scanIgnoreWhitespace.2.scanIgnoreWhitespace.1.tok = Tok.TH := by
          intro hc; exact h1 ⟨by simp, hc⟩
        simp [expectSuffix, this]
      by_cases c128 : v = 128
      · subst c128
        have : ¬ p.scanIgnoreWhitespace.2.scanIgnoreWhitespace.1.tok = Tok.TH := by
          intro hc; exact h1 ⟨by simp, hc⟩
        simp [expectSuffix, this]
      by_cases c256 : v = 256
      · subst c256
        have : ¬ p.scanIgnoreWhitespace.2.scanIgnoreWhitespace.1.tok = Tok.TH := by
          intro hc; exact h1 ⟨by simp, hc⟩
        simp [expectSuffix, this]
      simp [c8, c16, c32, c64, c128, c256]
    · simp only [hlt, if_false]
      exact ⟨_, rfl⟩

/-- C3: `parsePlay` accepts the duration specification exactly in the forms of
`durationSpec`: WHOLE, HALF, QUARTER give the codes 1, 2, 4; an integer 8, 16,
64, 128 or 256 followed by TH, and 32 followed by ND, give that integer; then
the events are parsed with that code. Every other integer, every integer
followed by the other suffix kind, and every other token make the parse fail
with nothing appended to the bar. -/
theorem parsePlay_duration_forms {N C : Type} (fuel : Nat) (env : Env N C) (bar : Bar N C)
    (beat : Nat) (delta : GoFloat) (p : Parser) :
    (∀ d sfx,
      durationSpec p.scanIgnoreWhitespace.1 p.scanIgnoreWhitespace.2.scanIgnoreWhitespace.1
        = some (d, sfx) →
      parsePlay fuel env bar beat delta p =
        addParsed bar (parsePlayable fuel env bar d beat delta
          (if sfx then p.scanIgnoreWhitespace.2.scanIgnoreWhitespace.2
           else p.scanIgnoreWhitespace.2))) ∧
    (durationSpec p.scanIgnoreWhitespace.1 p.scanIgnoreWhitespace.2.scanIgnoreWhitespace.1 = none →
      ∃ e, parsePlay fuel env bar beat delta p = (bar, Res.err e)) := by
  exact ⟨fun d sfx h => parsePlay_accept fuel env bar beat delta p d sfx h,
    fun h => parsePlay_reject fuel env bar beat delta p h⟩

/-- Witness of C3: `32 ND` is a duration of code 32, and `32 TH` is none. -/
theorem parsePlay_duration_forms_witness :
    parsePlay 3 demoEnv bar44 1 ⟨0, 1⟩ (NewParser play32ndStmt) =
      addParsed bar44 (parsePlayable 3 demoEnv bar44 32 1 ⟨0, 1⟩
        (NewParser play32ndStmt).scanIgnoreWhitespace.2.scanIgnoreWhitespace.2) ∧
    ∃ e, parsePlay 3 demoEnv bar44 1 ⟨0, 1⟩ (NewParser play32thStmt) = (bar44, Res.err e) :=
  ⟨(parsePlay_duration_forms 3 demoEnv bar44 1 ⟨0, 1⟩ (NewParser play32ndStmt)).1 32 true rfl,
   (parsePlay_duration_forms 3 demoEnv bar44 1 ⟨0, 1⟩ (NewParser play32thStmt)).2 rfl⟩

/-! ## Two events in one on-statement -/

/-- Scanning a parser whose `;` was pushed back returns the `;`. -/
theorem scanIgnoreWhitespace_pending (ts : List Token) (l : String) :
    Parser.scanIgnoreWhitespace { s := ts, bufTok := Tok.SEMICOLON, bufLit := l, bufN := 1 } =
      (⟨Tok.SEMICOLON, l⟩, { s := ts, bufTok := Tok.SEMICOLON, bufLit := l, bufN := 0 }) := by
  simp [Parser.scanIgnoreWhitespace, scanIgnoreWhitespaceLoop, Parser.scan]

/-- The velocity loop skips the tokens of a second event and stops at the `;`. -/
theorem parseVelocityLoop_skip_event {N C : Type} (fuel : Nat) (x : Playable N C) (e : Event)
    (semi : String) (rest : List Token) (bt : Tok) (bl : String) :
    parseVelocityLoop (fuel + 3) x
        { s := e.tokens ++ ⟨Tok.SEMICOLON, semi⟩ :: rest, bufTok := bt, bufLit := bl, bufN := 0 } =
      Res.ok x { s := rest, bufTok := Tok.SEMICOLON, bufLit := semi, bufN := 1 } := by
  cases e <;>
    simp [Event.tokens, parseVelocityLoop, scanIgnoreWhitespace_cons, Parser.unscan]

/-- The first event of `e1 e2 ;` is the playable `parsePlayable` returns. -/
theorem parsePlayable_two_events {N C : Type} (fuel : Nat) (env : Env N C) (bar : Bar N C)
    (duration beat : Nat) (delta : GoFloat) (e1 e2 : Event) (semi : String)
    (rest : List Token) (bt : Tok) (bl : String) (snd : Sound N C) (tick : Nat)
    (htick : playableTick bar beat delta = some tick) (hsnd : e1.sound env = some snd) :
    parsePlayable (fuel + 4) env bar duration beat delta
        { s := e1.tokens ++ (e2.tokens ++ ⟨Tok.SEMICOLON, semi⟩ :: rest),
          bufTok := bt, bufLit := bl, bufN := 0 } =
      Res.ok (some ⟨snd, tick, duration, env.defaultVelocity⟩)
        { s := rest, bufTok := Tok.SEMICOLON, bufLit := semi, bufN := 0 } := by
  have hskip := fun (x : Playable N C) (bt : Tok) (bl : String) =>
    parseVelocityLoop_skip_event fuel x e2 semi rest bt bl
  generalize e2.tokens ++ ⟨Tok.SEMICOLON, semi⟩ :: rest = tail at hskip ⊢
  cases e1 with
  | chord kw name =>
    obtain ⟨c, hc, rfl⟩ := Option.map_eq_some'.mp hsnd
    simp [parsePlayable, parsePlayableLoop, Event.tokens, scanIgnoreWhitespace_cons, parseChord,
      hc, Res.bind, htick, hskip, scanIgnoreWhitespace_pending, NewChord,
      Playable.SetDuration, Playable.SetTick]
  | note kw name =>
    obtain ⟨c, hc, rfl⟩ := Option.map_eq_some'.mp hsnd
    simp [parsePlayable, parsePlayableLoop, Event.tokens, scanIgnoreWhitespace_cons, parseNote,
      hc, Res.bind, htick, hskip, scanIgnoreWhitespace_pending, NewNote,
      Playable.SetDuration, Playable.SetTick]
  | cymbal kw =>
    obtain ⟨c, hc, rfl⟩ := Option.map_eq_some'.mp hsnd
    simp [parsePlayable, parsePlayableLoop, Event.tokens, scanIgnoreWhitespace_cons,
      hc, Res.bind, htick, hskip, scanIgnoreWhitespace_pending, NewNote,
      Playable.SetDuration, Playable.SetTick]
  | snare kw =>
    obtain ⟨c, hc, rfl⟩ := Option.map_eq_some'.mp hsnd
    simp [parsePlayable, parsePlayableLoop, Event.tokens, scanIgnoreWhitespace_cons,
      hc, Res.bind, htick, hskip, scanIgnoreWhitespace_pending, NewNote,
      Playable.SetDuration, Playable.SetTick]
  | openHiHat kw =>
    obtain ⟨c, hc, rfl⟩ := Option.map_eq_some'.mp hsnd
    simp [parsePlayable, parsePlayableLoop, Event.tokens, scanIgnoreWhitespace_cons,
      hc, Res.bind, htick, hskip, scanIgnoreWhitespace_pending, NewNote,
      Playable.SetDuration, Playable.SetTick]

/-- With the inner loop of `parsePlayable` as it is written, `parsePlay` on a
duration followed by two events and `;` appends the first event only, when the
tick arithmetic yields a tick and the resolver knows the event. -/
theorem parsePlay_two_events {N C : Type} (fuel : Nat) (env : Env N C) (bar : Bar N C)
    (beat : Nat) (delta : GoFloat) (p : Parser) (d : Nat) (sfx : Bool) (e1 e2 : Event)
    (semi : String) (rest : List Token) (bt : Tok) (bl : String) (snd : Sound N C) (tick : Nat)
    (hdur : durationSpec p.scanIgnoreWhitespace.1 p.scanIgnoreWhitespace.2.scanIgnoreWhitespace.1
        = some (d, sfx))
    (hp : (if sfx then p.scanIgnoreWhitespace.2.scanIgnoreWhitespace.2
           else p.scanIgnoreWhitespace.2) =
        { s := e1.tokens ++ (e2.tokens ++ ⟨Tok.SEMICOLON, semi⟩ :: rest),
          bufTok := bt, bufLit := bl, bufN := 0 })
    (htick : playableTick bar beat delta = some tick) (hsnd : e1.sound env = some snd) :
    parsePlay (fuel + 4) env bar beat delta p =
      ({ bar with playables := bar.playables ++ [some ⟨snd, tick, d, env.defaultVelocity⟩] },
        Res.ok () { s := rest, bufTok := Tok.SEMICOLON, bufLit := semi, bufN := 0 }) := by
  rw [parsePlay_accept (fuel + 4) env bar beat delta p d sfx hdur, hp,
    parsePlayable_two_events fuel env bar d beat delta e1 e2 semi rest bt bl snd tick htick hsnd]
  rfl

/-- On `QUARTER NOTE A4 NOTE C4 ;`, beat 1 of a 4/4 bar, `parsePlay` appends the
note A4 only. -/
theorem parsePlay_playTwoNotesStmt :
    parsePlay 4 demoEnv bar44 1 ⟨0, 1⟩ (NewParser playTwoNotesStmt) =
      ({ bar44 with playables := bar44.playables ++ [some ⟨Sound.note "A4", 0, 4, 64⟩] },
        Res.ok () { s := [], bufTok := Tok.SEMICOLON, bufLit := ";", bufN := 0 }) :=
  parsePlay_two_events 0 demoEnv bar44 1 ⟨0, 1⟩ (NewParser playTwoNotesStmt) 4 false
    (Event.note "note" "A4") (Event.note "note" "C4") ";" [] Tok.QUARTER "quarter"
    (Sound.note "A4") 0 rfl rfl rfl rfl

/-- C4 (counterexample): `ON BEAT 1 PLAY QUARTER NOTE A4 NOTE C4 ;` parses
successfully and leaves one playable in the bar, not two. -/
theorem parseOn_two_notes_one_playable :
    parseOn 10 demoEnv bar44 (NewParser twoNotesStmt) =
      ({ bar44 with playables := [some ⟨Sound.note "A4", 0, 4, 64⟩] },
        Res.ok () { s := [], bufTok := Tok.SEMICOLON, bufLit := ";", bufN := 0 }) ∧
    (parseOn 10 demoEnv bar44 (NewParser twoNotesStmt)).1.playables.length ≠ 2 :=
  ⟨rfl, by decide⟩

/-! ## BPM and TIME statements inside a track or a bar -/

/-- A well-formed BPM statement parses without error. -/
theorem parseBpm_wellFormed {N C : Type} (env : Env N C) (p : Parser)
    (h : wellFormedBpm env p) : ∃ v, parseBpm env p = Res.ok v (afterBpm p) := by
  obtain ⟨h1, h2, h3⟩ := h
  have hb := (scanIgnoreWhitespace_buf p).2.2
  obtain ⟨v, hv⟩ := Option.isSome_iff_exists.mp h2
  refine ⟨v, ?_⟩
  unfold parseBpm afterBpm
  have hn : ¬ (p.scanIgnoreWhitespace.1.tok ≠ Tok.NUMBER ∧ p.scanIgnoreWhitespace.1.tok ≠ Tok.FLOAT) := by
    rcases h1 with h1 | h1 <;> simp [h1]
  simp only [hn, if_false, hb, hv, h3, ne_eq, not_true_eq_false]

/-- A well-formed TIME statement parses without error. -/
theorem parseTimeSignature_wellFormed (p : Parser) (h : wellFormedTime p) :
    ∃ v, parseTimeSignature p = Res.ok v (afterTime p) := by
  obtain ⟨h1, h2, h3, h4, h5⟩ := h
  have hb1 := (scanIgnoreWhitespace_buf p).2.2
  have hb2 := (scanIgnoreWhitespace_buf p.scanIgnoreWhitespace.2).2.2
  obtain ⟨v1, hv1⟩ := Option.isSome_iff_exists.mp h2
  obtain ⟨v2, hv2⟩ := Option.isSome_iff_exists.mp h4
  refine ⟨NewSignature v1 v2, ?_⟩
  unfold parseTimeSignature afterTime
  simp only [h1, h3, h5, hb1, hb2, hv1, hv2, ne_eq, not_true_eq_false, if_false]

/-- Whatever `addParsed` does, the bar keeps all but its playables. -/
theorem addParsed_bar {N C : Type} (bar : Bar N C) (r : Res (Option (Playable N C))) :
    (addParsed bar r).1 = bar ∨ ∃ x, (addParsed bar r).1 = bar.AddPlayable x := by
  cases r with
  | ok a p => exact Or.inr ⟨a, rfl⟩
  | err e => exact Or.inl rfl
  | panic => exact Or.inl rfl
  | timeout => exact Or.inl rfl

/-- The bar after `parsePlay` is the bar before, or it with one more entry. -/
theorem parsePlay_bar {N C : Type} (fuel : Nat) (env : Env N C) (bar : Bar N C) (beat : Nat)
    (delta : GoFloat) (p : Parser) :
    (parsePlay fuel env bar beat delta p).1 = bar ∨
      ∃ x, (parsePlay fuel env bar beat delta p).1 = bar.AddPlayable x := by
  unfold parsePlay
  simp only
  split
  · exact addParsed_bar _ _
  · exact addParsed_bar _ _
  · exact addParsed_bar _ _
  · split
    · exact Or.inl rfl
    · split
      · exact addParsed_bar _ _
      · exact Or.inl rfl
      · exact Or.inl rfl
      · exact Or.inl rfl
  · exact Or.inl rfl

/-- The bar after `parseOn` is the bar before, or it with one more entry. -/
theorem parseOn_bar {N C : Type} (fuel : Nat) (env : Env N C) (bar : Bar N C) (p : Parser) :
    (parseOn fuel env bar p).1 = bar ∨ ∃ x, (parseOn fuel env bar p).1 = bar.AddPlayable x := by
  unfold parseOn
  simp only
  repeat' split
  all_goals first
    | exact parsePlay_bar _ _ _ _ _ _
    | exact Or.inl rfl

/-- The statement loop of a bar never changes the bar's bpm, signature or
offset. -/
theorem parseBarLoop_frame {N C : Type} (env : Env N C) (fuel : Nat) (bar bar1 : Bar N C)
    (p p1 : Parser) (h : parseBarLoop env fuel bar p = Res.ok bar1 p1) :
    bar1.bpm = bar.bpm ∧ bar1.signature = bar.signature ∧ bar1.offset = bar.offset := by
  induction fuel generalizing bar p with
  | zero => simp [parseBarLoop] at h
  | succ n ih =>
    rw [parseBarLoop] at h
    split_ifs at h with hc
    · simp only [Res.ok.injEq] at h
      obtain ⟨rfl, -⟩ := h
      exact ⟨rfl, rfl, rfl⟩
    · split at h
      · cases hb : parseBpm env p.scanIgnoreWhitespace.2 with
        | ok v q => rw [hb] at h; exact ih _ _ h
        | err e => rw [hb] at h; simp [Res.bind] at h
        | panic => rw [hb] at h; simp [Res.bind] at h
        | timeout => rw [hb] at h; simp [Res.bind] at h
      · cases hb : parseTimeSignature p.scanIgnoreWhitespace.2 with
        | ok v q => rw [hb] at h; exact ih _ _ h
        | err e => rw [hb] at h; simp [Res.bind] at h
        | panic => rw [hb] at h; simp [Res.bind] at h
        | timeout => rw [hb] at h; simp [Res.bind] at h
      · cases hb : parseText p.scanIgnoreWhitespace.2 with
        | ok v q =>
          rw [hb] at h
          have := ih _ _ h
          simpa [Bar.AddText] using this
        | err e => rw [hb] at h; simp [Res.bind] at h
        | panic => rw [hb] at h; simp [Res.bind] at h
        | timeout => rw [hb] at h; simp [Res.bind] at h
      · have hkeep := parseOn_bar n env bar p.scanIgnoreWhitespace.2
        rcases hpo : parseOn n env bar p.scanIgnoreWhitespace.2 with ⟨b2, r⟩
        rw [hpo] at h hkeep
        cases r with
        | ok u q =>
          simp only at h
          have := ih _ _ h
          rcases hkeep with hk | ⟨x, hk⟩
          · simp only at hk
            rw [hk] at this
            exact this
          · simp only at hk
            rw [hk] at this
            simpa [Bar.AddPlayable] using this
        | err e => simp at h
        | panic => simp at h
        | timeout => simp at h
      · simp at h

/-- A new bar takes the bpm and the signature of its track, and the count of
the track's bars as offset; the statements of its block do not change them. -/
theorem parseBar_frame {N C : Type} (fuel : Nat) (env : Env N C) (track : Track N C)
    (bar : Bar N C) (p p1 : Parser) (h : parseBar fuel env track p = Res.ok bar p1) :
    bar.bpm = track.bpm ∧ bar.signature = track.signature ∧
    bar.offset = track.bars.length % 2 ^ 32 := by
  unfold parseBar at h
  simp only at h
  split_ifs at h with hc
  have := parseBarLoop_frame env fuel _ _ _ _ h
  simpa [NewBar] using this

/-- The statement loop of a track never changes the track's bpm or signature,
and every bar it adds carries them. -/
theorem parseTrackLoop_frame {N C : Type} (env : Env N C) (fuel : Nat)
    (track track1 : Track N C) (p p1 : Parser)
    (h : parseTrackLoop env fuel track p = Res.ok track1 p1) :
    track1.bpm = track.bpm ∧ track1.signature = track.signature ∧
    ∀ b ∈ track1.bars, b ∈ track.bars ∨ (b.bpm = track.bpm ∧ b.signature = track.signature) := by
  induction fuel generalizing track p with
  | zero => simp [parseTrackLoop] at h
  | succ n ih =>
    rw [parseTrackLoop] at h
    split_ifs at h with hc
    · simp only [Res.ok.injEq] at h
      obtain ⟨rfl, -⟩ := h
      exact ⟨rfl, rfl, fun b hb => Or.inl hb⟩
    · split at h
      · cases hb : parseBpm env p.scanIgnoreWhitespace.2 with
        | ok v q => rw [hb] at h; exact ih _ _ h
        | err e => rw [hb] at h; simp [Res.bind] at h
        | panic => rw [hb] at h; simp [Res.bind] at h
        | timeout => rw [hb] at h; simp [Res.bind] at h
      · cases hb : parseTimeSignature p.scanIgnoreWhitespace.2 with
        | ok v q => rw [hb] at h; exact ih _ _ h
        | err e => rw [hb] at h; simp [Res.bind] at h
        | panic => rw [hb] at h; simp [Res.bind] at h
        | timeout => rw [hb] at h; simp [Res.bind] at h
      · cases hb : parseBar n env track p.scanIgnoreWhitespace.2 with
        | ok v q =>
          rw [hb] at h
          have hbar := parseBar_frame _ _ _ _ _ _ hb
          obtain ⟨h1, h2, h3⟩ := ih _ _ h
          refine ⟨h1, h2, fun b hmem => ?_⟩
          rcases h3 b hmem with hin | hval
          · simp only [Track.AddBar, List.mem_append, List.mem_singleton] at hin
            rcases hin with hin | rfl
            · exact Or.inl hin
            · exact Or.inr ⟨hbar.1, hbar.2.1⟩
          · exact Or.inr hval
        | err e => rw [hb] at h; simp [Res.bind] at h
        | panic => rw [hb] at h; simp [Res.bind] at h
        | timeout => rw [hb] at h; simp [Res.bind] at h
      · cases hb : parseCopyright p.scanIgnoreWhitespace.2 with
        | ok v q =>
          rw [hb] at h
          have := ih _ _ h
          simpa using this
        | err e => rw [hb] at h; simp [Res.bind] at h
        | panic => rw [hb] at h; simp [Res.bind] at h
        | timeout => rw [hb] at h; simp [Res.bind] at h
      · cases hb : parseInstrument env p.scanIgnoreWhitespace.2 with
        | ok v q =>
          rw [hb] at h
          have := ih _ _ h
          simpa using this
        | err e => rw [hb] at h; simp [Res.bind] at h
        | panic => rw [hb] at h; simp [Res.bind] at h
        | timeout => rw [hb] at h; simp [Res.bind] at h
      · cases hb : parseText p.scanIgnoreWhitespace.2 with
        | ok v q =>
          rw [hb] at h
          have := ih _ _ h
          simpa using this
        | err e => rw [hb] at h; simp [Res.bind] at h
        | panic => rw [hb] at h; simp [Res.bind] at h
        | timeout => rw [hb] at h; simp [Res.bind] at h
      · simp at h

/-- A new track takes the bpm and the signature of the project as they are
when it is created; its block changes neither, and all its bars carry them. -/
theorem parseTrack_frame {N C : Type} (fuel : Nat) (env : Env N C) (project : Project N C)
    (track : Track N C) (p p1 : Parser) (h : parseTrack fuel env project p = Res.ok track p1) :
    track.bpm = project.bpm ∧ track.signature = project.signature ∧
    ∀ b ∈ track.bars, b.bpm = project.bpm ∧ b.signature = project.signature := by
  unfold parseTrack at h
  simp only at h
  split_ifs at h with hc1 hc2
  obtain ⟨h1, h2, h3⟩ := parseTrackLoop_frame env fuel _ _ _ _ h
  refine ⟨by simpa [NewTrack] using h1, by simpa [NewTrack] using h2, fun b hb => ?_⟩
  rcases h3 b hb with hin | hval
  · simp [NewTrack] at hin
  · simpa [NewTrack] using hval

/-- C5: a syntactically well-formed BPM or TIME statement inside a Track block
or a Bar block parses without error and the statement loop goes on with the
same Track / Bar; after a successful parse every Bar's bpm and signature equal
the values of its Track, and every Track's bpm and signature (and those of all
its Bars) equal the values the Project had when the Track was created,
whatever BPM/TIME statements the blocks contain. -/
theorem bpm_time_inside_block_ignored {N C : Type} (fuel : Nat) (env : Env N C) :
    (∀ (track : Track N C) (p : Parser), p.scanIgnoreWhitespace.1.tok = Tok.BPM →
      wellFormedBpm env p.scanIgnoreWhitespace.2 →
      parseTrackLoop env (fuel + 1) track p =
        parseTrackLoop env fuel track (afterBpm p.scanIgnoreWhitespace.2)) ∧
    (∀ (track : Track N C) (p : Parser), p.scanIgnoreWhitespace.1.tok = Tok.TIME →
      wellFormedTime p.scanIgnoreWhitespace.2 →
      parseTrackLoop env (fuel + 1) track p =
        parseTrackLoop env fuel track (afterTime p.scanIgnoreWhitespace.2)) ∧
    (∀ (bar : Bar N C) (p : Parser), p.scanIgnoreWhitespace.1.tok = Tok.BPM →
      wellFormedBpm env p.scanIgnoreWhitespace.2 →
      parseBarLoop env (fuel + 1) bar p =
        parseBarLoop env fuel bar (afterBpm p.scanIgnoreWhitespace.2)) ∧
    (∀ (bar : Bar N C) (p : Parser), p.scanIgnoreWhitespace.1.tok = Tok.TIME →
      wellFormedTime p.scanIgnoreWhitespace.2 →
      parseBarLoop env (fuel + 1) bar p =
        parseBarLoop env fuel bar (afterTime p.scanIgnoreWhitespace.2)) ∧
    (∀ (track : Track N C) (bar : Bar N C) (p p1 : Parser),
      parseBar fuel env track p = Res.ok bar p1 →
      bar.bpm = track.bpm ∧ bar.signature = track.signature) ∧
    (∀ (project : Project N C) (track : Track N C) (p p1 : Parser),
      parseTrack fuel env project p = Res.ok track p1 →
      track.bpm = project.bpm ∧ track.signature = project.signature ∧
      ∀ b ∈ track.bars, b.bpm = project.bpm ∧ b.signature = project.signature) := by
  refine ⟨?_, ?_, ?_, ?_, ?_, ?_⟩
  · intro track p hk hw
    obtain ⟨v, hv⟩ := parseBpm_wellFormed env _ hw
    rw [parseTrackLoop]
    simp [hk, hv, Res.bind]
  · intro track p hk hw
    obtain ⟨v, hv⟩ := parseTimeSignature_wellFormed _ hw
    rw [parseTrackLoop]
    simp [hk, hv, Res.bind]
  · intro bar p hk hw
    obtain ⟨v, hv⟩ := parseBpm_wellFormed env _ hw
    rw [parseBarLoop]
    simp [hk, hv, Res.bind]
  · intro bar p hk hw
    obtain ⟨v, hv⟩ := parseTimeSignature_wellFormed _ hw
    rw [parseBarLoop]
    simp [hk, hv, Res.bind]
  · intro track bar p p1 h
    have := parseBar_frame fuel env track bar p p1 h
    exact ⟨this.1, this.2.1⟩
  · intro project track p p1 h
    exact parseTrack_frame fuel env project track p p1 h

/-- Witness of C5: in a track loop `BPM 120 ;` is read and the loop goes on
with the same track; and the track
`"lead" { BPM 120; TIME 3 8; BAR { TIME 6 8; BPM 120; ON BEAT 1 PLAY QUARTER NOTE A4; } }`
of a 4/4 project with no bpm parses to a track, and a bar, in 4/4 with no bpm. -/
theorem bpm_time_inside_block_ignored_witness :
    parseTrackLoop demoEnv 11 (NewTrack String (List String)) (NewParser bpmStmt) =
      parseTrackLoop demoEnv 10 (NewTrack String (List String))
        { s := [], bufTok := Tok.SEMICOLON, bufLit := ";", bufN := 0 } ∧
    (trackLead.bpm = project44.bpm ∧ trackLead.signature = project44.signature ∧
      ∀ b ∈ trackLead.bars, b.bpm = project44.bpm ∧ b.signature = project44.signature) :=
  ⟨(bpm_time_inside_block_ignored 10 demoEnv).1 (NewTrack String (List String))
      (NewParser bpmStmt) rfl ⟨Or.inl rfl, rfl, rfl⟩,
   (bpm_time_inside_block_ignored 10 demoEnv).2.2.2.2.2 project44 trackLead
      (NewParser trackWithOverrides)
      { s := [], bufTok := Tok.BRACKET_CLOSE, bufLit := "\x7d", bufN := 0 } rfl⟩

/-! ## What `Parse` returns -/

/-- Once the scanner is exhausted the velocity loop reads `EOF` for ever: no
amount of fuel lets it return. -/
theorem parseVelocityLoop_eof {N C : Type} (fuel : Nat) (x : Playable N C) (bt : Tok)
    (bl : String) :
    parseVelocityLoop fuel x { s := [], bufTok := bt, bufLit := bl, bufN := 0 } = Res.timeout := by
  induction fuel generalizing bt bl with
  | zero => rfl
  | succ n ih =>
    rw [parseVelocityLoop, scanIgnoreWhitespace_nil]
    simp [ih]

/-- C6 (the code at the failing input): on the stream that ends after
`... ON BEAT 1 PLAY QUARTER NOTE A4`, with no terminating `;`, `Parse` returns
neither a Project nor an error, whatever the fuel: the velocity loop of
`parsePlayable` never ends. -/
theorem parse_unterminatedOn_never_returns (fuel : Nat) :
    Parse fuel demoEnv (NewParser unterminatedOn) = Outcome.timeout := by
  have h4 : parseUint "4" 8 = some 4 := by decide
  have h1 : parseUint "1" 8 = some 1 := by decide
  rcases fuel with _ | _ | _ | _ | _ | n
  · rfl
  · rfl
  · rfl
  · rfl
  · rfl
  · simp [Parse, parseProject, NewParser, unterminatedOn, tk, scanIgnoreWhitespace_cons,
      parseProjectLoop, parseTimeSignature, h4, h1, Res.bind, parseTrack, parseTrackLoop,
      parseBar, parseBarLoop, parseOn, parsePlay, parsePlayable, parsePlayableLoop, parseNote,
      demoEnv, playableTick, NewBar, NewTrack, NewProject, NewSignature, addParsed,
      parseVelocityLoop_eof]

/-- Wherever `Parse` returns, it returns a Project with no error or an error
with no Project. -/
theorem parse_returns_exclusive {N C : Type} (fuel : Nat) (env : Env N C) (p : Parser)
    (v : Option (Project N C)) (e : Option ParseError)
    (h : Parse fuel env p = Outcome.returned v e) :
    (v.isSome = true ∧ e = none) ∨ (v = none ∧ e.isSome = true) := by
  unfold Parse parseProject at h
  simp only at h
  split_ifs at h with h1 h2 h3
  · cases h; exact Or.inr ⟨rfl, rfl⟩
  · cases h; exact Or.inr ⟨rfl, rfl⟩
  · cases h; exact Or.inr ⟨rfl, rfl⟩
  · split at h
    · cases h; exact Or.inr ⟨rfl, rfl⟩
    · cases h
    · cases h
    · split_ifs at h with h4
      · cases h; exact Or.inr ⟨rfl, rfl⟩
      · cases h; exact Or.inl ⟨rfl, rfl⟩

/-- An error of the statement loop of the project is the error of `Parse`,
with a nil Project. -/
theorem parse_propagates {N C : Type} (fuel : Nat) (env : Env N C) (p p0 : Parser)
    (name : String) (e : ParseError) (hh : projectHeader p = some (name, p0))
    (h : parseProjectLoop env fuel { NewProject N C with name := name } p0 = Res.err e) :
    Parse fuel env p = Outcome.returned none (some e) := by
  unfold projectHeader at hh
  split_ifs at hh with hc
  simp only [Option.some.injEq, Prod.mk.injEq] at hh
  obtain ⟨rfl, rfl⟩ := hh
  obtain ⟨h1, h2, h3⟩ := hc
  have h2n : ¬ (p.scanIgnoreWhitespace.2.scanIgnoreWhitespace.1.tok ≠ Tok.IDENTIFIER ∧
      p.scanIgnoreWhitespace.2.scanIgnoreWhitespace.1.tok ≠ Tok.STRING) := by
    rcases h2 with h2 | h2 <;> simp [h2]
  unfold Parse parseProject
  simp only [h1, h2n, h3, ne_eq, not_true_eq_false, if_false, h]

/-! ## Errors of nested parsers -/

/-- An error of the parser of a project statement is the error of the loop. -/
theorem parseProjectLoop_propagates {N C : Type} (env : Env N C) (fuel : Nat)
    (project : Project N C) (p : Parser) (e : ParseError) :
    (p.scanIgnoreWhitespace.1.tok = Tok.BPM → parseBpm env p.scanIgnoreWhitespace.2 = Res.err e →
      parseProjectLoop env (fuel + 1) project p = Res.err e) ∧
    (p.scanIgnoreWhitespace.1.tok = Tok.TIME →
      parseTimeSignature p.scanIgnoreWhitespace.2 = Res.err e →
      parseProjectLoop env (fuel + 1) project p = Res.err e) ∧
    (p.scanIgnoreWhitespace.1.tok = Tok.TRACK →
      parseTrack fuel env project p.scanIgnoreWhitespace.2 = Res.err e →
      parseProjectLoop env (fuel + 1) project p = Res.err e) ∧
    (p.scanIgnoreWhitespace.1.tok = Tok.COPYRIGHT →
      parseCopyright p.scanIgnoreWhitespace.2 = Res.err e →
      parseProjectLoop env (fuel + 1) project p = Res.err e) ∧
    (p.scanIgnoreWhitespace.1.tok = Tok.TEXT → parseText p.scanIgnoreWhitespace.2 = Res.err e →
      parseProjectLoop env (fuel + 1) project p = Res.err e) := by
  refine ⟨?_, ?_, ?_, ?_, ?_⟩ <;>
    (intro hk he; rw [parseProjectLoop]; simp [hk, he, Res.bind])

/-- An error of the parser of a track statement is the error of the loop. -/
theorem parseTrackLoop_propagates {N C : Type} (env : Env N C) (fuel : Nat)
    (track : Track N C) (p : Parser) (e : ParseError) :
    (p.scanIgnoreWhitespace.1.tok = Tok.BPM → parseBpm env p.scanIgnoreWhitespace.2 = Res.err e →
      parseTrackLoop env (fuel + 1) track p = Res.err e) ∧
    (p.scanIgnoreWhitespace.1.tok = Tok.TIME →
      parseTimeSignature p.scanIgnoreWhitespace.2 = Res.err e →
      parseTrackLoop env (fuel + 1) track p = Res.err e) ∧
    (p.scanIgnoreWhitespace.1.tok = Tok.BAR →
      parseBar fuel env track p.scanIgnoreWhitespace.2 = Res.err e →
      parseTrackLoop env (fuel + 1) track p = Res.err e) ∧
    (p.scanIgnoreWhitespace.1.tok = Tok.COPYRIGHT →
      parseCopyright p.scanIgnoreWhitespace.2 = Res.err e →
      parseTrackLoop env (fuel + 1) track p = Res.err e) ∧
    (p.scanIgnoreWhitespace.1.tok = Tok.INSTRUMENT →
      parseInstrument env p.scanIgnoreWhitespace.2 = Res.err e →
      parseTrackLoop env (fuel + 1) track p = Res.err e) ∧
    (p.scanIgnoreWhitespace.1.tok = Tok.TEXT → parseText p.scanIgnoreWhitespace.2 = Res.err e →
      parseTrackLoop env (fuel + 1) track p = Res.err e) := by
  refine ⟨?_, ?_, ?_, ?_, ?_, ?_⟩ <;>
    (intro hk he; rw [parseTrackLoop]; simp [hk, he, Res.bind])

/-- An error of the parser of a bar statement is the error of the loop. -/
theorem parseBarLoop_propagates {N C : Type} (env : Env N C) (fuel : Nat)
    (bar : Bar N C) (p : Parser) (e : ParseError) :
    (p.scanIgnoreWhitespace.1.tok = Tok.BPM → parseBpm env p.scanIgnoreWhitespace.2 = Res.err e →
      parseBarLoop env (fuel + 1) bar p = Res.err e) ∧
    (p.scanIgnoreWhitespace.1.tok = Tok.TIME →
      parseTimeSignature p.scanIgnoreWhitespace.2 = Res.err e →
      parseBarLoop env (fuel + 1) bar p = Res.err e) ∧
    (p.scanIgnoreWhitespace.1.tok = Tok.TEXT → parseText p.scanIgnoreWhitespace.2 = Res.err e →
      parseBarLoop env (fuel + 1) bar p = Res.err e) ∧
    (p.scanIgnoreWhitespace.1.tok = Tok.ON →
      (parseOn fuel env bar p.scanIgnoreWhitespace.2).2 = Res.err e →
      parseBarLoop env (fuel + 1) bar p = Res.err e) := by
  refine ⟨?_, ?_, ?_, ?_⟩
  · intro hk he; rw [parseBarLoop]; simp [hk, he, Res.bind]
  · intro hk he; rw [parseBarLoop]; simp [hk, he, Res.bind]
  · intro hk he; rw [parseBarLoop]; simp [hk, he, Res.bind]
  · intro hk he
    rw [parseBarLoop]
    rcases hpo : parseOn fuel env bar p.scanIgnoreWhitespace.2 with ⟨b2, r⟩
    rw [hpo] at he
    simp only at he
    subst he
    simp [hk]

/-! ## The end of the project block -/

/-- The statement loop of the project ends by reading the closing brace. -/
theorem parseProjectLoop_reads_close {N C : Type} (env : Env N C) (fuel : Nat)
    (project project1 : Project N C) (p p1 : Parser)
    (h : parseProjectLoop env fuel project p = Res.ok project1 p1) :
    p1.bufTok = Tok.BRACKET_CLOSE ∧ p1.bufN = 0 := by
  induction fuel generalizing project p with
  | zero => simp [parseProjectLoop] at h
  | succ n ih =>
    rw [parseProjectLoop] at h
    split_ifs at h with hc
    · simp only [Res.ok.injEq] at h
      obtain ⟨-, rfl⟩ := h
      have hb := scanIgnoreWhitespace_buf p
      exact ⟨by rw [hb.2.1, hc], hb.1⟩
    · split at h
      · cases hb : parseBpm env p.scanIgnoreWhitespace.2 with
        | ok v q => rw [hb] at h; exact ih _ _ h
        | err e => rw [hb] at h; simp [Res.bind] at h
        | panic => rw [hb] at h; simp [Res.bind] at h
        | timeout => rw [hb] at h; simp [Res.bind] at h
      · cases hb : parseTimeSignature p.scanIgnoreWhitespace.2 with
        | ok v q => rw [hb] at h; exact ih _ _ h
        | err e => rw [hb] at h; simp [Res.bind] at h
        | panic => rw [hb] at h; simp [Res.bind] at h
        | timeout => rw [hb] at h; simp [Res.bind] at h
      · cases hb : parseTrack n env project p.scanIgnoreWhitespace.2 with
        | ok v q => rw [hb] at h; exact ih _ _ h
        | err e => rw [hb] at h; simp [Res.bind] at h
        | panic => rw [hb] at h; simp [Res.bind] at h
        | timeout => rw [hb] at h; simp [Res.bind] at h
      · cases hb : parseCopyright p.scanIgnoreWhitespace.2 with
        | ok v q => rw [hb] at h; exact ih _ _ h
        | err e => rw [hb] at h; simp [Res.bind] at h
        | panic => rw [hb] at h; simp [Res.bind] at h
        | timeout => rw [hb] at h; simp [Res.bind] at h
      · cases hb : parseText p.scanIgnoreWhitespace.2 with
        | ok v q => rw [hb] at h; exact ih _ _ h
        | err e => rw [hb] at h; simp [Res.bind] at h
        | panic => rw [hb] at h; simp [Res.bind] at h
        | timeout => rw [hb] at h; simp [Res.bind] at h
      · simp at h

/-- `Parse`, once the header is read and the statement loop has ended. -/
theorem parse_after_loop {N C : Type} (fuel : Nat) (env : Env N C) (p p0 p1 : Parser)
    (name : String) (proj : Project N C) (hh : projectHeader p = some (name, p0))
    (h : parseProjectLoop env fuel { NewProject N C with name := name } p0 = Res.ok proj p1) :
    Parse fuel env p =
      if p1.scanIgnoreWhitespace.1.tok ≠ Tok.EOF then
        Outcome.returned none (some (ParseError.unexpected p1.scanIgnoreWhitespace.1.lit "EOF"))
      else Outcome.returned (some proj) none := by
  unfold projectHeader at hh
  split_ifs at hh with hc
  simp only [Option.some.injEq, Prod.mk.injEq] at hh
  obtain ⟨rfl, rfl⟩ := hh
  obtain ⟨h1, h2, h3⟩ := hc
  have h2n : ¬ (p.scanIgnoreWhitespace.2.scanIgnoreWhitespace.1.tok ≠ Tok.IDENTIFIER ∧
      p.scanIgnoreWhitespace.2.scanIgnoreWhitespace.1.tok ≠ Tok.STRING) := by
    rcases h2 with h2 | h2 <;> simp [h2]
  unfold Parse parseProject
  simp only [h1, h2n, h3, ne_eq, not_true_eq_false, if_false, h]

/-- A successful `Parse` has read the header and ended the statement loop. -/
theorem parse_ok_inv {N C : Type} (fuel : Nat) (env : Env N C) (p : Parser)
    (proj : Project N C) (h : Parse fuel env p = Outcome.returned (some proj) none) :
    ∃ name p0 p1, projectHeader p = some (name, p0) ∧
      parseProjectLoop env fuel { NewProject N C with name := name } p0 = Res.ok proj p1 ∧
      p1.scanIgnoreWhitespace.1.tok = Tok.EOF := by
  unfold Parse parseProject at h
  simp only at h
  split_ifs at h with h1 h2 h3
  · cases h
  · cases h
  · cases h
  · split at h
    · cases h
    · cases h
    · cases h
    · rename_i project1 q hq
      split_ifs at h with h4
      · cases h
      · simp only [Outcome.returned.injEq, Option.some.injEq, and_true] at h
        subst h
        refine ⟨_, _, q, ?_, hq, by simpa using h4⟩
        unfold projectHeader
        have h1' : p.scanIgnoreWhitespace.1.tok = Tok.PROJECT := by simpa using h1
        have h3' : p.scanIgnoreWhitespace.2.scanIgnoreWhitespace.2.scanIgnoreWhitespace.1.tok
            = Tok.BRACKET_OPEN := by simpa using h3
        have h2' : p.scanIgnoreWhitespace.2.scanIgnoreWhitespace.1.tok = Tok.IDENTIFIER ∨
            p.scanIgnoreWhitespace.2.scanIgnoreWhitespace.1.tok = Tok.STRING := by
          by_contra hc
          exact h2 (not_or.mp hc)
        simp [h1', h2', h3']

/-- C7: `Parse` succeeds only if the first non-whitespace token after the
closing brace of the top-level PROJECT block is end-of-input. The closing
brace is consumed by the statement loop of the project (it is the last token
read when the loop ends, and it is not pushed back); with any other token
after it `Parse` fails, with end-of-input after it `Parse` succeeds. -/
theorem parse_requires_eof {N C : Type} (fuel : Nat) (env : Env N C) (p : Parser)
    (proj : Project N C) :
    (Parse fuel env p = Outcome.returned (some proj) none →
      ∃ name p0 p1, projectHeader p = some (name, p0) ∧
        parseProjectLoop env fuel { NewProject N C with name := name } p0 = Res.ok proj p1 ∧
        p1.bufTok = Tok.BRACKET_CLOSE ∧ p1.bufN = 0 ∧
        p1.scanIgnoreWhitespace.1.tok = Tok.EOF) ∧
    (∀ name p0 p1, projectHeader p = some (name, p0) →
      parseProjectLoop env fuel { NewProject N C with name := name } p0 = Res.ok proj p1 →
      p1.bufTok = Tok.BRACKET_CLOSE ∧ p1.bufN = 0 ∧
      (p1.scanIgnoreWhitespace.1.tok ≠ Tok.EOF →
        Parse fuel env p = Outcome.returned none
          (some (ParseError.unexpected p1.scanIgnoreWhitespace.1.lit "EOF"))) ∧
      (p1.scanIgnoreWhitespace.1.tok = Tok.EOF →
        Parse fuel env p = Outcome.returned (some proj) none)) := by
  constructor
  · intro h
    obtain ⟨name, p0, p1, hh, hl, he⟩ := parse_ok_inv fuel env p proj h
    have hc := parseProjectLoop_reads_close env fuel _ _ _ _ hl
    exact ⟨name, p0, p1, hh, hl, hc.1, hc.2, he⟩
  · intro name p0 p1 hh hl
    have hc := parseProjectLoop_reads_close env fuel _ _ _ _ hl
    have hp := parse_after_loop fuel env p p0 p1 name proj hh hl
    refine ⟨hc.1, hc.2, ?_, ?_⟩
    · intro hne
      rw [hp, if_pos hne]
    · intro heq
      rw [hp, if_neg (by simpa using heq)]

/-- Witness of C7: on `PROJECT "demo" { } TRACK` the loop ends at the closing
brace and `Parse` fails on the `TRACK` that follows; on `PROJECT "demo" { }`
it succeeds. -/
theorem parse_requires_eof_witness :
    Parse 1 demoEnv (NewParser trailingTrack) =
      Outcome.returned none (some (ParseError.unexpected "track" "EOF")) ∧
    Parse 1 demoEnv (NewParser emptyProject) =
      Outcome.returned (some { NewProject String (List String) with name := "demo" }) none :=
  ⟨((parse_requires_eof 1 demoEnv (NewParser trailingTrack)
      { NewProject String (List String) with name := "demo" }).2 "demo"
      { s := [tk Tok.BRACKET_CLOSE "\x7d", tk Tok.TRACK "track"],
        bufTok := Tok.BRACKET_OPEN, bufLit := "\x7b", bufN := 0 }
      { s := [tk Tok.TRACK "track"], bufTok := Tok.BRACKET_CLOSE, bufLit := "\x7d", bufN := 0 }
      rfl rfl).2.2.1 (by decide),
   ((parse_requires_eof 1 demoEnv (NewParser emptyProject)
      { NewProject String (List String) with name := "demo" }).2 "demo"
      { s := [tk Tok.BRACKET_CLOSE "\x7d"],
        bufTok := Tok.BRACKET_OPEN, bufLit := "\x7b", bufN := 0 }
      { s := [], bufTok := Tok.BRACKET_CLOSE, bufLit := "\x7d", bufN := 0 }
      rfl rfl).2.2.2 rfl⟩

/-! ## The round-trip scenario -/

/-- C9 (counterexample): on the token stream PROJECT, STRING, `{`, BPM, NUMBER,
`;`, TIME, NUMBER, NUMBER, `;`, TRACK, STRING, `{`, BAR, `{`, ON, NUMBER 1, PLAY,
QUARTER, IDENTIFIER A4, `;`, `}`, `}`, `}`, EOF, where `ON` is followed by the
number, `Parse` fails: `parseOn` expects the `BEAT` keyword. No fuel makes it
succeed. -/
theorem parse_demoClaimed_fails :
    Parse 10 demoEnv (NewParser demoClaimed) =
      Outcome.returned none (some (ParseError.unexpected "1" "beat")) ∧
    ∀ fuel proj, Parse fuel demoEnv (NewParser demoClaimed) ≠ Outcome.returned (some proj) none := by
  refine ⟨rfl, ?_⟩
  intro fuel proj h
  have h4 : parseUint "4" 8 = some 4 := by decide
  rcases fuel with _ | _ | _ | _ | _ | n
  · exact Outcome.noConfusion (Eq.trans (Eq.symm h)
      (show Parse 0 demoEnv (NewParser demoClaimed) = Outcome.timeout from rfl))
  · exact Outcome.noConfusion (Eq.trans (Eq.symm h)
      (show Parse 1 demoEnv (NewParser demoClaimed) = Outcome.timeout from rfl))
  · exact Outcome.noConfusion (Eq.trans (Eq.symm h)
      (show Parse 2 demoEnv (NewParser demoClaimed) = Outcome.timeout from rfl))
  · exact Outcome.noConfusion (Eq.trans (Eq.symm h)
      (show Parse 3 demoEnv (NewParser demoClaimed) = Outcome.timeout from rfl))
  · exact Outcome.noConfusion (Eq.trans (Eq.symm h)
      (show Parse 4 demoEnv (NewParser demoClaimed) = Outcome.timeout from rfl))
  · simp [Parse, parseProject, NewParser, demoClaimed, tk, scanIgnoreWhitespace_cons,
      parseProjectLoop, parseTimeSignature, parseBpm, h4, Res.bind, parseTrack, parseTrackLoop,
      parseBar, parseBarLoop, parseOn, demoEnv] at h

/-- C9 (amended): parsing the token stream of
`PROJECT "demo" { BPM 120; TIME 4 4; TRACK "lead" { BAR { ON BEAT 1 PLAY QUARTER NOTE A4; } } }`
(tokens PROJECT, STRING, `{`, BPM, NUMBER, `;`, TIME, NUMBER, NUMBER, `;`, TRACK,
STRING, `{`, BAR, `{`, ON, BEAT, NUMBER 1, PLAY, QUARTER, NOTE, IDENTIFIER A4,
`;`, `}`, `}`, `}`, EOF) succeeds and yields a Project named "demo" with
exactly one Track named "lead" containing exactly one Bar at offset 0 with
exactly one Note event at tick 0 with duration code 4 and the pitch the
resolver returns for "A4". -/
theorem parse_demoTokens {N C : Type} (fuel : Nat) (env : Env N C) (bpm : GoFloat) (a : N)
    (hbpm : env.parseFloat "120" 64 = some bpm) (ha : env.notesParse "A4" = some a) :
    Parse (fuel + 7) env (NewParser demoTokens) =
      Outcome.returned (some (demoProject bpm a env.defaultVelocity)) none := by
  have h4 : parseUint "4" 8 = some 4 := by decide
  have h1 : parseUint "1" 8 = some 1 := by decide
  have ht : ∀ (bar : Bar N C), bar.signature = some ⟨4, 4⟩ → bar.offset = 0 →
      playableTick bar 1 ⟨0, 1⟩ = some 0 := by
    intro bar hs ho
    simp [playableTick, hs, ho]
  simp [Parse, parseProject, NewParser, demoTokens, tk, scanIgnoreWhitespace_cons,
    scanIgnoreWhitespace_nil, scanIgnoreWhitespace_pending,
    parseProjectLoop, parseTimeSignature, parseBpm, h4, h1, hbpm, ha, Res.bind, parseTrack,
    parseTrackLoop, parseBar, parseBarLoop, parseOn, parsePlay, parsePlayable,
    parsePlayableLoop, parseVelocityLoop, parseNote, ht, NewBar, NewTrack, NewProject,
    NewSignature, NewNote, addParsed, Parser.unscan, Bar.AddPlayable, Track.AddBar,
    Project.AddTrack, Playable.SetDuration, Playable.SetTick, demoProject]

/-- Witness of C9: with a resolver that knows "A4" and 120 beats per minute. -/
theorem parse_demoTokens_witness :
    Parse 7 demoEnv (NewParser demoTokens) =
      Outcome.returned (some (demoProject ⟨120, 1⟩ "A4" 64)) none :=
  parse_demoTokens 0 demoEnv ⟨120, 1⟩ "A4" rfl rfl

/-! ## The fractional-beat scenario -/

/-- The parts of a fraction of value 3.5. -/
theorem modf_three_and_a_half (f : GoFloat) (hden : 0 < f.den) (hval : 2 * f.num = 7 * f.den) :
    (Modf f).1 = 3 ∧ 2 * (Modf f).2.num = (Modf f).2.den ∧ 0 < (Modf f).2.den := by
  obtain ⟨num, den⟩ := f
  simp only at hden hval
  have hk : den = 2 * (den / 2) := by omega
  have hn : num = 7 * (den / 2) := by omega
  generalize den / 2 = k at hk hn
  subst hk hn
  have hkpos : 0 < k := by omega
  have hq : 7 * k / (2 * k) = 3 := by
    apply Nat.div_eq_of_lt_le <;> omega
  have hr : 7 * k % (2 * k) = k := by
    have := Nat.div_add_mod (7 * k) (2 * k)
    rw [hq] at this
    omega
  refine ⟨hq, ?_, ?_⟩
  · show 2 * (7 * k % (2 * k)) = 2 * k
    rw [hr]
  · show 0 < 2 * k
    omega

/-- The tick of beat 3 with delta one half in a 4/4 bar at offset 0. -/
theorem playableTick_three_and_a_half {N C : Type} (bar : Bar N C) (delta : GoFloat)
    (hsig : bar.signature = some ⟨4, 4⟩) (hoff : bar.offset = 0)
    (hhalf : 2 * delta.num = delta.den) (hden : 0 < delta.den) :
    playableTick bar 3 delta = some 2040 := by
  have hd : 240 * delta.num / delta.den = 120 := by
    apply Nat.div_eq_of_lt_le <;> omega
  simp [playableTick, hsig, hoff, hd]

/-- C10 (amended): an on-statement with beat 3.5, duration 8TH, one note event
and `VELOCITY 100`, parsed inside a bar with signature 4/4 at offset 0, yields
a playable with tick 2040 (= 0*3840 + 2*960 + floor(960/4 * 0.5): the
subdivision is that of the signature, not the duration of the note), duration
code 8 and velocity 100. -/
theorem parseOn_three_and_a_half {N C : Type} (fuel : Nat) (env : Env N C) (bar : Bar N C)
    (f : GoFloat) (b : N) (rest : List Token) (bt : Tok) (bl : String)
    (hsig : bar.signature = some ⟨4, 4⟩) (hoff : bar.offset = 0)
    (hf : env.parseFloat "3.5" 32 = some f) (hden : 0 < f.den) (hval : 2 * f.num = 7 * f.den)
    (hb : env.notesParse "B4" = some b) :
    parseOn (fuel + 3) env bar { s := on35Stmt ++ rest, bufTok := bt, bufLit := bl, bufN := 0 } =
      ({ bar with playables := bar.playables ++ [some ⟨Sound.note b, 2040, 8, 100⟩] },
        Res.ok () { s := rest, bufTok := Tok.SEMICOLON, bufLit := ";", bufN := 0 }) := by
  obtain ⟨hm1, hm2, hm3⟩ := modf_three_and_a_half f hden hval
  have ht := playableTick_three_and_a_half bar (Modf f).2 hsig hoff hm2 hm3
  have h8 : parseUint "8" 16 = some 8 := by decide
  have h100 : parseUint "100" 8 = some 100 := by decide
  simp [on35Stmt, tk, scanIgnoreWhitespace_cons, scanIgnoreWhitespace_pending, parseOn,
    parsePlay, expectSuffix, parsePlayable, parsePlayableLoop, parseVelocityLoop, parseNote,
    hf, hm1, hsig, ht, hb, h8, h100, Res.bind, NewNote, addParsed, Parser.unscan,
    Bar.AddPlayable, Playable.SetDuration, Playable.SetTick, Playable.SetVelocity]

/-- Witness of C10: with 3.5 read as 7/2 and a resolver that knows "B4". -/
theorem parseOn_three_and_a_half_witness :
    parseOn 3 demoEnv bar44 (NewParser on35Stmt) =
      ({ bar44 with playables := bar44.playables ++ [some ⟨Sound.note "B4", 2040, 8, 100⟩] },
        Res.ok () { s := [], bufTok := Tok.SEMICOLON, bufLit := ";", bufN := 0 }) :=
  parseOn_three_and_a_half 0 demoEnv bar44 ⟨7, 2⟩ "B4" [] Tok.ILLEGAL "" rfl rfl rfl
    (by decide) (by decide) rfl

/-- C10 (counterexample): the playable of `ON BEAT 3.5 PLAY 8 TH NOTE B4
VELOCITY 100 ;` in a 4/4 bar at offset 0 has tick 2040, not 1980. -/
theorem parseOn_three_and_a_half_not_1980 :
    (parseOn 3 demoEnv bar44 (NewParser on35Stmt)).1.playables =
      [some ⟨Sound.note "B4", 2040, 8, 100⟩] ∧
    ∀ x ∈ (parseOn 3 demoEnv bar44 (NewParser on35Stmt)).1.playables,
      ∀ y, x = some y → y.tick ≠ 1980 := by
  have h : (parseOn 3 demoEnv bar44 (NewParser on35Stmt)).1.playables =
      [some ⟨Sound.note "B4", 2040, 8, 100⟩] := rfl
  refine ⟨h, ?_⟩
  intro x hx y hy
  rw [h] at hx
  simp only [List.mem_singleton] at hx
  subst hx
  simp only [Option.some.injEq] at hy
  subst hy
  decide

/-! ## The tick from one bar to the next -/

/-- C11 (amended): for all valid `(beatsPerBar, subdivisionUnit, barIndex, beat,
delta)` with `1 <= beat <= beatsPerBar` and `0 <= delta < 1`, the tick computed
in `parsePlayable` is a `uint32` (a natural number below `2 ^ 32`), and the
tick computed for `barIndex + 1` is the tick computed for `barIndex` plus
`beatsPerBar * 960` reduced modulo `2 ^ 32`; it exceeds it by exactly
`beatsPerBar * 960` whenever that sum is below `2 ^ 32`. -/
theorem parsePlayable_tick_next_bar {N C : Type} (fuel fuel1 : Nat) (env : Env N C)
    (bar bar1 : Bar N C) (sig : Signature) (d d1 beat : Nat) (delta : GoFloat)
    (p q p1 q1 : Parser) (x x1 : Playable N C)
    (hsig : bar.signature = some sig) (hsig1 : bar1.signature = some sig)
    (hoff : bar1.offset = bar.offset + 1)
    (hbeat : 1 ≤ beat ∧ beat ≤ sig.beats) (hvalid : sig.beats ≤ 255)
    (hdelta : delta.num < delta.den)
    (h : parsePlayable fuel env bar d beat delta p = Res.ok (some x) q)
    (h1 : parsePlayable fuel1 env bar1 d1 beat delta p1 = Res.ok (some x1) q1) :
    x.tick < 2 ^ 32 ∧
    x1.tick = (x.tick + sig.beats * 960) % 2 ^ 32 ∧
    (x.tick + sig.beats * 960 < 2 ^ 32 → x1.tick = x.tick + sig.beats * 960) := by
  have hden : 0 < delta.den := Nat.lt_of_le_of_lt (Nat.zero_le _) hdelta
  have hb : 1 ≤ beat ∧ beat ≤ 255 := ⟨hbeat.1, Nat.le_trans hbeat.2 hvalid⟩
  have ht := (parsePlayableLoop_tick env bar d beat delta fuel none p q x
    (by intro y hy; cases hy) h).1
  have ht1 := (parsePlayableLoop_tick env bar1 d1 beat delta fuel1 none p1 q1 x1
    (by intro y hy; cases hy) h1).1
  have hv := (playableTick_eq bar sig beat delta x.tick hsig hb ht).2
  have hv1 := (playableTick_eq bar1 sig beat delta x1.tick hsig1 hb ht1).2
  rw [hoff, Nat.add_mul, Nat.one_mul] at hv1
  generalize bar.offset * (sig.beats * 960) = X at hv hv1
  generalize 960 / sig.duration * delta.num / delta.den = Y at hv hv1
  have key : x1.tick = (x.tick + sig.beats * 960) % 2 ^ 32 := by omega
  refine ⟨by omega, key, ?_⟩
  intro hlt
  rw [key, Nat.mod_eq_of_lt hlt]

/-- Witness of C11: the note on beat 1 of the first and of the second bar of a
4/4 track: ticks 0 and 3840. -/
theorem parsePlayable_tick_next_bar_witness :
    (0 : Nat) < 2 ^ 32 ∧ (3840 : Nat) = (0 + 4 * 960) % 2 ^ 32 ∧
    (0 + 4 * 960 < 2 ^ 32 → (3840 : Nat) = 0 + 4 * 960) :=
  parsePlayable_tick_next_bar 3 3 demoEnv bar44 bar44Second ⟨4, 4⟩ 4 4 1 ⟨0, 1⟩
    (NewParser noteStmt) { s := [], bufTok := Tok.SEMICOLON, bufLit := ";", bufN := 0 }
    (NewParser noteStmt) { s := [], bufTok := Tok.SEMICOLON, bufLit := ";", bufN := 0 }
    ⟨Sound.note "A4", 0, 4, 64⟩ ⟨Sound.note "A4", 3840, 4, 64⟩
    rfl rfl rfl (by decide) (by decide) (by decide) rfl rfl

/-- C11 (counterexample): with 255 beats per bar the note on beat 1 of the bar
at offset 17544 has tick 4294771200 and the one of the bar at offset 17545 has
tick 48704: the tick of the next bar is smaller, not larger by `255 * 960`. -/
theorem parsePlayable_tick_next_bar_wraps :
    ∃ x q x1 q1,
      parsePlayable 3 demoEnv barBeforeLate 4 1 ⟨0, 1⟩ (NewParser noteStmt) = Res.ok (some x) q ∧
      parsePlayable 3 demoEnv barLate 4 1 ⟨0, 1⟩ (NewParser noteStmt) = Res.ok (some x1) q1 ∧
      barLate.offset = barBeforeLate.offset + 1 ∧
      x.tick = 4294771200 ∧ x1.tick = 48704 ∧ x1.tick ≠ x.tick + 255 * 960 :=
  ⟨⟨Sound.note "A4", 4294771200, 4, 64⟩,
    { s := [], bufTok := Tok.SEMICOLON, bufLit := ";", bufN := 0 },
    ⟨Sound.note "A4", 48704, 4, 64⟩,
    { s := [], bufTok := Tok.SEMICOLON, bufLit := ";", bufN := 0 },
    rfl, rfl, rfl, rfl, rfl, by decide⟩

/-! ## Subdivision units -/

/-- The tick of `playableTick` in terms of `ticksPerSubdivision`. -/
theorem playableTick_subdivision {N C : Type} (bar : Bar N C) (sig : Signature) (beat : Nat)
    (delta : GoFloat) (t : Nat) (hsig : bar.signature = some sig)
    (hbeat : 1 ≤ beat ∧ beat ≤ 255) (h : playableTick bar beat delta = some t) :
    t = (bar.offset * (sig.beats * 960) + (beat - 1) * 960
          + ticksPerSubdivision sig.duration * delta.num / delta.den) % 2 ^ 32 :=
  (playableTick_eq bar sig beat delta t hsig hbeat h).2

/-- C16 (amended): for every subdivision unit in {1, 2, 4, 8, 16, 32, 64} the
unit divides 960 evenly: the integer `ticksPerSubdivision = 960 / unit`
computed in `parsePlayable` satisfies `ticksPerSubdivision * unit = 960`, and
for a delta that a `float32` holds (the delta `parseOn` passes) the tick, of
the rounded `float64` arithmetic as of the exact one, is the one of the exact
quotient (the rational `960 / unit`). The unit 128 does not divide 960 (the
quotient is 7) and 256 does not fit the `uint8` of a signature. -/
theorem ticksPerSubdivision_exact {N C : Type} (unit : Nat)
    (hunit : unit ∈ [1, 2, 4, 8, 16, 32, 64]) :
    ticksPerSubdivision unit * unit = 960 ∧
    ∀ (bar : Bar N C) (beats beat : Nat) (delta : GoFloat) (t : Nat),
      bar.signature = some ⟨beats, unit⟩ → 1 ≤ beat ∧ beat ≤ 255 →
      float32Fraction delta →
      playableTick bar beat delta = some t →
      playableTickFloat64 bar beat delta = some t ∧
      t = (bar.offset * (beats * 960) + (beat - 1) * 960
            + ⌊((960 : ℚ) / (unit : ℚ)) * ((delta.num : ℚ) / (delta.den : ℚ))⌋₊) % 2 ^ 32 := by
  have hdvd : unit ∣ 960 := by
    simp only [List.mem_cons, List.mem_singleton, List.not_mem_nil, or_false] at hunit
    rcases hunit with rfl | rfl | rfl | rfl | rfl | rfl | rfl <;> decide
  have hpos : unit ≠ 0 := by
    rintro rfl
    simp at hunit
  constructor
  · exact Nat.div_mul_cancel hdvd
  · intro bar beats beat delta t hsig hbeat hf32 ht
    have h := playableTick_subdivision bar ⟨beats, unit⟩ beat delta t hsig hbeat ht
    have hq : ((960 : ℚ) / (unit : ℚ)) = ((ticksPerSubdivision unit : ℕ) : ℚ) := by
      unfold ticksPerSubdivision
      rw [Nat.cast_div hdvd (by exact_mod_cast hpos)]
      norm_num
    refine ⟨?_, ?_⟩
    · rw [playableTickFloat64_eq bar beat delta hf32]
      exact ht
    · rw [hq, floor_deltaTicks]
      exact h

/-- Witness of C16: the unit 8 gives 120 ticks per subdivision, and in a 4/8
bar at offset 0 beat 3 with delta 1/2 has tick 1980. -/
theorem ticksPerSubdivision_exact_witness :
    ticksPerSubdivision 8 * 8 = 960 ∧
    playableTickFloat64 bar48 3 ⟨1, 2⟩ = some 1980 ∧
    (1980 : Nat) = (bar48.offset * (4 * 960) + (3 - 1) * 960
      + ⌊((960 : ℚ) / ((8 : ℕ) : ℚ)) * (((1 : ℕ) : ℚ) / ((2 : ℕ) : ℚ))⌋₊) % 2 ^ 32 :=
  ⟨(ticksPerSubdivision_exact (N := String) (C := List String) 8 (by decide)).1,
   (ticksPerSubdivision_exact 8 (by decide)).2 bar48 4 3 ⟨1, 2⟩ 1980 rfl (by decide)
     ⟨by decide, 1, 1, by decide, by decide, by decide⟩ rfl⟩

/-- C16 (counterexample): `TIME 4 128 ;` is accepted, yet 128 does not divide
960: the quotient is 7, `7 * 128 = 896`, and with delta 15/16 the tick is 6
where the exact quotient 7.5 gives 7. `TIME 4 256 ;` is rejected: 256 does not
fit `uint8`. -/
theorem ticksPerSubdivision_128 :
    parseTimeSignature (NewParser time4over128) =
      Res.ok ⟨4, 128⟩ { s := [], bufTok := Tok.SEMICOLON, bufLit := ";", bufN := 0 } ∧
    ticksPerSubdivision 128 * 128 = 896 ∧ ticksPerSubdivision 128 * 128 ≠ 960 ∧
    playableTick bar4over128 1 ⟨15, 16⟩ = some 6 ∧
    ⌊((960 : ℚ) / ((128 : ℕ) : ℚ)) * (((15 : ℕ) : ℚ) / ((16 : ℕ) : ℚ))⌋₊ = 7 ∧
    parseTimeSignature (NewParser time4over256) = Res.err (ParseError.strconv "256") := by
  refine ⟨rfl, by decide, by decide, rfl, ?_, rfl⟩
  rw [Nat.floor_eq_iff (by norm_num)]
  constructor <;> norm_num

/-! ## The literal of a syntax error -/

/-- The missing-`;` error of `parseCopyright`, `parseText` and
`parseInstrument` holds the literal of the name, whatever token was found in
place of the `;`. -/
theorem missing_semicolon_literal {N C : Type} (env : Env N C) (p : Parser)
    (h1 : p.scanIgnoreWhitespace.1.tok = Tok.IDENTIFIER ∨ p.scanIgnoreWhitespace.1.tok = Tok.STRING)
    (h2 : p.scanIgnoreWhitespace.2.scanIgnoreWhitespace.1.tok ≠ Tok.SEMICOLON) :
    parseCopyright p = Res.err (ParseError.unexpected p.scanIgnoreWhitespace.1.lit ";") ∧
    parseText p = Res.err (ParseError.unexpected p.scanIgnoreWhitespace.1.lit ";") ∧
    parseInstrument env p = Res.err (ParseError.unexpected p.scanIgnoreWhitespace.1.lit ";") := by
  have hn : ¬ (p.scanIgnoreWhitespace.1.tok ≠ Tok.IDENTIFIER ∧
      p.scanIgnoreWhitespace.1.tok ≠ Tok.STRING) := by
    rcases h1 with h | h <;> simp [h]
  refine ⟨?_, ?_, ?_⟩
  · unfold parseCopyright
    simp only [hn, h2, if_false, if_true, ne_eq, not_false_eq_true]
  · unfold parseText
    simp only [hn, h2, if_false, if_true, ne_eq, not_false_eq_true]
  · unfold parseInstrument
    simp only [hn, h2, if_false, if_true, ne_eq, not_false_eq_true]

/-- C15 (the code at the failing input): on `PROJECT "demo" { COPYRIGHT "acme" }`
the token found in place of the `;` is `}`, and the error `Parse` returns holds
the literal `acme` of the token before it; `parseText` and `parseInstrument`
do the same, while `parseBpm` reports the literal of the rejected token. -/
theorem parse_copyrightNoSemicolon :
    Parse 5 demoEnv (NewParser copyrightNoSemicolon) =
      Outcome.returned none (some (ParseError.unexpected "acme" ";")) ∧
    (NewParser nameNoSemicolon).scanIgnoreWhitespace.2.scanIgnoreWhitespace.1 =
      ⟨Tok.BRACKET_CLOSE, "\x7d"⟩ ∧
    parseCopyright (NewParser nameNoSemicolon) = Res.err (ParseError.unexpected "acme" ";") ∧
    parseText (NewParser nameNoSemicolon) = Res.err (ParseError.unexpected "acme" ";") ∧
    parseInstrument demoEnv (NewParser nameNoSemicolon) =
      Res.err (ParseError.unexpected "acme" ";") ∧
    parseBpm demoEnv (NewParser bpmNoSemicolon) = Res.err (ParseError.unexpected "\x7d" ";") :=
  ⟨rfl, rfl, rfl, rfl, rfl, rfl⟩

/-! ## Run-time faults -/

/-- C19 (the code at the failing input): `TIME 4 0 ;` is accepted by
`parseTimeSignature`, and on
`PROJECT "demo" { TIME 4 0; TRACK "lead" { BAR { ON BEAT 1 PLAY QUARTER NOTE A4; } } }`
`Parse` panics on the division `960 / 0` of `parsePlayable`: with fuel to reach
the event the outcome is the panic, and no fuel makes `Parse` return. -/
theorem parse_zeroUnit_panics :
    parseTimeSignature (NewParser time4over0) =
      Res.ok ⟨4, 0⟩ { s := [], bufTok := Tok.SEMICOLON, bufLit := ";", bufN := 0 } ∧
    (∀ fuel, Parse (fuel + 5) demoEnv (NewParser zeroUnit) = Outcome.panic) ∧
    ∀ fuel v e, Parse fuel demoEnv (NewParser zeroUnit) ≠ Outcome.returned v e := by
  have h4 : parseUint "4" 8 = some 4 := by decide
  have h0 : parseUint "0" 8 = some 0 := by decide
  have h1 : parseUint "1" 8 = some 1 := by decide
  have hp : ∀ fuel, Parse (fuel + 5) demoEnv (NewParser zeroUnit) = Outcome.panic := by
    intro fuel
    simp [Parse, parseProject, NewParser, zeroUnit, tk, scanIgnoreWhitespace_cons,
      parseProjectLoop, parseTimeSignature, h4, h0, h1, Res.bind, parseTrack, parseTrackLoop,
      parseBar, parseBarLoop, parseOn, parsePlay, parsePlayable, parsePlayableLoop, parseNote,
      demoEnv, playableTick, NewBar, NewTrack, NewProject, NewSignature, addParsed]
  refine ⟨rfl, hp, ?_⟩
  intro fuel v e h
  rcases fuel with _ | _ | _ | _ | _ | n
  · exact Outcome.noConfusion (Eq.trans (Eq.symm h)
      (show Parse 0 demoEnv (NewParser zeroUnit) = Outcome.timeout from rfl))
  · exact Outcome.noConfusion (Eq.trans (Eq.symm h)
      (show Parse 1 demoEnv (NewParser zeroUnit) = Outcome.timeout from rfl))
  · exact Outcome.noConfusion (Eq.trans (Eq.symm h)
      (show Parse 2 demoEnv (NewParser zeroUnit) = Outcome.timeout from rfl))
  · exact Outcome.noConfusion (Eq.trans (Eq.symm h)
      (show Parse 3 demoEnv (NewParser zeroUnit) = Outcome.timeout from rfl))
  · exact Outcome.noConfusion (Eq.trans (Eq.symm h)
      (show Parse 4 demoEnv (NewParser zeroUnit) = Outcome.timeout from rfl))
  · rw [hp n] at h
    cases h

/-! ## Percussion -/

/-- The playable of a single event followed by `;`. -/
theorem parsePlayable_one_event {N C : Type} (fuel : Nat) (env : Env N C) (bar : Bar N C)
    (duration beat : Nat) (delta : GoFloat) (e : Event) (semi : String)
    (rest : List Token) (bt : Tok) (bl : String) (snd : Sound N C) (tick : Nat)
    (htick : playableTick bar beat delta = some tick) (hsnd : e.sound env = some snd) :
    parsePlayable (fuel + 2) env bar duration beat delta
        { s := e.tokens ++ ⟨Tok.SEMICOLON, semi⟩ :: rest,
          bufTok := bt, bufLit := bl, bufN := 0 } =
      Res.ok (some ⟨snd, tick, duration, env.defaultVelocity⟩)
        { s := rest, bufTok := Tok.SEMICOLON, bufLit := semi, bufN := 0 } := by
  have hstop : ∀ (x : Playable N C) (bt : Tok) (bl : String),
      parseVelocityLoop (fuel + 1) x
          { s := ⟨Tok.SEMICOLON, semi⟩ :: rest, bufTok := bt, bufLit := bl, bufN := 0 } =
        Res.ok x { s := rest, bufTok := Tok.SEMICOLON, bufLit := semi, bufN := 1 } := by
    intro x bt bl
    simp [parseVelocityLoop, scanIgnoreWhitespace_cons, Parser.unscan]
  generalize ht : (⟨Tok.SEMICOLON, semi⟩ :: rest : List Token) = tail at hstop ⊢
  cases e with
  | chord kw name =>
    obtain ⟨c, hc, rfl⟩ := Option.map_eq_some'.mp hsnd
    simp [parsePlayable, parsePlayableLoop, Event.tokens, scanIgnoreWhitespace_cons, parseChord,
      hc, Res.bind, htick, hstop, scanIgnoreWhitespace_pending, NewChord,
      Playable.SetDuration, Playable.SetTick]
  | note kw name =>
    obtain ⟨c, hc, rfl⟩ := Option.map_eq_some'.mp hsnd
    simp [parsePlayable, parsePlayableLoop, Event.tokens, scanIgnoreWhitespace_cons, parseNote,
      hc, Res.bind, htick, hstop, scanIgnoreWhitespace_pending, NewNote,
      Playable.SetDuration, Playable.SetTick]
  | cymbal kw =>
    obtain ⟨c, hc, rfl⟩ := Option.map_eq_some'.mp hsnd
    simp [parsePlayable, parsePlayableLoop, Event.tokens, scanIgnoreWhitespace_cons,
      hc, Res.bind, htick, hstop, scanIgnoreWhitespace_pending, NewNote,
      Playable.SetDuration, Playable.SetTick]
  | snare kw =>
    obtain ⟨c, hc, rfl⟩ := Option.map_eq_some'.mp hsnd
    simp [parsePlayable, parsePlayableLoop, Event.tokens, scanIgnoreWhitespace_cons,
      hc, Res.bind, htick, hstop, scanIgnoreWhitespace_pending, NewNote,
      Playable.SetDuration, Playable.SetTick]
  | openHiHat kw =>
    obtain ⟨c, hc, rfl⟩ := Option.map_eq_some'.mp hsnd
    simp [parsePlayable, parsePlayableLoop, Event.tokens, scanIgnoreWhitespace_cons,
      hc, Res.bind, htick, hstop, scanIgnoreWhitespace_pending, NewNote,
      Playable.SetDuration, Playable.SetTick]

/-- C18: each percussion keyword in an event position produces an ordinary
Note whose pitch is what the note resolver returns for a fixed literal: `D#4`
for CYMBAL, `D3` for SNARE and `A#3` for OPEN_HI_HAT; the note gets the duration
code of the on-statement and the tick that an ordinary note `NOTE name` gets at
that beat. -/
theorem percussion_events {N C : Type} (fuel : Nat) (env : Env N C) (bar : Bar N C)
    (duration beat : Nat) (delta : GoFloat) (kw name semi : String) (rest : List Token)
    (bt : Tok) (bl : String) (tick : Nat) (m : N)
    (htick : playableTick bar beat delta = some tick) (hm : env.notesParse name = some m) :
    (∀ n, env.notesParse "D#4" = some n →
      parsePlayable (fuel + 2) env bar duration beat delta
          { s := ⟨Tok.CYMBAL, kw⟩ :: ⟨Tok.SEMICOLON, semi⟩ :: rest,
            bufTok := bt, bufLit := bl, bufN := 0 } =
        Res.ok (some ⟨Sound.note n, tick, duration, env.defaultVelocity⟩)
          { s := rest, bufTok := Tok.SEMICOLON, bufLit := semi, bufN := 0 }) ∧
    (∀ n, env.notesParse "D3" = some n →
      parsePlayable (fuel + 2) env bar duration beat delta
          { s := ⟨Tok.SNARE, kw⟩ :: ⟨Tok.SEMICOLON, semi⟩ :: rest,
            bufTok := bt, bufLit := bl, bufN := 0 } =
        Res.ok (some ⟨Sound.note n, tick, duration, env.defaultVelocity⟩)
          { s := rest, bufTok := Tok.SEMICOLON, bufLit := semi, bufN := 0 }) ∧
    (∀ n, env.notesParse "A#3" = some n →
      parsePlayable (fuel + 2) env bar duration beat delta
          { s := ⟨Tok.OPEN_HI_HAT, kw⟩ :: ⟨Tok.SEMICOLON, semi⟩ :: rest,
            bufTok := bt, bufLit := bl, bufN := 0 } =
        Res.ok (some ⟨Sound.note n, tick, duration, env.defaultVelocity⟩)
          { s := rest, bufTok := Tok.SEMICOLON, bufLit := semi, bufN := 0 }) ∧
    parsePlayable (fuel + 2) env bar duration beat delta
        { s := ⟨Tok.NOTE, kw⟩ :: ⟨Tok.IDENTIFIER, name⟩ :: ⟨Tok.SEMICOLON, semi⟩ :: rest,
          bufTok := bt, bufLit := bl, bufN := 0 } =
      Res.ok (some ⟨Sound.note m, tick, duration, env.defaultVelocity⟩)
        { s := rest, bufTok := Tok.SEMICOLON, bufLit := semi, bufN := 0 } := by
  refine ⟨?_, ?_, ?_, ?_⟩
  · intro n hn
    exact parsePlayable_one_event fuel env bar duration beat delta (Event.cymbal kw) semi rest
      bt bl (Sound.note n) tick htick (by simp [Event.sound, hn])
  · intro n hn
    exact parsePlayable_one_event fuel env bar duration beat delta (Event.snare kw) semi rest
      bt bl (Sound.note n) tick htick (by simp [Event.sound, hn])
  · intro n hn
    exact parsePlayable_one_event fuel env bar duration beat delta (Event.openHiHat kw) semi rest
      bt bl (Sound.note n) tick htick (by simp [Event.sound, hn])
  · exact parsePlayable_one_event fuel env bar duration beat delta (Event.note kw name) semi rest
      bt bl (Sound.note m) tick htick (by simp [Event.sound, hm])

/-- Witness of C18: `CYMBAL ;` on beat 3 of a 4/4 bar, duration code 8, is the
note the resolver gives for `D#4`, at tick 1920. -/
theorem percussion_events_witness :
    parsePlayable 2 demoEnv bar44 8 3 ⟨0, 1⟩ (NewParser cymbalStmt) =
      Res.ok (some ⟨Sound.note "D#4", 1920, 8, 64⟩)
        { s := [], bufTok := Tok.SEMICOLON, bufLit := ";", bufN := 0 } :=
  (percussion_events 0 demoEnv bar44 8 3 ⟨0, 1⟩ "cymbal" "A4" ";" [] Tok.ILLEGAL "" 1920 "A4"
    rfl rfl).1 "D#4" rfl

/-! ## Values taken at creation -/

/-- The statement loop of the project only appends tracks: the tracks it
already holds stay as they are. -/
theorem parseProjectLoop_tracks {N C : Type} (env : Env N C) (fuel : Nat)
    (project project1 : Project N C) (p p1 : Parser)
    (h : parseProjectLoop env fuel project p = Res.ok project1 p1) :
    ∃ added, project1.tracks = project.tracks ++ added := by
  induction fuel generalizing project p with
  | zero => simp [parseProjectLoop] at h
  | succ n ih =>
    rw [parseProjectLoop] at h
    split_ifs at h with hc
    · simp only [Res.ok.injEq] at h
      obtain ⟨rfl, -⟩ := h
      exact ⟨[], by simp⟩
    · split at h
      · cases hb : parseBpm env p.scanIgnoreWhitespace.2 with
        | ok v q =>
          rw [hb] at h
          have := ih _ _ h
          simpa using this
        | err e => rw [hb] at h; simp [Res.bind] at h
        | panic => rw [hb] at h; simp [Res.bind] at h
        | timeout => rw [hb] at h; simp [Res.bind] at h
      · cases hb : parseTimeSignature p.scanIgnoreWhitespace.2 with
        | ok v q =>
          rw [hb] at h
          have := ih _ _ h
          simpa using this
        | err e => rw [hb] at h; simp [Res.bind] at h
        | panic => rw [hb] at h; simp [Res.bind] at h
        | timeout => rw [hb] at h; simp [Res.bind] at h
      · cases hb : parseTrack n env project p.scanIgnoreWhitespace.2 with
        | ok v q =>
          rw [hb] at h
          obtain ⟨added, ha⟩ := ih _ _ h
          refine ⟨v :: added, ?_⟩
          rw [ha]
          simp [Project.AddTrack]
        | err e => rw [hb] at h; simp [Res.bind] at h
        | panic => rw [hb] at h; simp [Res.bind] at h
        | timeout => rw [hb] at h; simp [Res.bind] at h
      · cases hb : parseCopyright p.scanIgnoreWhitespace.2 with
        | ok v q =>
          rw [hb] at h
          have := ih _ _ h
          simpa using this
        | err e => rw [hb] at h; simp [Res.bind] at h
        | panic => rw [hb] at h; simp [Res.bind] at h
        | timeout => rw [hb] at h; simp [Res.bind] at h
      · cases hb : parseText p.scanIgnoreWhitespace.2 with
        | ok v q =>
          rw [hb] at h
          have := ih _ _ h
          simpa using this
        | err e => rw [hb] at h; simp [Res.bind] at h
        | panic => rw [hb] at h; simp [Res.bind] at h
        | timeout => rw [hb] at h; simp [Res.bind] at h
      · simp at h

/-- C17: a Track takes its bpm and signature from the Project at the moment it
is created: `parseTrack` returns a track with the bpm and signature the
project has when the TRACK keyword is read, which are those set by the
project-level BPM/TIME statements read before (each sets the value the loop
goes on with). The statements that follow the track's block only append
tracks, so a later project-level BPM or TIME statement changes no track
already in the project. Likewise a Bar takes the Track's values when it is
created, and the track's own values never change. -/
theorem values_taken_at_creation {N C : Type} (fuel : Nat) (env : Env N C) :
    (∀ (project : Project N C) (track : Track N C) (p p1 : Parser),
      parseTrack fuel env project p = Res.ok track p1 →
      track.bpm = project.bpm ∧ track.signature = project.signature) ∧
    (∀ (project : Project N C) (track : Track N C) (p p1 : Parser),
      p.scanIgnoreWhitespace.1.tok = Tok.TRACK →
      parseTrack fuel env project p.scanIgnoreWhitespace.2 = Res.ok track p1 →
      parseProjectLoop env (fuel + 1) project p =
        parseProjectLoop env fuel (project.AddTrack track) p1) ∧
    (∀ (project : Project N C) (v : GoFloat) (p p1 : Parser),
      p.scanIgnoreWhitespace.1.tok = Tok.BPM →
      parseBpm env p.scanIgnoreWhitespace.2 = Res.ok v p1 →
      parseProjectLoop env (fuel + 1) project p =
        parseProjectLoop env fuel { project with bpm := some v } p1) ∧
    (∀ (project : Project N C) (v : Signature) (p p1 : Parser),
      p.scanIgnoreWhitespace.1.tok = Tok.TIME →
      parseTimeSignature p.scanIgnoreWhitespace.2 = Res.ok v p1 →
      parseProjectLoop env (fuel + 1) project p =
        parseProjectLoop env fuel { project with signature := some v } p1) ∧
    (∀ (project project1 : Project N C) (p p1 : Parser),
      parseProjectLoop env fuel project p = Res.ok project1 p1 →
      ∃ added, project1.tracks = project.tracks ++ added) ∧
    (∀ (track : Track N C) (bar : Bar N C) (p p1 : Parser),
      parseBar fuel env track p = Res.ok bar p1 →
      bar.bpm = track.bpm ∧ bar.signature = track.signature) ∧
    (∀ (track track1 : Track N C) (p p1 : Parser),
      parseTrackLoop env fuel track p = Res.ok track1 p1 →
      track1.bpm = track.bpm ∧ track1.signature = track.signature) := by
  refine ⟨?_, ?_, ?_, ?_, ?_, ?_, ?_⟩
  · intro project track p p1 h
    have := parseTrack_frame fuel env project track p p1 h
    exact ⟨this.1, this.2.1⟩
  · intro project track p p1 hk h
    rw [parseProjectLoop]
    simp [hk, h, Res.bind]
  · intro project v p p1 hk h
    rw [parseProjectLoop]
    simp [hk, h, Res.bind]
  · intro project v p p1 hk h
    rw [parseProjectLoop]
    simp [hk, h, Res.bind]
  · intro project project1 p p1 h
    exact parseProjectLoop_tracks env fuel project project1 p p1 h
  · intro track bar p p1 h
    have := parseBar_frame fuel env track bar p p1 h
    exact ⟨this.1, this.2.1⟩
  · intro track track1 p p1 h
    have := parseTrackLoop_frame env fuel track track1 p p1 h
    exact ⟨this.1, this.2.1⟩

/-- Witness of C17: in
`PROJECT "demo" { BPM 120; TRACK "a" { } TIME 3 4; TRACK "b" { } }` the
statements after the block of track `a` leave `a` as it was created (120 bpm,
no signature), and track `b` is created in 3/4. -/
theorem values_taken_at_creation_witness :
    ∃ added, [trackA, trackB] = projectAfterA.tracks ++ added :=
  (values_taken_at_creation 3 demoEnv).2.2.2.2.1 projectAfterA
    { projectAfterA with signature := some ⟨3, 4⟩, tracks := [trackA, trackB] }
    { s := afterTrackA, bufTok := Tok.BRACKET_CLOSE, bufLit := "\x7d", bufN := 0 }
    { s := [], bufTok := Tok.BRACKET_CLOSE, bufLit := "\x7d", bufN := 0 } rfl

/-! ## One entry per on-statement -/

/-- When `addParsed` reports no error it has appended one entry. -/
theorem addParsed_ok {N C : Type} (bar bar1 : Bar N C) (r : Res (Option (Playable N C)))
    (p1 : Parser) (h : addParsed bar r = (bar1, Res.ok () p1)) :
    ∃ x, bar1 = bar.AddPlayable x := by
  cases r with
  | ok a p =>
    simp only [addParsed, Prod.mk.injEq] at h
    exact ⟨a, h.1.symm⟩
  | err e => simp [addParsed] at h
  | panic => simp [addParsed] at h
  | timeout => simp [addParsed] at h

/-- A successful `parsePlay` has appended one entry to the bar. -/
theorem parsePlay_ok {N C : Type} (fuel : Nat) (env : Env N C) (bar bar1 : Bar N C)
    (beat : Nat) (delta : GoFloat) (p p1 : Parser)
    (h : parsePlay fuel env bar beat delta p = (bar1, Res.ok () p1)) :
    ∃ x, bar1 = bar.AddPlayable x := by
  unfold parsePlay at h
  simp only at h
  split at h
  · exact addParsed_ok _ _ _ _ h
  · exact addParsed_ok _ _ _ _ h
  · exact addParsed_ok _ _ _ _ h
  · split at h
    · simp at h
    · split at h
      · exact addParsed_ok _ _ _ _ h
      · simp at h
      · simp at h
      · simp at h
  · simp at h

/-- A successful `parseOn` has appended one entry to the bar. -/
theorem parseOn_ok {N C : Type} (fuel : Nat) (env : Env N C) (bar bar1 : Bar N C)
    (p p1 : Parser) (h : parseOn fuel env bar p = (bar1, Res.ok () p1)) :
    ∃ x, bar1 = bar.AddPlayable x := by
  unfold parseOn at h
  simp only at h
  repeat' split at h
  all_goals first
    | exact parsePlay_ok _ _ _ _ _ _ _ _ h
    | (simp at h)

/-- The statement loop of a bar appends as many entries as it reads ON
statements. -/
theorem parseBarLoop_count {N C : Type} (env : Env N C) (fuel : Nat) (bar bar1 : Bar N C)
    (p p1 : Parser) (h : parseBarLoop env fuel bar p = Res.ok bar1 p1) :
    ∃ entries, bar1.playables = bar.playables ++ entries ∧
      entries.length = onStatementCount env fuel bar p := by
  induction fuel generalizing bar p with
  | zero => simp [parseBarLoop] at h
  | succ n ih =>
    rw [parseBarLoop] at h
    rw [onStatementCount]
    split_ifs at h with hc
    · simp only [Res.ok.injEq] at h
      obtain ⟨rfl, -⟩ := h
      exact ⟨[], by simp, by simp [hc]⟩
    · simp only [hc, if_false]
      split at h
      · rename_i hk
        cases hb : parseBpm env p.scanIgnoreWhitespace.2 with
        | ok v q => rw [hb] at h; exact ih _ _ h
        | err e => rw [hb] at h; simp [Res.bind] at h
        | panic => rw [hb] at h; simp [Res.bind] at h
        | timeout => rw [hb] at h; simp [Res.bind] at h
      · rename_i hk
        cases hb : parseTimeSignature p.scanIgnoreWhitespace.2 with
        | ok v q => rw [hb] at h; exact ih _ _ h
        | err e => rw [hb] at h; simp [Res.bind] at h
        | panic => rw [hb] at h; simp [Res.bind] at h
        | timeout => rw [hb] at h; simp [Res.bind] at h
      · rename_i hk
        cases hb : parseText p.scanIgnoreWhitespace.2 with
        | ok v q =>
          rw [hb] at h
          have := ih _ _ h
          simpa [Bar.AddText, Res.bind] using this
        | err e => rw [hb] at h; simp [Res.bind] at h
        | panic => rw [hb] at h; simp [Res.bind] at h
        | timeout => rw [hb] at h; simp [Res.bind] at h
      · rename_i hk
        rcases hpo : parseOn n env bar p.scanIgnoreWhitespace.2 with ⟨b2, r⟩
        rw [hpo] at h
        cases r with
        | ok u q =>
          simp only at h
          obtain ⟨x, hx⟩ := parseOn_ok n env bar b2 _ q hpo
          obtain ⟨entries, he1, he2⟩ := ih _ _ h
          refine ⟨x :: entries, ?_, ?_⟩
          · rw [he1, hx]
            simp [Bar.AddPlayable]
          · simp only [List.length_cons, he2]
            omega
        | err e => simp at h
        | panic => simp at h
        | timeout => simp at h
      · simp at h

/-- C20: every on-statement that parses successfully appends exactly one entry
to its bar's playable list, whatever appears between the duration
specification and the terminating `;` (with no event the entry is the nil
playable); hence in every successfully parsed Bar the playables are the
entries of its ON statements, appended in the order the statements are read,
and their number is the number of ON statements of the bar block. -/
theorem one_entry_per_on_statement {N C : Type} (fuel : Nat) (env : Env N C) :
    (∀ (bar bar1 : Bar N C) (p p1 : Parser),
      parseOn fuel env bar p = (bar1, Res.ok () p1) →
      ∃ x, bar1 = bar.AddPlayable x ∧ bar1.playables = bar.playables ++ [x]) ∧
    (∀ (bar bar1 : Bar N C) (p p1 : Parser),
      parseBarLoop env fuel bar p = Res.ok bar1 p1 →
      ∃ entries, bar1.playables = bar.playables ++ entries ∧
        entries.length = onStatementCount env fuel bar p) ∧
    (∀ (track : Track N C) (bar : Bar N C) (p p1 : Parser),
      parseBar fuel env track p = Res.ok bar p1 →
      bar.playables.length =
        onStatementCount env fuel
          { NewBar N C (track.bars.length % 2 ^ 32) with
            bpm := track.bpm, signature := track.signature }
          p.scanIgnoreWhitespace.2) := by
  refine ⟨?_, ?_, ?_⟩
  · intro bar bar1 p p1 h
    obtain ⟨x, hx⟩ := parseOn_ok fuel env bar bar1 p p1 h
    exact ⟨x, hx, by rw [hx]; rfl⟩
  · intro bar bar1 p p1 h
    exact parseBarLoop_count env fuel bar bar1 p p1 h
  · intro track bar p p1 h
    unfold parseBar at h
    simp only at h
    split_ifs at h with hc
    obtain ⟨entries, he1, he2⟩ := parseBarLoop_count env fuel _ _ _ _ h
    rw [he1, ← he2]
    simp [NewBar]

/-- Witness of C20: the bar block with three ON statements (no event; one
event; an event followed by further tokens) and a TEXT statement parses to a
bar with three entries, the first of which is the nil playable. -/
theorem one_entry_per_on_statement_witness :
    (∃ entries, barThreeOn.playables = bar44.playables ++ entries ∧
      entries.length = onStatementCount demoEnv 10 bar44 (NewParser threeOnStatements)) ∧
    onStatementCount demoEnv 10 bar44 (NewParser threeOnStatements) = 3 :=
  ⟨(one_entry_per_on_statement 10 demoEnv).2.1 bar44 barThreeOn (NewParser threeOnStatements)
      { s := [], bufTok := Tok.BRACKET_CLOSE, bufLit := "\x7d", bufN := 0 } rfl,
   rfl⟩

/-! ## Bar offsets -/

/-- Appending a bar whose offset is the count of the bars keeps the offsets. -/
theorem offsetsOk_append {N C : Type} (bars : List (Bar N C)) (b : Bar N C)
    (h : offsetsOk bars) (hb : b.offset = bars.length % 2 ^ 32) : offsetsOk (bars ++ [b]) := by
  intro i c hc
  by_cases hi : i < bars.length
  · rw [List.getElem?_append_left hi] at hc
    exact h i c hc
  · have hle : bars.length ≤ i := Nat.le_of_not_lt hi
    rw [List.getElem?_append_right hle] at hc
    obtain ⟨hlt, hget⟩ := List.getElem?_eq_some.mp hc
    simp only [List.length_singleton] at hlt
    have hidx : i - bars.length = 0 := by omega
    have hi2 : i = bars.length := by omega
    simp only [hidx, List.getElem_cons_zero] at hget
    rw [← hget, hb, hi2]

/-- The statement loop of a track keeps the offsets of its bars. -/
theorem parseTrackLoop_offsets {N C : Type} (env : Env N C) (fuel : Nat)
    (track track1 : Track N C) (p p1 : Parser) (h0 : offsetsOk track.bars)
    (h : parseTrackLoop env fuel track p = Res.ok track1 p1) : offsetsOk track1.bars := by
  induction fuel generalizing track p with
  | zero => simp [parseTrackLoop] at h
  | succ n ih =>
    rw [parseTrackLoop] at h
    split_ifs at h with hc
    · simp only [Res.ok.injEq] at h
      obtain ⟨rfl, -⟩ := h
      exact h0
    · split at h
      · cases hb : parseBpm env p.scanIgnoreWhitespace.2 with
        | ok v q =>
          rw [hb] at h
          simp only [Res.bind] at h
          refine ih _ _ ?_ h
          exact h0
        | err e => rw [hb] at h; simp [Res.bind] at h
        | panic => rw [hb] at h; simp [Res.bind] at h
        | timeout => rw [hb] at h; simp [Res.bind] at h
      · cases hb : parseTimeSignature p.scanIgnoreWhitespace.2 with
        | ok v q =>
          rw [hb] at h
          simp only [Res.bind] at h
          refine ih _ _ ?_ h
          exact h0
        | err e => rw [hb] at h; simp [Res.bind] at h
        | panic => rw [hb] at h; simp [Res.bind] at h
        | timeout => rw [hb] at h; simp [Res.bind] at h
      · cases hb : parseBar n env track p.scanIgnoreWhitespace.2 with
        | ok v q =>
          rw [hb] at h
          have hbar := parseBar_frame _ _ _ _ _ _ hb
          exact ih _ _ (offsetsOk_append track.bars v h0 hbar.2.2) h
        | err e => rw [hb] at h; simp [Res.bind] at h
        | panic => rw [hb] at h; simp [Res.bind] at h
        | timeout => rw [hb] at h; simp [Res.bind] at h
      · cases hb : parseCopyright p.scanIgnoreWhitespace.2 with
        | ok v q =>
          rw [hb] at h
          simp only [Res.bind] at h
          refine ih _ _ ?_ h
          exact h0
        | err e => rw [hb] at h; simp [Res.bind] at h
        | panic => rw [hb] at h; simp [Res.bind] at h
        | timeout => rw [hb] at h; simp [Res.bind] at h
      · cases hb : parseInstrument env p.scanIgnoreWhitespace.2 with
        | ok v q =>
          rw [hb] at h
          simp only [Res.bind] at h
          refine ih _ _ ?_ h
          exact h0
        | err e => rw [hb] at h; simp [Res.bind] at h
        | panic => rw [hb] at h; simp [Res.bind] at h
        | timeout => rw [hb] at h; simp [Res.bind] at h
      · cases hb : parseText p.scanIgnoreWhitespace.2 with
        | ok v q =>
          rw [hb] at h
          simp only [Res.bind] at h
          refine ih _ _ ?_ h
          exact h0
        | err e => rw [hb] at h; simp [Res.bind] at h
        | panic => rw [hb] at h; simp [Res.bind] at h
        | timeout => rw [hb] at h; simp [Res.bind] at h
      · simp at h

/-- The bars of a parsed track have their positions as offsets. -/
theorem parseTrack_offsets {N C : Type} (fuel : Nat) (env : Env N C) (project : Project N C)
    (track : Track N C) (p p1 : Parser) (h : parseTrack fuel env project p = Res.ok track p1) :
    offsetsOk track.bars := by
  unfold parseTrack at h
  simp only at h
  split_ifs at h with hc1 hc2
  refine parseTrackLoop_offsets env fuel _ _ _ _ ?_ h
  intro i b hb
  simp [NewTrack] at hb

/-- The statement loop of the project keeps the offsets of the bars of every
track. -/
theorem parseProjectLoop_offsets {N C : Type} (env : Env N C) (fuel : Nat)
    (project project1 : Project N C) (p p1 : Parser)
    (h0 : ∀ t ∈ project.tracks, offsetsOk t.bars)
    (h : parseProjectLoop env fuel project p = Res.ok project1 p1) :
    ∀ t ∈ project1.tracks, offsetsOk t.bars := by
  induction fuel generalizing project p with
  | zero => simp [parseProjectLoop] at h
  | succ n ih =>
    rw [parseProjectLoop] at h
    split_ifs at h with hc
    · simp only [Res.ok.injEq] at h
      obtain ⟨rfl, -⟩ := h
      exact h0
    · split at h
      · cases hb : parseBpm env p.scanIgnoreWhitespace.2 with
        | ok v q =>
          rw [hb] at h
          simp only [Res.bind] at h
          refine ih _ _ ?_ h
          exact h0
        | err e => rw [hb] at h; simp [Res.bind] at h
        | panic => rw [hb] at h; simp [Res.bind] at h
        | timeout => rw [hb] at h; simp [Res.bind] at h
      · cases hb : parseTimeSignature p.scanIgnoreWhitespace.2 with
        | ok v q =>
          rw [hb] at h
          simp only [Res.bind] at h
          refine ih _ _ ?_ h
          exact h0
        | err e => rw [hb] at h; simp [Res.bind] at h
        | panic => rw [hb] at h; simp [Res.bind] at h
        | timeout => rw [hb] at h; simp [Res.bind] at h
      · cases hb : parseTrack n env project p.scanIgnoreWhitespace.2 with
        | ok v q =>
          rw [hb] at h
          have ht := parseTrack_offsets _ _ _ _ _ _ hb
          refine ih _ _ ?_ h
          intro t hmem
          simp only [Project.AddTrack, List.mem_append, List.mem_singleton] at hmem
          rcases hmem with hmem | rfl
          · exact h0 t hmem
          · exact ht
        | err e => rw [hb] at h; simp [Res.bind] at h
        | panic => rw [hb] at h; simp [Res.bind] at h
        | timeout => rw [hb] at h; simp [Res.bind] at h
      · cases hb : parseCopyright p.scanIgnoreWhitespace.2 with
        | ok v q =>
          rw [hb] at h
          simp only [Res.bind] at h
          refine ih _ _ ?_ h
          exact h0
        | err e => rw [hb] at h; simp [Res.bind] at h
        | panic => rw [hb] at h; simp [Res.bind] at h
        | timeout => rw [hb] at h; simp [Res.bind] at h
      · cases hb : parseText p.scanIgnoreWhitespace.2 with
        | ok v q =>
          rw [hb] at h
          simp only [Res.bind] at h
          refine ih _ _ ?_ h
          exact h0
        | err e => rw [hb] at h; simp [Res.bind] at h
        | panic => rw [hb] at h; simp [Res.bind] at h
        | timeout => rw [hb] at h; simp [Res.bind] at h
      · simp at h

/-- In a Project returned by `Parse` the bars of every track have their
positions as offsets, as `uint32`. -/
theorem parse_offsets {N C : Type} (fuel : Nat) (env : Env N C) (p : Parser)
    (proj : Project N C) (h : Parse fuel env p = Outcome.returned (some proj) none) :
    ∀ t ∈ proj.tracks, offsetsOk t.bars := by
  obtain ⟨name, p0, p1, -, hl, -⟩ := parse_ok_inv fuel env p proj h
  refine parseProjectLoop_offsets env fuel _ _ _ _ ?_ hl
  intro t ht
  simp [NewProject] at ht

/-- C13 (amended): in every Project returned by a successful `Parse`, for every
Track, the i-th Bar of the track's bar sequence (zero-based) has offset
`i mod 2 ^ 32` (the offset is the `uint32` of the count of bars); so in the
first `2 ^ 32` bars of a track offsets start at 0 and increase by exactly 1
with no gaps or repeats. -/
theorem bar_offsets {N C : Type} (fuel : Nat) (env : Env N C) (p : Parser)
    (proj : Project N C) (h : Parse fuel env p = Outcome.returned (some proj) none) :
    ∀ t ∈ proj.tracks, ∀ i b, t.bars[i]? = some b →
      b.offset = i % 2 ^ 32 ∧ (i < 2 ^ 32 → b.offset = i) := by
  intro t ht i b hb
  have ho := parse_offsets fuel env p proj h t ht i b hb
  exact ⟨ho, fun hlt => by rw [ho, Nat.mod_eq_of_lt hlt]⟩

/-- Witness of C13: `PROJECT "demo" { TRACK "lead" { BAR { } BAR { } } }` parses,
and the second bar of its track, at position 1, has offset 1. -/
theorem bar_offsets_witness :
    Parse 5 demoEnv (NewParser (manyBars 2)) =
      Outcome.returned (some (manyBarsProject 2)) none ∧
    (addEmptyBars 2 { NewTrack String (List String) with name := "lead" }).bars[1]? =
      some (NewBar String (List String) 1) ∧
    (NewBar String (List String) 1).offset = 1 % 2 ^ 32 ∧
    (1 < 2 ^ 32 → (NewBar String (List String) 1).offset = 1) :=
  ⟨rfl, rfl,
    bar_offsets 5 demoEnv (NewParser (manyBars 2)) (manyBarsProject 2) rfl
      (addEmptyBars 2 { NewTrack String (List String) with name := "lead" })
      (List.mem_singleton.mpr rfl) 1 (NewBar String (List String) 1) rfl⟩

/-- Adding `n` bars makes the track `n` bars longer. -/
theorem addEmptyBars_length {N C : Type} (n : Nat) (t : Track N C) :
    (addEmptyBars n t).bars.length = t.bars.length + n := by
  induction n generalizing t with
  | zero => rfl
  | succ n ih =>
    rw [addEmptyBars, ih]
    simp only [Track.AddBar, List.length_append, List.length_singleton]
    omega


/-- The parse of an empty bar, `{ }` after `BAR`. -/
theorem parseBar_empty {N C : Type} (env : Env N C) (fuel : Nat) (track : Track N C)
    (rest : List Token) (bt : Tok) (bl : String) :
    parseBar (fuel + 1) env track
        { s := ⟨Tok.BRACKET_OPEN, "\x7b"⟩ :: ⟨Tok.BRACKET_CLOSE, "\x7d"⟩ :: rest,
          bufTok := bt, bufLit := bl, bufN := 0 } =
      Res.ok { NewBar N C (track.bars.length % 2 ^ 32) with
               bpm := track.bpm, signature := track.signature }
        { s := rest, bufTok := Tok.BRACKET_CLOSE, bufLit := "\x7d", bufN := 0 } := by
  simp [parseBar, parseBarLoop, scanIgnoreWhitespace_cons]

/-- The statement loop of a track over `n` empty bars and the closing brace. -/
theorem parseTrackLoop_emptyBars {N C : Type} (env : Env N C) (n fuel : Nat)
    (track : Track N C) (rest : List Token) (bt : Tok) (bl : String) :
    parseTrackLoop env (fuel + n + 1) track
        { s := emptyBars n ++ tk Tok.BRACKET_CLOSE "\x7d" :: rest,
          bufTok := bt, bufLit := bl, bufN := 0 } =
      Res.ok (addEmptyBars n track)
        { s := rest, bufTok := Tok.BRACKET_CLOSE, bufLit := "\x7d", bufN := 0 } := by
  induction n generalizing track bt bl with
  | zero =>
    rw [parseTrackLoop]
    simp [emptyBars, tk, scanIgnoreWhitespace_cons, addEmptyBars]
  | succ n ih =>
    have hf : fuel + (n + 1) + 1 = (fuel + n + 1) + 1 := by omega
    rw [hf, parseTrackLoop]
    simp only [emptyBars, List.cons_append, tk]
    rw [scanIgnoreWhitespace_cons _ _ _ _ (by decide) (by decide)]
    have hb := parseBar_empty env (fuel + n) track
      (emptyBars n ++ ⟨Tok.BRACKET_CLOSE, "\x7d"⟩ :: rest) Tok.BAR "bar"
    dsimp only
    rw [if_neg (by decide)]
    rw [hb]
    simp only [Res.bind]
    rw [addEmptyBars]
    exact ih _ Tok.BRACKET_CLOSE "\x7d"


/-- The stream of a track of `n` empty bars parses to `manyBarsProject n`. -/
theorem parse_manyBars (n : Nat) :
    Parse (n + 3) demoEnv (NewParser (manyBars n)) =
      Outcome.returned (some (manyBarsProject n)) none := by
  have hloop := parseTrackLoop_emptyBars demoEnv n 1
    { NewTrack String (List String) with name := "lead" } [tk Tok.BRACKET_CLOSE "\x7d"]
    Tok.BRACKET_OPEN "\x7b"
  have hf : n + 2 = 1 + n + 1 := by omega
  have htrack : parseTrack (n + 2) demoEnv
      { NewProject String (List String) with name := "demo" }
      { s := ⟨Tok.STRING, "lead"⟩ :: ⟨Tok.BRACKET_OPEN, "\x7b"⟩ ::
          (emptyBars n ++ [tk Tok.BRACKET_CLOSE "\x7d", tk Tok.BRACKET_CLOSE "\x7d"]),
        bufTok := Tok.TRACK, bufLit := "track", bufN := 0 } =
      Res.ok (addEmptyBars n { NewTrack String (List String) with name := "lead" })
        { s := [tk Tok.BRACKET_CLOSE "\x7d"],
          bufTok := Tok.BRACKET_CLOSE, bufLit := "\x7d", bufN := 0 } := by
    unfold parseTrack
    rw [scanIgnoreWhitespace_cons _ _ _ _ (by decide) (by decide)]
    dsimp only
    rw [scanIgnoreWhitespace_cons _ _ _ _ (by decide) (by decide)]
    dsimp only
    rw [if_neg (by decide), if_neg (by decide), hf]
    exact hloop
  have hproj : parseProjectLoop demoEnv (n + 3)
      { NewProject String (List String) with name := "demo" }
      { s := ⟨Tok.TRACK, "track"⟩ :: ⟨Tok.STRING, "lead"⟩ :: ⟨Tok.BRACKET_OPEN, "\x7b"⟩ ::
          (emptyBars n ++ [tk Tok.BRACKET_CLOSE "\x7d", tk Tok.BRACKET_CLOSE "\x7d"]),
        bufTok := Tok.BRACKET_OPEN, bufLit := "\x7b", bufN := 0 } =
      Res.ok (manyBarsProject n)
        { s := [], bufTok := Tok.BRACKET_CLOSE, bufLit := "\x7d", bufN := 0 } := by
    rw [parseProjectLoop]
    rw [scanIgnoreWhitespace_cons _ _ _ _ (by decide) (by decide)]
    dsimp only
    rw [if_neg (by decide), htrack]
    simp only [Res.bind]
    rw [parseProjectLoop]
    simp only [tk]
    rw [scanIgnoreWhitespace_cons _ _ _ _ (by decide) (by decide)]
    dsimp only
    rw [if_pos rfl]
    rfl
  show Parse (n + 3) demoEnv
      { s := ⟨Tok.PROJECT, "project"⟩ :: ⟨Tok.STRING, "demo"⟩ :: ⟨Tok.BRACKET_OPEN, "\x7b"⟩ ::
          ⟨Tok.TRACK, "track"⟩ :: ⟨Tok.STRING, "lead"⟩ :: ⟨Tok.BRACKET_OPEN, "\x7b"⟩ ::
          (emptyBars n ++ [tk Tok.BRACKET_CLOSE "\x7d", tk Tok.BRACKET_CLOSE "\x7d"]),
        bufTok := Tok.ILLEGAL, bufLit := "", bufN := 0 } = _
  unfold Parse parseProject
  rw [scanIgnoreWhitespace_cons _ _ _ _ (by decide) (by decide)]
  dsimp only
  rw [scanIgnoreWhitespace_cons _ _ _ _ (by decide) (by decide)]
  dsimp only
  rw [scanIgnoreWhitespace_cons _ _ _ _ (by decide) (by decide)]
  dsimp only
  rw [if_neg (by decide), if_neg (by decide), if_neg (by decide)]
  rw [hproj]
  dsimp only
  rw [scanIgnoreWhitespace_nil]
  rfl


/-- In the project of `n` empty bars, every position below `n` holds a bar,
whose offset is the position as `uint32`. -/
theorem manyBars_offset (n i : Nat) (hi : i < n) :
    ∃ t ∈ (manyBarsProject n).tracks, ∃ b, t.bars[i]? = some b ∧ b.offset = i % 2 ^ 32 := by
  have hmem : addEmptyBars n { NewTrack String (List String) with name := "lead" } ∈
      (manyBarsProject n).tracks := by
    simp [manyBarsProject]
  have hlen := addEmptyBars_length n { NewTrack String (List String) with name := "lead" }
  have hlt : i < (addEmptyBars n { NewTrack String (List String) with name := "lead" }).bars.length := by
    rw [hlen]
    simp [NewTrack]
    exact hi
  refine ⟨_, hmem, _, List.getElem?_eq_getElem hlt, ?_⟩
  exact parse_offsets (n + 3) demoEnv _ _ (parse_manyBars n) _ hmem i _
    (List.getElem?_eq_getElem hlt)

/-- C13 (counterexample): the stream of a track of `2 ^ 32 + 1` empty bars
parses successfully, and the bar at position `2 ^ 32` of the track has offset
0, not `2 ^ 32`. -/
theorem bar_offsets_wrap :
    Parse (2 ^ 32 + 1 + 3) demoEnv (NewParser (manyBars (2 ^ 32 + 1))) =
      Outcome.returned (some (manyBarsProject (2 ^ 32 + 1))) none ∧
    ∃ t ∈ (manyBarsProject (2 ^ 32 + 1)).tracks, ∃ b,
      t.bars[2 ^ 32]? = some b ∧ b.offset = 0 ∧ b.offset ≠ 2 ^ 32 := by
  obtain ⟨t, ht, b, hb, ho⟩ := manyBars_offset (2 ^ 32 + 1) (2 ^ 32) (Nat.lt_succ_self _)
  rw [Nat.mod_self] at ho
  refine ⟨parse_manyBars _, t, ht, b, hb, ho, ?_⟩
  rw [ho]
  exact Nat.ne_of_lt (Nat.two_pow_pos 32)

/-! ## Scanning, by the list of tokens -/

/-- With nothing pending, the loop of `scanIgnoreWhitespace` returns the first
token of the scanner that is neither whitespace nor a comment. -/
theorem scanLoop_firstToken (l : List Token) (k : Nat) (bt : Tok) (bl : String)
    (hk : l.length ≤ k) :
    scanIgnoreWhitespaceLoop k { s := l, bufTok := bt, bufLit := bl, bufN := 0 } =
      ((firstToken l).1,
        { s := (firstToken l).2, bufTok := (firstToken l).1.tok,
          bufLit := (firstToken l).1.lit, bufN := 0 }) := by
  induction l generalizing k bt bl with
  | nil =>
    cases k <;> simp [scanIgnoreWhitespaceLoop, Parser.scan, Scan, firstToken]
  | cons t ts ih =>
    cases k with
    | zero => simp at hk
    | succ k =>
      have hk1 : ts.length ≤ k := by simpa using hk
      by_cases hw : t.tok = Tok.WHITESPACE ∨ t.tok = Tok.COMMENT
      · simp only [scanIgnoreWhitespaceLoop, Parser.scan, Scan, firstToken, hw, if_true,
          ne_eq, not_true_eq_false, if_false]
        exact ih k t.tok t.lit hk1
      · simp only [scanIgnoreWhitespaceLoop, Parser.scan, Scan, firstToken, hw, if_false,
          ne_eq, not_true_eq_false]

/-- `scanIgnoreWhitespace` with nothing pending, by the list of tokens. -/
theorem scanIgnoreWhitespace_firstToken (l : List Token) (bt : Tok) (bl : String) :
    Parser.scanIgnoreWhitespace { s := l, bufTok := bt, bufLit := bl, bufN := 0 } =
      ((firstToken l).1,
        { s := (firstToken l).2, bufTok := (firstToken l).1.tok,
          bufLit := (firstToken l).1.lit, bufN := 0 }) :=
  scanLoop_firstToken l (l.length + 1) bt bl (Nat.le_succ _)

/-- The first token is a token of the list, or `EOF`. -/
theorem firstToken_mem (l : List Token) :
    (firstToken l).1 ∈ l ∨ (firstToken l).1 = ⟨Tok.EOF, ""⟩ := by
  induction l with
  | nil => exact Or.inr rfl
  | cons t ts ih =>
    unfold firstToken
    split_ifs with hw
    · rcases ih with h | h
      · exact Or.inl (List.mem_cons_of_mem _ h)
      · exact Or.inr h
    · exact Or.inl (List.mem_cons_self _ _)

/-- The tokens after the first token are tokens of the list. -/
theorem firstToken_rest (l : List Token) : ∀ t ∈ (firstToken l).2, t ∈ l := by
  induction l with
  | nil => intro t ht; simp [firstToken] at ht
  | cons a ts ih =>
    intro t ht
    unfold firstToken at ht
    split_ifs at ht with hw
    · exact List.mem_cons_of_mem _ (ih t ht)
    · exact List.mem_cons_of_mem _ ht

/-! ## Termination -/

/-- When no `;` and no `VELOCITY` is left among the tokens, the velocity loop
reads them all and then `EOF` for ever: no amount of fuel lets it return. -/
theorem parseVelocityLoop_no_semicolon {N C : Type} (fuel : Nat) (x : Playable N C)
    (l : List Token) (bt : Tok) (bl : String)
    (hl : ∀ t ∈ l, t.tok ≠ Tok.SEMICOLON ∧ t.tok ≠ Tok.VELOCITY) :
    parseVelocityLoop fuel x { s := l, bufTok := bt, bufLit := bl, bufN := 0 } = Res.timeout := by
  induction fuel generalizing l bt bl with
  | zero => rfl
  | succ n ih =>
    rw [parseVelocityLoop, scanIgnoreWhitespace_firstToken]
    have hfirst : (firstToken l).1.tok ≠ Tok.SEMICOLON ∧ (firstToken l).1.tok ≠ Tok.VELOCITY := by
      rcases firstToken_mem l with h | h
      · exact hl _ h
      · rw [h]
        exact ⟨by decide, by decide⟩
    simp only [hfirst.1, hfirst.2, if_false]
    exact ih _ _ _ (fun t ht => hl t (firstToken_rest l t ht))

/-- C14 (the code at the failing inputs): when the event of an on-statement is
followed by tokens none of which is `;` (or `VELOCITY`) and then by
end-of-input, `Parse` neither completes with a Project nor returns an error,
whatever the fuel; this holds with no token after the event (the input ends
there) and with the closing braces of the blocks after it. -/
theorem parse_missing_semicolon_never_returns (fuel : Nat) (tail : List Token)
    (htail : ∀ t ∈ tail, t.tok ≠ Tok.SEMICOLON ∧ t.tok ≠ Tok.VELOCITY) :
    Parse fuel demoEnv (NewParser (unterminatedOn ++ tail)) = Outcome.timeout := by
  have h4 : parseUint "4" 8 = some 4 := by decide
  have h1 : parseUint "1" 8 = some 1 := by decide
  have hdiv := fun (fuel : Nat) (x : Playable String (List String)) (bt : Tok) (bl : String) =>
    parseVelocityLoop_no_semicolon fuel x tail bt bl htail
  rcases fuel with _ | _ | _ | _ | _ | n <;>
    simp [Parse, parseProject, NewParser, unterminatedOn, tk, scanIgnoreWhitespace_cons,
      parseProjectLoop, parseTimeSignature, h4, h1, Res.bind, parseTrack, parseTrackLoop,
      parseBar, parseBarLoop, parseOn, parsePlay, parsePlayable, parsePlayableLoop, parseNote,
      demoEnv, playableTick, NewBar, NewTrack, NewProject, NewSignature, addParsed, hdiv]

/-- Witness of C14: the on-statement with its `;` missing, followed by the
three closing braces of its blocks. -/
theorem parse_missing_semicolon_never_returns_witness :
    Parse 1000 demoEnv (NewParser (unterminatedOn ++ closingBraces)) = Outcome.timeout :=
  parse_missing_semicolon_never_returns 1000 closingBraces (by decide)

/-! ## Whitespace and comments -/

/-- The first token of the stripped list is the first token of the list. -/
theorem firstToken_strip (l : List Token) :
    firstToken (stripBlanks l) = ((firstToken l).1, stripBlanks (firstToken l).2) := by
  induction l with
  | nil => rfl
  | cons t ts ih =>
    by_cases hw : t.tok = Tok.WHITESPACE ∨ t.tok = Tok.COMMENT
    · have h1 : stripBlanks (t :: ts) = stripBlanks ts := by
        simp only [stripBlanks, List.filter_cons, hw, decide_True, Bool.not_true]
        rfl
      rw [h1, ih]
      simp [firstToken, hw]
    · have h1 : stripBlanks (t :: ts) = t :: stripBlanks ts := by
        simp only [stripBlanks, List.filter_cons, hw, decide_False, Bool.not_false]
        rfl
      rw [h1]
      simp [firstToken, hw]

/-- `scanIgnoreWhitespace` with a token pending: the buffered token, unless it
is whitespace or a comment. -/
theorem scanIgnoreWhitespace_buffered (l : List Token) (bt : Tok) (bl : String) (n : Nat)
    (hn : n ≠ 0) :
    Parser.scanIgnoreWhitespace { s := l, bufTok := bt, bufLit := bl, bufN := n } =
      if bt = Tok.WHITESPACE ∨ bt = Tok.COMMENT then
        Parser.scanIgnoreWhitespace { s := l, bufTok := bt, bufLit := bl, bufN := 0 }
      else (⟨bt, bl⟩, { s := l, bufTok := bt, bufLit := bl, bufN := 0 }) := by
  rw [scanIgnoreWhitespace_firstToken]
  unfold Parser.scanIgnoreWhitespace
  simp only [scanIgnoreWhitespaceLoop, Parser.scan, hn, ne_eq, not_false_eq_true, if_true]
  split_ifs with hw
  · exact scanLoop_firstToken l l.length bt bl (Nat.le_refl _)
  · rfl

/-- Scanning the stripped parser returns the same token and the stripped
state. -/
theorem scanIgnoreWhitespace_strip (p : Parser) :
    p.strip.scanIgnoreWhitespace = (p.scanIgnoreWhitespace.1, p.scanIgnoreWhitespace.2.strip) := by
  obtain ⟨l, bt, bl, n⟩ := p
  by_cases hn : n = 0
  · subst hn
    simp only [Parser.strip, scanIgnoreWhitespace_firstToken, firstToken_strip]
  · simp only [Parser.strip, scanIgnoreWhitespace_buffered _ _ _ _ hn,
      scanIgnoreWhitespace_firstToken, firstToken_strip]
    split_ifs <;> rfl

theorem scanIgnoreWhitespace_strip_fst (p : Parser) :
    p.strip.scanIgnoreWhitespace.1 = p.scanIgnoreWhitespace.1 := by
  rw [scanIgnoreWhitespace_strip]

theorem scanIgnoreWhitespace_strip_snd (p : Parser) :
    p.strip.scanIgnoreWhitespace.2 = p.scanIgnoreWhitespace.2.strip := by
  rw [scanIgnoreWhitespace_strip]

theorem strip_bufLit (p : Parser) : p.strip.bufLit = p.bufLit := rfl

theorem strip_unscan (p : Parser) : p.strip.unscan = p.unscan.strip := rfl

/-- Sequencing commutes with stripping. -/
theorem bind_strip {α β : Type} (r : Res α) (f : α → Parser → Res β)
    (hf : ∀ a p, f a p.strip = (f a p).strip) :
    r.strip.bind f = (r.bind f).strip := by
  cases r with
  | ok a p => exact hf a p
  | err e => rfl
  | panic => rfl
  | timeout => rfl

/-- `parseBpm` on the stripped parser. -/
theorem parseBpm_strip {N C : Type} (env : Env N C) (p : Parser) :
    parseBpm env p.strip = (parseBpm env p).strip := by
  unfold parseBpm
  simp only [scanIgnoreWhitespace_strip_fst, scanIgnoreWhitespace_strip_snd, strip_bufLit]
  cases hf : env.parseFloat p.scanIgnoreWhitespace.2.bufLit 64 <;>
    (try simp only []) <;> (try split_ifs) <;> rfl

/-- `parseTimeSignature` on the stripped parser. -/
theorem parseTimeSignature_strip (p : Parser) :
    parseTimeSignature p.strip = (parseTimeSignature p).strip := by
  unfold parseTimeSignature
  simp only [scanIgnoreWhitespace_strip_fst, scanIgnoreWhitespace_strip_snd, strip_bufLit]
  cases hf : parseUint p.scanIgnoreWhitespace.2.bufLit 8 <;>
    cases hg : parseUint p.scanIgnoreWhitespace.2.scanIgnoreWhitespace.2.bufLit 8 <;>
    (try simp only []) <;> (try split_ifs) <;> rfl

/-- `parseChord` on the stripped parser. -/
theorem parseChord_strip {N C : Type} (env : Env N C) (p : Parser) :
    parseChord env p.strip = (parseChord env p).strip := by
  unfold parseChord
  simp only [scanIgnoreWhitespace_strip_fst, scanIgnoreWhitespace_strip_snd]
  cases hf : env.chordsParse p.scanIgnoreWhitespace.1.lit <;>
    (try simp only []) <;> (try split_ifs) <;> rfl

/-- `parseNote` on the stripped parser. -/
theorem parseNote_strip {N C : Type} (env : Env N C) (p : Parser) :
    parseNote env p.strip = (parseNote env p).strip := by
  unfold parseNote
  simp only [scanIgnoreWhitespace_strip_fst, scanIgnoreWhitespace_strip_snd]
  cases hf : env.notesParse p.scanIgnoreWhitespace.1.lit <;>
    (try simp only []) <;> (try split_ifs) <;> rfl

/-- `parseCopyright` on the stripped parser. -/
theorem parseCopyright_strip (p : Parser) :
    parseCopyright p.strip = (parseCopyright p).strip := by
  unfold parseCopyright
  simp only [scanIgnoreWhitespace_strip_fst, scanIgnoreWhitespace_strip_snd]
  split_ifs <;> rfl

/-- `parseText` on the stripped parser. -/
theorem parseText_strip (p : Parser) : parseText p.strip = (parseText p).strip := by
  unfold parseText
  simp only [scanIgnoreWhitespace_strip_fst, scanIgnoreWhitespace_strip_snd]
  split_ifs <;> rfl

/-- `parseInstrument` on the stripped parser. -/
theorem parseInstrument_strip {N C : Type} (env : Env N C) (p : Parser) :
    parseInstrument env p.strip = (parseInstrument env p).strip := by
  unfold parseInstrument
  simp only [scanIgnoreWhitespace_strip_fst, scanIgnoreWhitespace_strip_snd]
  cases hf : env.instrumentToPC p.scanIgnoreWhitespace.1.lit <;>
    (try simp only []) <;> (try split_ifs) <;> rfl

/-- `expectSuffix` on the stripped parser. -/
theorem expectSuffix_strip (want : Tok) (p : Parser) :
    expectSuffix want p.strip = (expectSuffix want p).strip := by
  unfold expectSuffix
  simp only [scanIgnoreWhitespace_strip_fst, scanIgnoreWhitespace_strip_snd]
  split_ifs <;> rfl

/-- The velocity loop on the stripped parser. -/
theorem parseVelocityLoop_strip {N C : Type} (fuel : Nat) (x : Playable N C) (p : Parser) :
    parseVelocityLoop fuel x p.strip = (parseVelocityLoop fuel x p).strip := by
  induction fuel generalizing x p with
  | zero => rfl
  | succ n ih =>
    rw [parseVelocityLoop, parseVelocityLoop]
    simp only [scanIgnoreWhitespace_strip_fst, scanIgnoreWhitespace_strip_snd, strip_unscan]
    cases hf : parseUint p.scanIgnoreWhitespace.2.scanIgnoreWhitespace.1.lit 8 <;>
      (try simp only []) <;> (try split_ifs) <;> first | rfl | exact ih _ _

/-- The outer loop of `parsePlayable` on the stripped parser. -/
theorem parsePlayableLoop_strip {N C : Type} (env : Env N C) (bar : Bar N C)
    (duration beat : Nat) (delta : GoFloat) (fuel : Nat) (x0 : Option (Playable N C))
    (p : Parser) :
    parsePlayableLoop env bar duration beat delta fuel x0 p.strip =
      (parsePlayableLoop env bar duration beat delta fuel x0 p).strip := by
  induction fuel generalizing x0 p with
  | zero => rfl
  | succ n ih =>
    have hrest : ∀ (x : Playable N C) (q : Parser),
        (match playableTick bar beat delta with
          | none => Res.panic
          | some tick =>
            (parseVelocityLoop n (x.SetTick tick) q.strip).bind fun x2 p2 =>
              parsePlayableLoop env bar duration beat delta n (some x2) p2) =
        (match playableTick bar beat delta with
          | none => Res.panic
          | some tick =>
            (parseVelocityLoop n (x.SetTick tick) q).bind fun x2 p2 =>
              parsePlayableLoop env bar duration beat delta n (some x2) p2).strip := by
      intro x q
      cases playableTick bar beat delta with
      | none => rfl
      | some tick =>
        simp only
        rw [parseVelocityLoop_strip]
        exact bind_strip _ _ (fun a r => ih _ _)
    rw [parsePlayableLoop, parsePlayableLoop]
    simp only [scanIgnoreWhitespace_strip_fst, scanIgnoreWhitespace_strip_snd,
      parseChord_strip, parseNote_strip]
    split_ifs with h1
    · rfl
    · cases htok : p.scanIgnoreWhitespace.1.tok <;> simp only [] <;>
        first
        | rfl
        | exact bind_strip _ _ (fun a q => hrest _ q)
        | (cases hn : env.notesParse "D#4" <;> first | rfl | exact hrest _ _)
        | (cases hn : env.notesParse "D3" <;> first | rfl | exact hrest _ _)
        | (cases hn : env.notesParse "A#3" <;> first | rfl | exact hrest _ _)

/-- `parsePlayable` on the stripped parser. -/
theorem parsePlayable_strip {N C : Type} (fuel : Nat) (env : Env N C) (bar : Bar N C)
    (duration beat : Nat) (delta : GoFloat) (p : Parser) :
    parsePlayable fuel env bar duration beat delta p.strip =
      (parsePlayable fuel env bar duration beat delta p).strip :=
  parsePlayableLoop_strip env bar duration beat delta fuel none p

/-- `addParsed` on a stripped result. -/
theorem addParsed_strip {N C : Type} (bar : Bar N C) (r : Res (Option (Playable N C))) :
    addParsed bar r.strip = ((addParsed bar r).1, (addParsed bar r).2.strip) := by
  cases r <;> rfl

/-- `parsePlay` on the stripped parser. -/
theorem parsePlay_strip {N C : Type} (fuel : Nat) (env : Env N C) (bar : Bar N C) (beat : Nat)
    (delta : GoFloat) (p : Parser) :
    parsePlay fuel env bar beat delta p.strip =
      ((parsePlay fuel env bar beat delta p).1, (parsePlay fuel env bar beat delta p).2.strip) := by
  unfold parsePlay
  simp only [scanIgnoreWhitespace_strip_fst, scanIgnoreWhitespace_strip_snd,
    expectSuffix_strip, parsePlayable_strip, addParsed_strip]
  cases htok : p.scanIgnoreWhitespace.1.tok <;> simp only [] <;> try rfl
  cases hu : parseUint p.scanIgnoreWhitespace.1.lit 16 with
  | none => rfl
  | some value =>
    simp only
    have hs :
        (if value = 8 then (expectSuffix Tok.TH p.scanIgnoreWhitespace.2).strip
          else if value = 16 then (expectSuffix Tok.TH p.scanIgnoreWhitespace.2).strip
          else if value = 32 then (expectSuffix Tok.ND p.scanIgnoreWhitespace.2).strip
          else if value = 64 then (expectSuffix Tok.TH p.scanIgnoreWhitespace.2).strip
          else if value = 128 then (expectSuffix Tok.TH p.scanIgnoreWhitespace.2).strip
          else if value = 256 then (expectSuffix Tok.TH p.scanIgnoreWhitespace.2).strip
          else Res.err (ParseError.unexpected p.scanIgnoreWhitespace.1.lit "value")) =
        (if value = 8 then expectSuffix Tok.TH p.scanIgnoreWhitespace.2
          else if value = 16 then expectSuffix Tok.TH p.scanIgnoreWhitespace.2
          else if value = 32 then expectSuffix Tok.ND p.scanIgnoreWhitespace.2
          else if value = 64 then expectSuffix Tok.TH p.scanIgnoreWhitespace.2
          else if value = 128 then expectSuffix Tok.TH p.scanIgnoreWhitespace.2
          else if value = 256 then expectSuffix Tok.TH p.scanIgnoreWhitespace.2
          else Res.err (ParseError.unexpected p.scanIgnoreWhitespace.1.lit "value")).strip := by
      split_ifs <;> rfl
    rw [hs]
    generalize (if value = 8 then expectSuffix Tok.TH p.scanIgnoreWhitespace.2
          else if value = 16 then expectSuffix Tok.TH p.scanIgnoreWhitespace.2
          else if value = 32 then expectSuffix Tok.ND p.scanIgnoreWhitespace.2
          else if value = 64 then expectSuffix Tok.TH p.scanIgnoreWhitespace.2
          else if value = 128 then expectSuffix Tok.TH p.scanIgnoreWhitespace.2
          else if value = 256 then expectSuffix Tok.TH p.scanIgnoreWhitespace.2
          else Res.err (ParseError.unexpected p.scanIgnoreWhitespace.1.lit "value")) = S
    cases S with
    | ok u q =>
      exact (congrArg (addParsed bar)
        (parsePlayable_strip fuel env bar (value % 2 ^ 16) beat delta q)).trans
        (addParsed_strip bar _)
    | err e => rfl
    | panic => rfl
    | timeout => rfl

/-- `parseOn` on the stripped parser. -/
theorem parseOn_strip {N C : Type} (fuel : Nat) (env : Env N C) (bar : Bar N C) (p : Parser) :
    parseOn fuel env bar p.strip =
      ((parseOn fuel env bar p).1, (parseOn fuel env bar p).2.strip) := by
  unfold parseOn
  simp only [scanIgnoreWhitespace_strip_fst, scanIgnoreWhitespace_strip_snd, parsePlay_strip]
  repeat' split
  all_goals rfl

/-- The statement loop of a bar on the stripped parser. -/
theorem parseBarLoop_strip {N C : Type} (env : Env N C) (fuel : Nat) (bar : Bar N C)
    (p : Parser) :
    parseBarLoop env fuel bar p.strip = (parseBarLoop env fuel bar p).strip := by
  induction fuel generalizing bar p with
  | zero => rfl
  | succ n ih =>
    rw [parseBarLoop, parseBarLoop]
    simp only [scanIgnoreWhitespace_strip_fst, scanIgnoreWhitespace_strip_snd,
      parseBpm_strip, parseTimeSignature_strip, parseText_strip, parseOn_strip]
    split_ifs with h1
    · rfl
    · cases htok : p.scanIgnoreWhitespace.1.tok <;> simp only [] <;>
        first
        | exact bind_strip _ _ (fun a q => ih _ _)
        | (rcases hpo : parseOn n env bar p.scanIgnoreWhitespace.2 with ⟨b2, r⟩
           cases r with
           | ok u q => exact ih _ _
           | err e => exact rfl
           | panic => exact rfl
           | timeout => exact rfl)
        | rfl

/-- `parseBar` on the stripped parser. -/
theorem parseBar_strip {N C : Type} (fuel : Nat) (env : Env N C) (track : Track N C)
    (p : Parser) :
    parseBar fuel env track p.strip = (parseBar fuel env track p).strip := by
  unfold parseBar
  simp only [scanIgnoreWhitespace_strip_fst, scanIgnoreWhitespace_strip_snd, parseBarLoop_strip]
  split_ifs <;> rfl

/-- The statement loop of a track on the stripped parser. -/
theorem parseTrackLoop_strip {N C : Type} (env : Env N C) (fuel : Nat) (track : Track N C)
    (p : Parser) :
    parseTrackLoop env fuel track p.strip = (parseTrackLoop env fuel track p).strip := by
  induction fuel generalizing track p with
  | zero => rfl
  | succ n ih =>
    rw [parseTrackLoop, parseTrackLoop]
    simp only [scanIgnoreWhitespace_strip_fst, scanIgnoreWhitespace_strip_snd,
      parseBpm_strip, parseTimeSignature_strip, parseText_strip, parseBar_strip,
      parseCopyright_strip, parseInstrument_strip]
    split_ifs with h1
    · rfl
    · cases htok : p.scanIgnoreWhitespace.1.tok <;> simp only [] <;>
        first
        | exact bind_strip _ _ (fun a q => ih _ _)
        | rfl

/-- `parseTrack` on the stripped parser. -/
theorem parseTrack_strip {N C : Type} (fuel : Nat) (env : Env N C) (project : Project N C)
    (p : Parser) :
    parseTrack fuel env project p.strip = (parseTrack fuel env project p).strip := by
  unfold parseTrack
  simp only [scanIgnoreWhitespace_strip_fst, scanIgnoreWhitespace_strip_snd,
    parseTrackLoop_strip]
  split_ifs <;> rfl

/-- The statement loop of the project on the stripped parser. -/
theorem parseProjectLoop_strip {N C : Type} (env : Env N C) (fuel : Nat)
    (project : Project N C) (p : Parser) :
    parseProjectLoop env fuel project p.strip = (parseProjectLoop env fuel project p).strip := by
  induction fuel generalizing project p with
  | zero => rfl
  | succ n ih =>
    rw [parseProjectLoop, parseProjectLoop]
    simp only [scanIgnoreWhitespace_strip_fst, scanIgnoreWhitespace_strip_snd,
      parseBpm_strip, parseTimeSignature_strip, parseText_strip, parseTrack_strip,
      parseCopyright_strip]
    split_ifs with h1
    · rfl
    · cases htok : p.scanIgnoreWhitespace.1.tok <;> simp only [] <;>
        first
        | exact bind_strip _ _ (fun a q => ih _ _)
        | rfl

/-- `Parse` on the stripped parser. -/
theorem parse_strip {N C : Type} (fuel : Nat) (env : Env N C) (p : Parser) :
    Parse fuel env p.strip = Parse fuel env p := by
  unfold Parse parseProject
  simp only [scanIgnoreWhitespace_strip_fst, scanIgnoreWhitespace_strip_snd,
    parseProjectLoop_strip]
  split_ifs with h1 h2 h3
  · rfl
  · rfl
  · rfl
  · cases hl : parseProjectLoop env fuel
        { NewProject N C with name := p.scanIgnoreWhitespace.2.scanIgnoreWhitespace.1.lit }
        p.scanIgnoreWhitespace.2.scanIgnoreWhitespace.2.scanIgnoreWhitespace.2 with
    | ok a q =>
      simp only [Res.strip, scanIgnoreWhitespace_strip_fst]
    | err e => rfl
    | panic => rfl
    | timeout => rfl

/-- C12: whitespace and comment tokens are transparent to the parser: for
every token stream, `Parse` gives on the stream with all `WHITESPACE` and
`COMMENT` tokens removed the result it gives on the stream itself: the same
Project, the same error, or no return with the same fuel. The numeric literal
that `parseBpm` and `parseTimeSignature` read from the pushback buffer is the
literal of the token returned. -/
theorem parse_ignores_blanks {N C : Type} (fuel : Nat) (env : Env N C) (tokens : List Token) :
    Parse fuel env (NewParser (stripBlanks tokens)) = Parse fuel env (NewParser tokens) ∧
    ∀ p : Parser, p.scanIgnoreWhitespace.2.bufLit = p.scanIgnoreWhitespace.1.lit :=
  ⟨parse_strip fuel env (NewParser tokens), fun p => (scanIgnoreWhitespace_buf p).2.2⟩

/-- Witness of C12: `PROJECT "demo" { BPM 120 ; }` written with whitespace and
comments parses as it does without them, to the project named `demo` at 120
bpm. -/
theorem parse_ignores_blanks_witness :
    Parse 3 demoEnv (NewParser (stripBlanks spacedProject)) =
      Parse 3 demoEnv (NewParser spacedProject) ∧
    Parse 3 demoEnv (NewParser spacedProject) =
      Outcome.returned
        (some { NewProject String (List String) with name := "demo", bpm := some ⟨120, 1⟩ })
        none :=
  ⟨(parse_ignores_blanks 3 demoEnv spacedProject).1, rfl⟩

/-! ## The tick inside its bar -/

/-- With a signature whose unit is not zero, `playableTick` computes a tick
(it does not panic). -/
theorem playableTick_some {N C : Type} (bar : Bar N C) (sig : Signature) (beat : Nat)
    (delta : GoFloat) (hsig : bar.signature = some sig) (hunit : 1 ≤ sig.duration) :
    ∃ t, playableTick bar beat delta = some t := by
  have hd : sig.duration ≠ 0 := by omega
  unfold playableTick
  simp only [hsig, hd, if_false]
  exact ⟨_, rfl⟩

/-- The truncated `deltaTicks` of a delta in `[0,1)` is below 960. -/
theorem deltaTicks_lt (unit n d : Nat) (hdelta : n < d) : 960 / unit * n / d < 960 := by
  rcases Nat.eq_zero_or_pos (960 / unit) with h0 | hpos
  · rw [h0, Nat.zero_mul, Nat.zero_div]
    decide
  · have h1 : 960 / unit * n / d < 960 / unit := by
      apply Nat.div_lt_of_lt_mul
      rw [Nat.mul_comm d]
      exact Nat.mul_lt_mul_of_pos_left hdelta hpos
    exact Nat.lt_of_lt_of_le h1 (Nat.div_le_self _ _)

/-- When the end of the bar is below `2 ^ 32`, the tick of a beat of the bar
lies in the 960 ticks of that beat: nothing wraps around. -/
theorem playableTick_range {N C : Type} (bar : Bar N C) (sig : Signature) (beat : Nat)
    (delta : GoFloat) (t : Nat) (hsig : bar.signature = some sig) (hvalid : sig.beats ≤ 255)
    (hbeat : 1 ≤ beat ∧ beat ≤ sig.beats) (hdelta : delta.num < delta.den)
    (hfit : (bar.offset + 1) * sig.beats * 960 < 2 ^ 32)
    (h : playableTick bar beat delta = some t) :
    bar.offset * sig.beats * 960 + (beat - 1) * 960 ≤ t ∧
    t < bar.offset * sig.beats * 960 + beat * 960 := by
  have hb : 1 ≤ beat ∧ beat ≤ 255 := ⟨hbeat.1, Nat.le_trans hbeat.2 hvalid⟩
  have hv := (playableTick_eq bar sig beat delta t hsig hb h).2
  have hy := deltaTicks_lt sig.duration delta.num delta.den hdelta
  rw [← Nat.mul_assoc] at hv
  rw [Nat.add_mul, Nat.one_mul] at hfit
  generalize bar.offset * sig.beats = M at hv hfit ⊢
  generalize 960 / sig.duration * delta.num / delta.den = Y at hv hy
  omega

/-- A successful tail of `parsePlay` has appended what `parsePlayable`
returned. -/
theorem addParsed_playable {N C : Type} (bar bar1 : Bar N C)
    (r : Res (Option (Playable N C))) (q : Parser)
    (h : addParsed bar r = (bar1, Res.ok () q)) :
    ∃ e, r = Res.ok e q ∧ bar1 = bar.AddPlayable e := by
  cases r with
  | ok a p =>
    simp only [addParsed, Prod.mk.injEq, Res.ok.injEq, true_and] at h
    obtain ⟨h1, h2⟩ := h
    subst h2
    exact ⟨a, rfl, h1.symm⟩
  | err e => simp [addParsed] at h
  | panic => simp [addParsed] at h
  | timeout => simp [addParsed] at h

/-- A successful `parsePlay` has appended what one call of `parsePlayable`, for
the same beat and delta, returned. -/
theorem parsePlay_playable {N C : Type} (fuel : Nat) (env : Env N C) (bar bar1 : Bar N C)
    (beat : Nat) (delta : GoFloat) (p q : Parser)
    (h : parsePlay fuel env bar beat delta p = (bar1, Res.ok () q)) :
    ∃ d p1 e, parsePlayable fuel env bar d beat delta p1 = Res.ok e q ∧
      bar1 = bar.AddPlayable e := by
  unfold parsePlay at h
  simp only at h
  split at h
  · obtain ⟨e, he, hb⟩ := addParsed_playable _ _ _ _ h
    exact ⟨_, _, e, he, hb⟩
  · obtain ⟨e, he, hb⟩ := addParsed_playable _ _ _ _ h
    exact ⟨_, _, e, he, hb⟩
  · obtain ⟨e, he, hb⟩ := addParsed_playable _ _ _ _ h
    exact ⟨_, _, e, he, hb⟩
  · split at h
    · simp at h
    · split at h
      · obtain ⟨e, he, hb⟩ := addParsed_playable _ _ _ _ h
        exact ⟨_, _, e, he, hb⟩
      · simp at h
      · simp at h
      · simp at h
  · simp at h

/-- A successful `parseOn` has appended what one call of `parsePlayable`
returned, for a beat of the bar (`1 <= beat <= beatsPerBar`, converted to
`uint8`) and a delta in `[0,1)`. -/
theorem parseOn_playable {N C : Type} (fuel : Nat) (env : Env N C) (bar bar1 : Bar N C)
    (p q : Parser) (h : parseOn fuel env bar p = (bar1, Res.ok () q)) :
    ∃ sig n delta d p1 e, bar.signature = some sig ∧ n ≠ 0 ∧ n ≤ sig.beats ∧
      delta.num < delta.den ∧
      parsePlayable fuel env bar d (n % 2 ^ 8) delta p1 = Res.ok e q ∧
      bar1 = bar.AddPlayable e := by
  unfold parseOn at h
  simp only at h
  split at h
  · simp at h
  · split at h
    · simp at h
    · split at h
      · split at h
        · simp at h
        · split at h
          · simp at h
          · split at h
            · simp at h
            · split at h
              · simp at h
              · split at h
                · simp at h
                · rename_i hn _ sig hs hle _
                  obtain ⟨d, p1, e, he, hb⟩ := parsePlay_playable _ _ _ _ _ _ _ _ h
                  exact ⟨sig, _, _, d, p1, e, hs, hn, Nat.not_lt.mp hle, by decide, he, hb⟩
      · split at h
        · simp at h
        · split at h
          · simp at h
          · split at h
            · simp at h
            · split at h
              · simp at h
              · split at h
                · simp at h
                · rename_i f _ hn _ sig hs hle _
                  obtain ⟨d, p1, e, he, hb⟩ := parsePlay_playable _ _ _ _ _ _ _ _ h
                  have hden : f.den ≠ 0 := by
                    intro h0
                    apply hn
                    simp [Modf, h0]
                  refine ⟨sig, (Modf f).1 % 2 ^ 64, (Modf f).2, d, p1, e, hs, hn,
                    Nat.not_lt.mp hle, Nat.mod_lt _ (Nat.pos_of_ne_zero hden), ?_, hb⟩
                  rw [Nat.mod_mod_of_dvd _ (by decide)]
                  exact he

/-- The entry a successful `parseOn` appends to a bar whose end is below
`2 ^ 32`: an event of it has its tick inside the bar. -/
theorem parseOn_tick {N C : Type} (fuel : Nat) (env : Env N C) (bar bar1 : Bar N C)
    (sig : Signature) (p q : Parser) (hsig : bar.signature = some sig)
    (hvalid : sig.beats ≤ 255) (hfit : (bar.offset + 1) * sig.beats * 960 < 2 ^ 32)
    (h : parseOn fuel env bar p = (bar1, Res.ok () q)) :
    ∃ e, bar1 = bar.AddPlayable e ∧ ∀ x, e = some x →
      bar.offset * sig.beats * 960 ≤ x.tick ∧ x.tick < (bar.offset + 1) * sig.beats * 960 := by
  obtain ⟨sig1, n, delta, d, p1, e, hs, hn, hle, hdl, he, hb⟩ :=
    parseOn_playable fuel env bar bar1 p q h
  rw [hsig] at hs
  cases hs
  refine ⟨e, hb, ?_⟩
  intro x hx
  subst hx
  have hn8 : n % 2 ^ 8 = n := Nat.mod_eq_of_lt (by omega)
  rw [hn8] at he
  have ht := (parsePlayableLoop_tick env bar d n delta fuel none p1 q x
    (by intro y hy; cases hy) he).1
  have hr := playableTick_range bar sig n delta x.tick hsig hvalid
    ⟨Nat.pos_of_ne_zero hn, hle⟩ hdl hfit ht
  rw [Nat.add_mul, Nat.one_mul] at hfit ⊢
  generalize bar.offset * sig.beats = M at hr hfit ⊢
  omega

/-- The statement loop of a bar whose end is below `2 ^ 32` keeps every event
of the bar inside the bar's tick range. -/
theorem parseBarLoop_ticks {N C : Type} (env : Env N C) (sig : Signature) (off : Nat)
    (hvalid : sig.beats ≤ 255) (hfit : (off + 1) * sig.beats * 960 < 2 ^ 32)
    (fuel : Nat) (bar bar1 : Bar N C) (p q : Parser)
    (hsig : bar.signature = some sig) (hoff : bar.offset = off)
    (h0 : ∀ x, some x ∈ bar.playables →
      off * sig.beats * 960 ≤ x.tick ∧ x.tick < (off + 1) * sig.beats * 960)
    (h : parseBarLoop env fuel bar p = Res.ok bar1 q) :
    ∀ x, some x ∈ bar1.playables →
      off * sig.beats * 960 ≤ x.tick ∧ x.tick < (off + 1) * sig.beats * 960 := by
  induction fuel generalizing bar p with
  | zero => simp [parseBarLoop] at h
  | succ n ih =>
    rw [parseBarLoop] at h
    split_ifs at h with hc
    · simp only [Res.ok.injEq] at h
      obtain ⟨rfl, -⟩ := h
      exact h0
    · split at h
      · cases hb : parseBpm env p.scanIgnoreWhitespace.2 with
        | ok v q1 => rw [hb] at h; exact ih _ _ hsig hoff h0 h
        | err e => rw [hb] at h; simp [Res.bind] at h
        | panic => rw [hb] at h; simp [Res.bind] at h
        | timeout => rw [hb] at h; simp [Res.bind] at h
      · cases hb : parseTimeSignature p.scanIgnoreWhitespace.2 with
        | ok v q1 => rw [hb] at h; exact ih _ _ hsig hoff h0 h
        | err e => rw [hb] at h; simp [Res.bind] at h
        | panic => rw [hb] at h; simp [Res.bind] at h
        | timeout => rw [hb] at h; simp [Res.bind] at h
      · cases hb : parseText p.scanIgnoreWhitespace.2 with
        | ok v q1 =>
          rw [hb] at h
          simp only [Res.bind] at h
          refine ih _ _ ?_ ?_ ?_ h
          · exact hsig
          · exact hoff
          · exact h0
        | err e => rw [hb] at h; simp [Res.bind] at h
        | panic => rw [hb] at h; simp [Res.bind] at h
        | timeout => rw [hb] at h; simp [Res.bind] at h
      · rcases hpo : parseOn n env bar p.scanIgnoreWhitespace.2 with ⟨b2, r⟩
        rw [hpo] at h
        cases r with
        | ok u q1 =>
          simp only at h
          obtain ⟨e, he, hr⟩ := parseOn_tick n env bar b2 sig _ q1 hsig hvalid
            (by rw [hoff]; exact hfit) hpo
          rw [hoff] at hr
          refine ih _ _ ?_ ?_ ?_ h
          · rw [he]; exact hsig
          · rw [he]; exact hoff
          · intro x hx
            rw [he] at hx
            simp only [Bar.AddPlayable, List.mem_append, List.mem_singleton] at hx
            rcases hx with hx | hx
            · exact h0 x hx
            · exact hr x hx.symm
        | err e => simp at h
        | panic => simp at h
        | timeout => simp at h
      · simp at h

/-- The events of a bar that `parseBar` returns, when the end of the bar is
below `2 ^ 32`, have their ticks inside the bar's tick range. -/
theorem parseBar_ticks {N C : Type} (fuel : Nat) (env : Env N C) (track : Track N C)
    (sig : Signature) (bar1 : Bar N C) (p q : Parser)
    (hsig : track.signature = some sig) (hvalid : sig.beats ≤ 255)
    (hfit : (track.bars.length % 2 ^ 32 + 1) * sig.beats * 960 < 2 ^ 32)
    (h : parseBar fuel env track p = Res.ok bar1 q) :
    bar1.offset = track.bars.length % 2 ^ 32 ∧
    ∀ x, some x ∈ bar1.playables →
      bar1.offset * sig.beats * 960 ≤ x.tick ∧ x.tick < (bar1.offset + 1) * sig.beats * 960 := by
  unfold parseBar at h
  simp only at h
  split_ifs at h with hc
  have hoff := (parseBarLoop_frame env fuel _ bar1 _ q h).2.2
  refine ⟨hoff, ?_⟩
  rw [hoff]
  exact parseBarLoop_ticks env sig _ hvalid hfit fuel _ bar1 _ q hsig rfl
    (by intro x hx; simp [NewBar] at hx) h

/-- C21: for every bar with offset `barIndex` and signature `(beatsPerBar, unit)`
with `unit >= 1` (both `uint8`), provided `(barIndex + 1) * beatsPerBar * 960 <
2 ^ 32`: for every beat with `1 <= beat <= beatsPerBar` and every delta in
`[0,1)` the tick arithmetic of `parsePlayable` yields a tick, and it lies in the
bar's own range `barIndex * beatsPerBar * 960 <= tick < (barIndex + 1) *
beatsPerBar * 960`; so does the tick of every event `parsePlayable` returns,
of the entry a successful `parseOn` appends, and of every event the statement
loop of the bar adds; and the tick is strictly increasing in the beat, for
integer beats (delta 0) as for any two deltas in `[0,1)`. -/
theorem tick_within_bar {N C : Type} (bar : Bar N C) (sig : Signature)
    (hsig : bar.signature = some sig) (hunit : 1 ≤ sig.duration) (hvalid : sig.beats ≤ 255)
    (hfit : (bar.offset + 1) * sig.beats * 960 < 2 ^ 32) :
    (∀ (beat : Nat) (delta : GoFloat),
      1 ≤ beat → beat ≤ sig.beats → delta.num < delta.den →
      ∃ t, playableTick bar beat delta = some t ∧
        bar.offset * sig.beats * 960 ≤ t ∧ t < (bar.offset + 1) * sig.beats * 960) ∧
    (∀ (fuel : Nat) (env : Env N C) (d beat : Nat) (delta : GoFloat) (p q : Parser)
        (x : Playable N C),
      1 ≤ beat → beat ≤ sig.beats → delta.num < delta.den →
      parsePlayable fuel env bar d beat delta p = Res.ok (some x) q →
      bar.offset * sig.beats * 960 ≤ x.tick ∧ x.tick < (bar.offset + 1) * sig.beats * 960) ∧
    (∀ (fuel : Nat) (env : Env N C) (p q : Parser) (bar1 : Bar N C),
      parseOn fuel env bar p = (bar1, Res.ok () q) →
      ∃ e, bar1 = bar.AddPlayable e ∧ ∀ x, e = some x →
        bar.offset * sig.beats * 960 ≤ x.tick ∧
          x.tick < (bar.offset + 1) * sig.beats * 960) ∧
    (∀ (fuel : Nat) (env : Env N C) (p q : Parser) (bar1 : Bar N C),
      parseBarLoop env fuel bar p = Res.ok bar1 q →
      (∀ x, some x ∈ bar.playables →
        bar.offset * sig.beats * 960 ≤ x.tick ∧
          x.tick < (bar.offset + 1) * sig.beats * 960) →
      ∀ x, some x ∈ bar1.playables →
        bar.offset * sig.beats * 960 ≤ x.tick ∧
          x.tick < (bar.offset + 1) * sig.beats * 960) ∧
    (∀ (beat beat2 : Nat) (t t2 : Nat),
      1 ≤ beat → beat < beat2 → beat2 ≤ sig.beats →
      playableTick bar beat ⟨0, 1⟩ = some t → playableTick bar beat2 ⟨0, 1⟩ = some t2 →
      t = bar.offset * sig.beats * 960 + (beat - 1) * 960 ∧ t < t2) ∧
    (∀ (beat beat2 : Nat) (delta delta2 : GoFloat) (t t2 : Nat),
      1 ≤ beat → beat < beat2 → beat2 ≤ sig.beats →
      delta.num < delta.den → delta2.num < delta2.den →
      playableTick bar beat delta = some t → playableTick bar beat2 delta2 = some t2 →
      t < t2) := by
  have hfit1 : bar.offset * sig.beats * 960 + sig.beats * 960 < 2 ^ 32 := by
    rw [Nat.add_mul, Nat.one_mul, Nat.add_mul] at hfit
    exact hfit
  have hrange : ∀ (beat : Nat) (delta : GoFloat) (t : Nat),
      1 ≤ beat → beat ≤ sig.beats → delta.num < delta.den →
      playableTick bar beat delta = some t →
      bar.offset * sig.beats * 960 ≤ t ∧ t < (bar.offset + 1) * sig.beats * 960 := by
    intro beat delta t h1 h2 hd ht
    have hr := playableTick_range bar sig beat delta t hsig hvalid ⟨h1, h2⟩ hd hfit ht
    rw [Nat.add_mul, Nat.one_mul, Nat.add_mul]
    generalize bar.offset * sig.beats * 960 = M at hr hfit1 ⊢
    omega
  refine ⟨?_, ?_, ?_, ?_, ?_, ?_⟩
  · intro beat delta h1 h2 hd
    obtain ⟨t, ht⟩ := playableTick_some bar sig beat delta hsig hunit
    exact ⟨t, ht, hrange beat delta t h1 h2 hd ht⟩
  · intro fuel env d beat delta p q x h1 h2 hd h
    have ht := (parsePlayableLoop_tick env bar d beat delta fuel none p q x
      (by intro y hy; cases hy) h).1
    exact hrange beat delta x.tick h1 h2 hd ht
  · intro fuel env p q bar1 h
    exact parseOn_tick fuel env bar bar1 sig p q hsig hvalid hfit h
  · intro fuel env p q bar1 h h0
    exact parseBarLoop_ticks env sig bar.offset hvalid hfit fuel bar bar1 p q hsig rfl h0 h
  · intro beat beat2 t t2 h1 h12 h2 ht ht2
    have hr := playableTick_range bar sig beat ⟨0, 1⟩ t hsig hvalid
      ⟨h1, by omega⟩ (by decide) hfit ht
    have hr2 := playableTick_range bar sig beat2 ⟨0, 1⟩ t2 hsig hvalid
      ⟨by omega, h2⟩ (by decide) hfit ht2
    have hv := (playableTick_eq bar sig beat ⟨0, 1⟩ t hsig ⟨h1, by omega⟩ ht).2
    rw [← Nat.mul_assoc] at hv
    simp only [Nat.mul_zero, Nat.zero_div, Nat.add_zero] at hv
    generalize bar.offset * sig.beats * 960 = M at hr hr2 hv hfit1 ⊢
    omega
  · intro beat beat2 delta delta2 t t2 h1 h12 h2 hd hd2 ht ht2
    have hr := playableTick_range bar sig beat delta t hsig hvalid
      ⟨h1, by omega⟩ hd hfit ht
    have hr2 := playableTick_range bar sig beat2 delta2 t2 hsig hvalid
      ⟨by omega, h2⟩ hd2 hfit ht2
    generalize bar.offset * sig.beats * 960 = M at hr hr2
    omega

/-- Witness of C21: in a 4/4 bar at offset 0 the note of `NOTE A4 ;` on beat 3
with delta 1/2 gets tick 2040, inside the bar's range from 0 to 3840. -/
theorem tick_within_bar_witness :
    parsePlayable 3 demoEnv bar44 8 3 ⟨1, 2⟩ (NewParser noteStmt) =
      Res.ok (some ⟨Sound.note "A4", 2040, 8, 64⟩)
        { s := [], bufTok := Tok.SEMICOLON, bufLit := ";", bufN := 0 } ∧
    bar44.offset * 4 * 960 ≤ 2040 ∧ 2040 < (bar44.offset + 1) * 4 * 960 :=
  ⟨rfl,
    (tick_within_bar bar44 ⟨4, 4⟩ rfl (by decide) (by decide) (by decide)).2.1
      3 demoEnv 8 3 ⟨1, 2⟩ (NewParser noteStmt)
      { s := [], bufTok := Tok.SEMICOLON, bufLit := ";", bufN := 0 }
      ⟨Sound.note "A4", 2040, 8, 64⟩ (by decide) (by decide) (by decide) rfl⟩

/-! ## One entry for an on-statement with two events -/

/-- C4 (amended): for every on-statement, and so for one that declares two
pitch events back-to-back before the terminating `;`, a successful parse
appends exactly one entry to the bar, not one per event: the entry is what a
single call of `parsePlayable` returned for the whole statement, and
`parsePlay` appends it once. When the entry is an event, it carries the tick
computed for the beat and delta of that call and the duration code passed to
it. -/
theorem parseOn_appends_one_entry {N C : Type} (fuel : Nat) (env : Env N C)
    (bar bar1 : Bar N C) (p q : Parser)
    (h : parseOn fuel env bar p = (bar1, Res.ok () q)) :
    ∃ d beat delta p1 e,
      parsePlayable fuel env bar d beat delta p1 = Res.ok e q ∧
      bar1 = bar.AddPlayable e ∧
      bar1.playables = bar.playables ++ [e] ∧
      bar1.playables.length = bar.playables.length + 1 ∧
      ∀ x, e = some x → playableTick bar beat delta = some x.tick ∧ x.duration = d := by
  obtain ⟨sig, n, delta, d, p1, e, -, -, -, -, he, hb⟩ :=
    parseOn_playable fuel env bar bar1 p q h
  refine ⟨d, n % 2 ^ 8, delta, p1, e, he, hb, ?_, ?_, ?_⟩
  · rw [hb]
    rfl
  · rw [hb]
    simp [Bar.AddPlayable]
  · intro x hx
    subst hx
    exact parsePlayableLoop_tick env bar d (n % 2 ^ 8) delta fuel none p1 q x
      (by intro y hy; cases hy) he

/-- Witness of C4: `ON BEAT 1 PLAY QUARTER NOTE A4 NOTE C4 ;` in a 4/4 bar at
offset 0 parses and leaves one entry in the bar, with tick 0 and duration
code 4. -/
theorem parseOn_appends_one_entry_witness :
    ∃ d beat delta p1 e,
      parsePlayable 10 demoEnv bar44 d beat delta p1 =
        Res.ok e { s := [], bufTok := Tok.SEMICOLON, bufLit := ";", bufN := 0 } ∧
      ({ bar44 with playables := [some ⟨Sound.note "A4", 0, 4, 64⟩] } : Bar String (List String)) =
        bar44.AddPlayable e ∧
      ({ bar44 with playables := [some ⟨Sound.note "A4", 0, 4, 64⟩] } :
        Bar String (List String)).playables = bar44.playables ++ [e] ∧
      ({ bar44 with playables := [some ⟨Sound.note "A4", 0, 4, 64⟩] } :
        Bar String (List String)).playables.length = bar44.playables.length + 1 ∧
      ∀ x, e = some x → playableTick bar44 beat delta = some x.tick ∧ x.duration = d :=
  parseOn_appends_one_entry 10 demoEnv bar44
    { bar44 with playables := [some ⟨Sound.note "A4", 0, 4, 64⟩] }
    (NewParser twoNotesStmt)
    { s := [], bufTok := Tok.SEMICOLON, bufLit := ";", bufN := 0 } rfl

/-! ## Statements that leave the instrument alone -/

/-- `scan` returns no `INSTRUMENT` when none is left, and none is left after
it. -/
theorem scan_noInstrument (p : Parser) (hp : p.noInstrument) :
    p.scan.1.tok ≠ Tok.INSTRUMENT ∧ p.scan.2.noInstrument := by
  obtain ⟨l, bt, bl, n⟩ := p
  obtain ⟨hb, hl⟩ := hp
  simp only at hb hl
  unfold Parser.scan
  by_cases hn : n = 0
  · cases l with
    | nil =>
      simp only [hn, ne_eq, not_true_eq_false, if_false, Scan]
      exact ⟨by decide, by decide, by intro t ht; cases ht⟩
    | cons t ts =>
      simp only [hn, ne_eq, not_true_eq_false, if_false, Scan]
      exact ⟨hl t (List.mem_cons_self _ _), hl t (List.mem_cons_self _ _),
        fun u hu => hl u (List.mem_cons_of_mem _ hu)⟩
  · simp only [hn, ne_eq, not_false_eq_true, if_true]
    exact ⟨hb, hb, hl⟩

theorem scanLoop_noInstrument (k : Nat) (p : Parser) (hp : p.noInstrument) :
    (scanIgnoreWhitespaceLoop k p).1.tok ≠ Tok.INSTRUMENT ∧
    (scanIgnoreWhitespaceLoop k p).2.noInstrument := by
  induction k generalizing p with
  | zero => exact scan_noInstrument p hp
  | succ k ih =>
    unfold scanIgnoreWhitespaceLoop
    by_cases h : p.scan.1.tok = Tok.WHITESPACE ∨ p.scan.1.tok = Tok.COMMENT
    · simp only [h, if_true]
      exact ih _ (scan_noInstrument p hp).2
    · simp only [h, if_false]
      exact scan_noInstrument p hp

/-- `scanIgnoreWhitespace` returns no `INSTRUMENT` when none is left. -/
theorem scanIgnoreWhitespace_noInstrument_tok (p : Parser) (hp : p.noInstrument) :
    p.scanIgnoreWhitespace.1.tok ≠ Tok.INSTRUMENT :=
  (scanLoop_noInstrument _ p hp).1

/-- No `INSTRUMENT` is left after `scanIgnoreWhitespace` when none was left
before. -/
theorem scanIgnoreWhitespace_noInstrument (p : Parser) (hp : p.noInstrument) :
    p.scanIgnoreWhitespace.2.noInstrument :=
  (scanLoop_noInstrument _ p hp).2

theorem parseBpm_noInstrument {N C : Type} (env : Env N C) (p q : Parser) (v : GoFloat)
    (hp : p.noInstrument) (h : parseBpm env p = Res.ok v q) : q.noInstrument := by
  have h1 := scanIgnoreWhitespace_noInstrument p hp
  have h2 := scanIgnoreWhitespace_noInstrument _ h1
  unfold parseBpm at h
  simp only at h
  repeat' split at h
  all_goals first
    | (simp only [Res.ok.injEq] at h
       obtain ⟨-, rfl⟩ := h
       exact h2)
    | (simp at h)

theorem parseTimeSignature_noInstrument (p q : Parser) (v : Signature)
    (hp : p.noInstrument) (h : parseTimeSignature p = Res.ok v q) : q.noInstrument := by
  have h1 := scanIgnoreWhitespace_noInstrument p hp
  have h2 := scanIgnoreWhitespace_noInstrument _ h1
  have h3 := scanIgnoreWhitespace_noInstrument _ h2
  unfold parseTimeSignature at h
  simp only at h
  repeat' split at h
  all_goals first
    | (simp only [Res.ok.injEq] at h
       obtain ⟨-, rfl⟩ := h
       exact h3)
    | (simp at h)

theorem parseChord_noInstrument {N C : Type} (env : Env N C) (p q : Parser) (v : Playable N C)
    (hp : p.noInstrument) (h : parseChord env p = Res.ok v q) : q.noInstrument := by
  have h1 := scanIgnoreWhitespace_noInstrument p hp
  unfold parseChord at h
  simp only at h
  repeat' split at h
  all_goals first
    | (simp only [Res.ok.injEq] at h
       obtain ⟨-, rfl⟩ := h
       exact h1)
    | (simp at h)

theorem parseNote_noInstrument {N C : Type} (env : Env N C) (p q : Parser) (v : Playable N C)
    (hp : p.noInstrument) (h : parseNote env p = Res.ok v q) : q.noInstrument := by
  have h1 := scanIgnoreWhitespace_noInstrument p hp
  unfold parseNote at h
  simp only at h
  repeat' split at h
  all_goals first
    | (simp only [Res.ok.injEq] at h
       obtain ⟨-, rfl⟩ := h
       exact h1)
    | (simp at h)

theorem parseCopyright_noInstrument (p q : Parser) (v : String)
    (hp : p.noInstrument) (h : parseCopyright p = Res.ok v q) : q.noInstrument := by
  have h1 := scanIgnoreWhitespace_noInstrument p hp
  have h2 := scanIgnoreWhitespace_noInstrument _ h1
  unfold parseCopyright at h
  simp only at h
  repeat' split at h
  all_goals first
    | (simp only [Res.ok.injEq] at h
       obtain ⟨-, rfl⟩ := h
       exact h2)
    | (simp at h)

theorem parseText_noInstrument (p q : Parser) (v : String)
    (hp : p.noInstrument) (h : parseText p = Res.ok v q) : q.noInstrument := by
  have h1 := scanIgnoreWhitespace_noInstrument p hp
  have h2 := scanIgnoreWhitespace_noInstrument _ h1
  unfold parseText at h
  simp only at h
  repeat' split at h
  all_goals first
    | (simp only [Res.ok.injEq] at h
       obtain ⟨-, rfl⟩ := h
       exact h2)
    | (simp at h)

theorem expectSuffix_noInstrument (want : Tok) (p q : Parser)
    (hp : p.noInstrument) (h : expectSuffix want p = Res.ok () q) : q.noInstrument := by
  have h1 := scanIgnoreWhitespace_noInstrument p hp
  unfold expectSuffix at h
  simp only at h
  repeat' split at h
  all_goals first
    | (simp only [Res.ok.injEq] at h
       obtain ⟨-, rfl⟩ := h
       exact h1)
    | (simp at h)

theorem parseVelocityLoop_noInstrument {N C : Type} (fuel : Nat) (x x1 : Playable N C)
    (p q : Parser) (hp : p.noInstrument) (h : parseVelocityLoop fuel x p = Res.ok x1 q) :
    q.noInstrument := by
  induction fuel generalizing x p with
  | zero => simp [parseVelocityLoop] at h
  | succ n ih =>
    have h1 := scanIgnoreWhitespace_noInstrument p hp
    have h2 := scanIgnoreWhitespace_noInstrument _ h1
    rw [parseVelocityLoop] at h
    simp only at h
    split_ifs at h with c1 c2 c3
    · simp only [Res.ok.injEq] at h
      obtain ⟨-, rfl⟩ := h
      exact h1
    · split at h
      · simp at h
      · exact ih _ _ h2 h
    · exact ih _ _ h1 h

theorem parsePlayableLoop_noInstrument {N C : Type} (env : Env N C) (bar : Bar N C)
    (duration beat : Nat) (delta : GoFloat) (fuel : Nat) (x0 x : Option (Playable N C))
    (p q : Parser) (hp : p.noInstrument)
    (h : parsePlayableLoop env bar duration beat delta fuel x0 p = Res.ok x q) :
    q.noInstrument := by
  induction fuel generalizing x0 p with
  | zero => simp [parsePlayableLoop] at h
  | succ n ih =>
    have h1 := scanIgnoreWhitespace_noInstrument p hp
    rw [parsePlayableLoop] at h
    simp only at h
    split_ifs at h with c1
    · simp only [Res.ok.injEq] at h
      obtain ⟨-, rfl⟩ := h
      exact h1
    · have key : ∀ (y : Playable N C) (p1 : Parser), p1.noInstrument →
          (match playableTick bar beat delta with
            | none => Res.panic
            | some tick =>
              (parseVelocityLoop n (y.SetTick tick) p1).bind fun x2 p2 =>
                parsePlayableLoop env bar duration beat delta n (some x2) p2) = Res.ok x q →
          q.noInstrument := by
        intro y p1 hp1 hk
        cases ht : playableTick bar beat delta with
        | none => simp [ht] at hk
        | some tick =>
          simp only [ht] at hk
          cases hv : parseVelocityLoop n (y.SetTick tick) p1 with
          | ok x2 p2 =>
            rw [hv] at hk
            exact ih _ _ (parseVelocityLoop_noInstrument n _ x2 p1 p2 hp1 hv) hk
          | err e => rw [hv] at hk; simp [Res.bind] at hk
          | panic => rw [hv] at hk; simp [Res.bind] at hk
          | timeout => rw [hv] at hk; simp [Res.bind] at hk
      split at h
      · cases hc : parseChord env p.scanIgnoreWhitespace.2 with
        | ok v p1 =>
          rw [hc] at h
          exact key _ p1 (parseChord_noInstrument env _ p1 v h1 hc) h
        | err e => rw [hc] at h; simp [Res.bind] at h
        | panic => rw [hc] at h; simp [Res.bind] at h
        | timeout => rw [hc] at h; simp [Res.bind] at h
      · cases hc : parseNote env p.scanIgnoreWhitespace.2 with
        | ok v p1 =>
          rw [hc] at h
          exact key _ p1 (parseNote_noInstrument env _ p1 v h1 hc) h
        | err e => rw [hc] at h; simp [Res.bind] at h
        | panic => rw [hc] at h; simp [Res.bind] at h
        | timeout => rw [hc] at h; simp [Res.bind] at h
      · split at h
        · simp at h
        · exact key _ _ h1 h
      · split at h
        · simp at h
        · exact key _ _ h1 h
      · split at h
        · simp at h
        · exact key _ _ h1 h
      · simp at h

theorem parsePlay_noInstrument {N C : Type} (fuel : Nat) (env : Env N C) (bar bar1 : Bar N C)
    (beat : Nat) (delta : GoFloat) (p q : Parser) (hp : p.noInstrument)
    (h : parsePlay fuel env bar beat delta p = (bar1, Res.ok () q)) : q.noInstrument := by
  have h1 := scanIgnoreWhitespace_noInstrument p hp
  have key : ∀ (d : Nat) (p1 : Parser), p1.noInstrument →
      addParsed bar (parsePlayable fuel env bar d beat delta p1) = (bar1, Res.ok () q) →
      q.noInstrument := by
    intro d p1 hp1 hk
    obtain ⟨e, he, -⟩ := addParsed_playable _ _ _ _ hk
    exact parsePlayableLoop_noInstrument env bar d beat delta fuel none e p1 q hp1 he
  unfold parsePlay at h
  simp only at h
  split at h
  · exact key _ _ h1 h
  · exact key _ _ h1 h
  · exact key _ _ h1 h
  · split at h
    · simp at h
    · split at h
      · rename_i hs
        refine key _ _ ?_ h
        split_ifs at hs <;> exact expectSuffix_noInstrument _ _ _ h1 hs
      · simp at h
      · simp at h
      · simp at h
  · simp at h

theorem parseOn_noInstrument {N C : Type} (fuel : Nat) (env : Env N C) (bar bar1 : Bar N C)
    (p q : Parser) (hp : p.noInstrument)
    (h : parseOn fuel env bar p = (bar1, Res.ok () q)) : q.noInstrument := by
  have h1 := scanIgnoreWhitespace_noInstrument p hp
  have h2 := scanIgnoreWhitespace_noInstrument _ h1
  have h3 := scanIgnoreWhitespace_noInstrument _ h2
  unfold parseOn at h
  simp only at h
  split at h
  · simp at h
  · split at h
    · simp at h
    · split at h
      · split at h
        · simp at h
        · split at h
          · simp at h
          · split at h
            · simp at h
            · split at h
              · simp at h
              · split at h
                · simp at h
                · exact parsePlay_noInstrument _ _ _ _ _ _ _ _ h3 h
      · split at h
        · simp at h
        · split at h
          · simp at h
          · split at h
            · simp at h
            · split at h
              · simp at h
              · split at h
                · simp at h
                · exact parsePlay_noInstrument _ _ _ _ _ _ _ _ h3 h

theorem parseBarLoop_noInstrument {N C : Type} (env : Env N C) (fuel : Nat)
    (bar bar1 : Bar N C) (p q : Parser) (hp : p.noInstrument)
    (h : parseBarLoop env fuel bar p = Res.ok bar1 q) : q.noInstrument := by
  induction fuel generalizing bar p with
  | zero => simp [parseBarLoop] at h
  | succ n ih =>
    have h1 := scanIgnoreWhitespace_noInstrument p hp
    rw [parseBarLoop] at h
    split_ifs at h with hc
    · simp only [Res.ok.injEq] at h
      obtain ⟨-, rfl⟩ := h
      exact h1
    · split at h
      · cases hb : parseBpm env p.scanIgnoreWhitespace.2 with
        | ok v q1 =>
          rw [hb] at h
          exact ih _ _ (parseBpm_noInstrument env _ q1 v h1 hb) h
        | err e => rw [hb] at h; simp [Res.bind] at h
        | panic => rw [hb] at h; simp [Res.bind] at h
        | timeout => rw [hb] at h; simp [Res.bind] at h
      · cases hb : parseTimeSignature p.scanIgnoreWhitespace.2 with
        | ok v q1 =>
          rw [hb] at h
          exact ih _ _ (parseTimeSignature_noInstrument _ q1 v h1 hb) h
        | err e => rw [hb] at h; simp [Res.bind] at h
        | panic => rw [hb] at h; simp [Res.bind] at h
        | timeout => rw [hb] at h; simp [Res.bind] at h
      · cases hb : parseText p.scanIgnoreWhitespace.2 with
        | ok v q1 =>
          rw [hb] at h
          exact ih _ _ (parseText_noInstrument _ q1 v h1 hb) h
        | err e => rw [hb] at h; simp [Res.bind] at h
        | panic => rw [hb] at h; simp [Res.bind] at h
        | timeout => rw [hb] at h; simp [Res.bind] at h
      · rcases hpo : parseOn n env bar p.scanIgnoreWhitespace.2 with ⟨b2, r⟩
        rw [hpo] at h
        cases r with
        | ok u q1 =>
          simp only at h
          exact ih _ _ (parseOn_noInstrument n env bar b2 _ q1 h1 hpo) h
        | err e => simp at h
        | panic => simp at h
        | timeout => simp at h
      · simp at h

theorem parseBar_noInstrument {N C : Type} (fuel : Nat) (env : Env N C) (track : Track N C)
    (bar1 : Bar N C) (p q : Parser) (hp : p.noInstrument)
    (h : parseBar fuel env track p = Res.ok bar1 q) : q.noInstrument := by
  have h1 := scanIgnoreWhitespace_noInstrument p hp
  unfold parseBar at h
  simp only at h
  split_ifs at h with hc
  exact parseBarLoop_noInstrument env fuel _ bar1 _ q h1 h

/-- The statement loop of a track keeps the track's instrument when no
`INSTRUMENT` keyword is left to read. -/
theorem parseTrackLoop_keeps_instrument {N C : Type} (env : Env N C) (fuel : Nat)
    (track track1 : Track N C) (p q : Parser) (hp : p.noInstrument)
    (h : parseTrackLoop env fuel track p = Res.ok track1 q) :
    track1.instrument = track.instrument := by
  induction fuel generalizing track p with
  | zero => simp [parseTrackLoop] at h
  | succ n ih =>
    have h1 := scanIgnoreWhitespace_noInstrument p hp
    have ht := scanIgnoreWhitespace_noInstrument_tok p hp
    rw [parseTrackLoop] at h
    split_ifs at h with hc
    · simp only [Res.ok.injEq] at h
      obtain ⟨rfl, -⟩ := h
      rfl
    · split at h
      · cases hb : parseBpm env p.scanIgnoreWhitespace.2 with
        | ok v q1 =>
          rw [hb] at h
          exact ih _ _ (parseBpm_noInstrument env _ q1 v h1 hb) h
        | err e => rw [hb] at h; simp [Res.bind] at h
        | panic => rw [hb] at h; simp [Res.bind] at h
        | timeout => rw [hb] at h; simp [Res.bind] at h
      · cases hb : parseTimeSignature p.scanIgnoreWhitespace.2 with
        | ok v q1 =>
          rw [hb] at h
          exact ih _ _ (parseTimeSignature_noInstrument _ q1 v h1 hb) h
        | err e => rw [hb] at h; simp [Res.bind] at h
        | panic => rw [hb] at h; simp [Res.bind] at h
        | timeout => rw [hb] at h; simp [Res.bind] at h
      · cases hb : parseBar n env track p.scanIgnoreWhitespace.2 with
        | ok v q1 =>
          rw [hb] at h
          simp only [Res.bind] at h
          have := ih _ _ (parseBar_noInstrument n env track v _ q1 h1 hb) h
          simpa [Track.AddBar] using this
        | err e => rw [hb] at h; simp [Res.bind] at h
        | panic => rw [hb] at h; simp [Res.bind] at h
        | timeout => rw [hb] at h; simp [Res.bind] at h
      · cases hb : parseCopyright p.scanIgnoreWhitespace.2 with
        | ok v q1 =>
          rw [hb] at h
          simp only [Res.bind] at h
          have := ih _ _ (parseCopyright_noInstrument _ q1 v h1 hb) h
          simpa using this
        | err e => rw [hb] at h; simp [Res.bind] at h
        | panic => rw [hb] at h; simp [Res.bind] at h
        | timeout => rw [hb] at h; simp [Res.bind] at h
      · rename_i hk
        exact absurd hk ht
      · cases hb : parseText p.scanIgnoreWhitespace.2 with
        | ok v q1 =>
          rw [hb] at h
          simp only [Res.bind] at h
          have := ih _ _ (parseText_noInstrument _ q1 v h1 hb) h
          simpa using this
        | err e => rw [hb] at h; simp [Res.bind] at h
        | panic => rw [hb] at h; simp [Res.bind] at h
        | timeout => rw [hb] at h; simp [Res.bind] at h
      · simp at h

/-! ## Instruments -/

/-- C8: for every instrument statement `INSTRUMENT name ;` in a track, with
name an identifier or string token: if the lookup of name in the instrument
table fails, `parseInstrument` and with it the statement loop of the track
fail with the unknown-instrument error for name; if the lookup succeeds the
statement succeeds and the track's instrument is set to name: the loop goes on
with the track whose instrument is name, it returns that track (nothing else
changed) when the block ends after the statement, and whatever statements
follow, as long as no other `INSTRUMENT` keyword is left among the tokens,
the track the loop returns has name as its instrument. -/
theorem instrument_statement {N C : Type} (fuel : Nat) (env : Env N C) (track : Track N C)
    (p : Parser) (name : String)
    (hk : p.scanIgnoreWhitespace.1.tok = Tok.INSTRUMENT)
    (hn : p.scanIgnoreWhitespace.2.scanIgnoreWhitespace.1.tok = Tok.IDENTIFIER ∨
      p.scanIgnoreWhitespace.2.scanIgnoreWhitespace.1.tok = Tok.STRING)
    (hname : p.scanIgnoreWhitespace.2.scanIgnoreWhitespace.1.lit = name)
    (hs : p.scanIgnoreWhitespace.2.scanIgnoreWhitespace.2.scanIgnoreWhitespace.1.tok
      = Tok.SEMICOLON) :
    (env.instrumentToPC name = none →
      parseInstrument env p.scanIgnoreWhitespace.2 = Res.err (ParseError.unknownInstrument name) ∧
      parseTrackLoop env (fuel + 1) track p = Res.err (ParseError.unknownInstrument name)) ∧
    (∀ pc, env.instrumentToPC name = some pc →
      parseInstrument env p.scanIgnoreWhitespace.2 =
        Res.ok name p.scanIgnoreWhitespace.2.scanIgnoreWhitespace.2.scanIgnoreWhitespace.2 ∧
      parseTrackLoop env (fuel + 1) track p =
        parseTrackLoop env fuel { track with instrument := some name }
          p.scanIgnoreWhitespace.2.scanIgnoreWhitespace.2.scanIgnoreWhitespace.2 ∧
      (p.scanIgnoreWhitespace.2.scanIgnoreWhitespace.2.scanIgnoreWhitespace.2.scanIgnoreWhitespace.1.tok
          = Tok.BRACKET_CLOSE →
        parseTrackLoop env (fuel + 2) track p =
          Res.ok { track with instrument := some name }
            p.scanIgnoreWhitespace.2.scanIgnoreWhitespace.2.scanIgnoreWhitespace.2.scanIgnoreWhitespace.2) ∧
      (∀ (track1 : Track N C) (q : Parser),
        (∀ t ∈ p.scanIgnoreWhitespace.2.scanIgnoreWhitespace.2.scanIgnoreWhitespace.2.s,
          t.tok ≠ Tok.INSTRUMENT) →
        parseTrackLoop env (fuel + 1) track p = Res.ok track1 q →
        track1.instrument = some name ∧ track1.bpm = track.bpm ∧
          track1.signature = track.signature)) := by
  have hnn : ¬ (p.scanIgnoreWhitespace.2.scanIgnoreWhitespace.1.tok ≠ Tok.IDENTIFIER ∧
      p.scanIgnoreWhitespace.2.scanIgnoreWhitespace.1.tok ≠ Tok.STRING) := by
    rcases hn with h | h <;> simp [h]
  constructor
  · intro hnone
    have hi : parseInstrument env p.scanIgnoreWhitespace.2
        = Res.err (ParseError.unknownInstrument name) := by
      unfold parseInstrument
      simp only [hnn, hs, hname, hnone, ne_eq, not_true_eq_false, if_false]
    refine ⟨hi, ?_⟩
    rw [parseTrackLoop]
    simp [hk, hi, Res.bind]
  · intro pc hsome
    have hi : parseInstrument env p.scanIgnoreWhitespace.2 =
        Res.ok name p.scanIgnoreWhitespace.2.scanIgnoreWhitespace.2.scanIgnoreWhitespace.2 := by
      unfold parseInstrument
      simp only [hnn, hs, hname, hsome, ne_eq, not_true_eq_false, if_false]
    have hstep : ∀ k, parseTrackLoop env (k + 1) track p =
        parseTrackLoop env k { track with instrument := some name }
          p.scanIgnoreWhitespace.2.scanIgnoreWhitespace.2.scanIgnoreWhitespace.2 := by
      intro k
      rw [parseTrackLoop]
      simp [hk, hi, Res.bind]
    refine ⟨hi, hstep fuel, ?_, ?_⟩
    · intro hclose
      rw [hstep (fuel + 1), parseTrackLoop]
      simp [hclose]
    · intro track1 q hfree h
      rw [hstep fuel] at h
      have hb := (scanIgnoreWhitespace_buf
        p.scanIgnoreWhitespace.2.scanIgnoreWhitespace.2).2.1
      have hp3 : Parser.noInstrument
          p.scanIgnoreWhitespace.2.scanIgnoreWhitespace.2.scanIgnoreWhitespace.2 := by
        refine ⟨?_, hfree⟩
        rw [hb, hs]
        decide
      have hkeep := parseTrackLoop_keeps_instrument env fuel _ track1 _ q hp3 h
      have hframe := parseTrackLoop_frame env fuel _ track1 _ q h
      exact ⟨hkeep, hframe.1, hframe.2.1⟩


/-- Witness of C8: `INSTRUMENT "not-a-real-instrument" ;` fails with the
unknown-instrument error; `INSTRUMENT piano ; \x7d` returns the track with
`piano` as its instrument; and so does `INSTRUMENT piano ; TEXT "solo" ; BAR
\x7b \x7d \x7d`, whose track has the text and the bar as well. -/
theorem instrument_statement_witness :
    parseTrackLoop demoEnv 1 (NewTrack String (List String)) (NewParser unknownInstrumentStmt) =
      Res.err (ParseError.unknownInstrument "not-a-real-instrument") ∧
    parseTrackLoop demoEnv 2 (NewTrack String (List String)) (NewParser pianoStmt) =
      Res.ok { NewTrack String (List String) with instrument := some "piano" }
        { s := [], bufTok := Tok.BRACKET_CLOSE, bufLit := "\x7d", bufN := 0 } ∧
    parseTrackLoop demoEnv 4 (NewTrack String (List String)) (NewParser pianoThenBar) =
      Res.ok
        ({ NewTrack String (List String) with
            instrument := some "piano", texts := ["solo"],
            bars := [NewBar String (List String) 0] })
        { s := [], bufTok := Tok.BRACKET_CLOSE, bufLit := "\x7d", bufN := 0 } ∧
    ({ NewTrack String (List String) with
        instrument := some "piano", texts := ["solo"],
        bars := [NewBar String (List String) 0] } : Track String (List String)).instrument =
      some "piano" :=
  ⟨((instrument_statement 0 demoEnv (NewTrack String (List String))
      (NewParser unknownInstrumentStmt) "not-a-real-instrument" rfl (Or.inr rfl) rfl rfl).1 rfl).2,
   ((instrument_statement 0 demoEnv (NewTrack String (List String))
      (NewParser pianoStmt) "piano" rfl (Or.inl rfl) rfl rfl).2 0 rfl).2.2.1 rfl,
   rfl,
   (((instrument_statement 3 demoEnv (NewTrack String (List String))
      (NewParser pianoThenBar) "piano" rfl (Or.inl rfl) rfl rfl).2 0 rfl).2.2.2
      ({ NewTrack String (List String) with
          instrument := some "piano", texts := ["solo"],
          bars := [NewBar String (List String) 0] })
      { s := [], bufTok := Tok.BRACKET_CLOSE, bufLit := "\x7d", bufN := 0 }
      (by decide) rfl).1⟩

/-! ## The delta `parseOn` passes -/

/-- The fractional part that `math.Modf` returns for a value a `float32` holds
is a fraction a `float32` holds. -/
theorem Modf_float32 (f : GoFloat) (hf : float32Value f) : float32Fraction (Modf f).2 := by
  obtain ⟨hd, m, k, hm, hk | hk⟩ := hf
  · obtain ⟨hk149, he⟩ := hk
    refine ⟨hd, m - f.num / f.den * 2 ^ k, k, by omega, hk149, ?_⟩
    show f.num % f.den * 2 ^ k = (m - f.num / f.den * 2 ^ k) * f.den
    have h1 : f.num % f.den * 2 ^ k + f.num / f.den * 2 ^ k * f.den = m * f.den := by
      rw [← he]
      conv_rhs => rw [← Nat.div_add_mod f.num f.den]
      ring
    rw [Nat.sub_mul]
    omega
  · refine ⟨hd, 0, 0, by decide, by decide, ?_⟩
    show f.num % f.den * 2 ^ 0 = 0 * f.den
    rw [hk, Nat.mul_mod_left]
    simp

/-- A successful `parseOn`, when `ParseFloat(lit, 32)` returns values a
`float32` holds, has appended what one call of `parsePlayable` returned for a
beat of the bar and a delta in `[0,1)` that a `float32` holds. -/
theorem parseOn_passes_float32 {N C : Type} (fuel : Nat) (env : Env N C)
    (bar bar1 : Bar N C) (p q : Parser)
    (henv : ∀ lit f, env.parseFloat lit 32 = some f → float32Value f)
    (h : parseOn fuel env bar p = (bar1, Res.ok () q)) :
    ∃ sig n delta d p1 e, bar.signature = some sig ∧ n ≠ 0 ∧ n ≤ sig.beats ∧
      delta.num < delta.den ∧ float32Fraction delta ∧
      parsePlayable fuel env bar d (n % 2 ^ 8) delta p1 = Res.ok e q ∧
      bar1 = bar.AddPlayable e := by
  unfold parseOn at h
  simp only at h
  split at h
  · simp at h
  · split at h
    · simp at h
    · split at h
      · split at h
        · simp at h
        · split at h
          · simp at h
          · split at h
            · simp at h
            · split at h
              · simp at h
              · split at h
                · simp at h
                · rename_i hn _ sig hs hle _
                  obtain ⟨d, p1, e, he, hb⟩ := parsePlay_playable _ _ _ _ _ _ _ _ h
                  exact ⟨sig, _, _, d, p1, e, hs, hn, Nat.not_lt.mp hle, by decide,
                    ⟨by decide, 0, 0, by decide, by decide, by decide⟩, he, hb⟩
      · split at h
        · simp at h
        · split at h
          · simp at h
          · split at h
            · simp at h
            · split at h
              · simp at h
              · split at h
                · simp at h
                · rename_i f hf hn _ sig hs hle _
                  obtain ⟨d, p1, e, he, hb⟩ := parsePlay_playable _ _ _ _ _ _ _ _ h
                  have hden : f.den ≠ 0 := by
                    intro h0
                    apply hn
                    simp [Modf, h0]
                  refine ⟨sig, (Modf f).1 % 2 ^ 64, (Modf f).2, d, p1, e, hs, hn,
                    Nat.not_lt.mp hle, Nat.mod_lt _ (Nat.pos_of_ne_zero hden),
                    Modf_float32 f (henv _ f hf), ?_, hb⟩
                  rw [Nat.mod_mod_of_dvd _ (by decide)]
                  exact he

/-- The tick formula through `parseOn`: when `ParseFloat(lit, 32)` returns
values a `float32` holds, every event a successful on-statement appends to a
bar with a signature has the tick of the formula, for a beat of the bar and a
delta in `[0,1)`, computed with the rounded `float64` product as with the
exact one. -/
theorem parseOn_tick_formula {N C : Type} (fuel : Nat) (env : Env N C)
    (bar bar1 : Bar N C) (p q : Parser)
    (henv : ∀ lit f, env.parseFloat lit 32 = some f → float32Value f)
    (h : parseOn fuel env bar p = (bar1, Res.ok () q)) :
    ∃ e, bar1 = bar.AddPlayable e ∧ ∀ x, e = some x →
      ∃ sig beat delta, bar.signature = some sig ∧ 1 ≤ beat ∧ beat ≤ sig.beats ∧
        delta.num < delta.den ∧
        playableTickFloat64 bar (beat % 2 ^ 8) delta = some x.tick ∧
        playableTick bar (beat % 2 ^ 8) delta = some x.tick ∧
        (beat ≤ 255 →
          x.tick = (bar.offset * (sig.beats * 960) + (beat - 1) * 960
            + ⌊((960 / sig.duration : ℕ) : ℚ) * ((delta.num : ℚ) / (delta.den : ℚ))⌋₊)
              % 2 ^ 32) := by
  obtain ⟨sig, n, delta, d, p1, e, hs, hn, hle, hdl, hf, he, hb⟩ :=
    parseOn_passes_float32 fuel env bar bar1 p q henv h
  refine ⟨e, hb, ?_⟩
  intro x hx
  subst hx
  have ht := (parsePlayableLoop_tick env bar d (n % 2 ^ 8) delta fuel none p1 q x
    (by intro y hy; cases hy) he).1
  refine ⟨sig, n, delta, hs, Nat.pos_of_ne_zero hn, hle, hdl, ?_, ht, ?_⟩
  · rw [playableTickFloat64_eq bar _ delta hf]
    exact ht
  · intro h255
    have hn8 : n % 2 ^ 8 = n := Nat.mod_eq_of_lt (by omega)
    rw [hn8] at ht
    rw [floor_deltaTicks]
    exact (playableTick_eq bar sig n delta x.tick hs ⟨Nat.pos_of_ne_zero hn, h255⟩ ht).2

end Earring
